import Mathlib

/-!
# LTFS Data Management: file handle locking, region state and recall

A shallow embedding of `src/connector/dmapi/Connector.cc` (the `FsObj` file
handle: lock map, region marking, attribute access; the data events), of
`src/server/SelRecall.cc` (`recall`, `recallStep`, `execRequest`, `addJob`,
`addRequest`), of `src/server/OpenLTFSInventory.cc` (`mount`, `unmount`), of
`src/server/Server.cc` (retries on a busy tape, tape file names, `createDir`,
`createLink`) and of `src/client/InfoFilesCommand.cc` (`doCommand`).

Conventions of the embedding:

* The process state touched by the code is an explicit `World` value that is
  passed through every operation.
* A DMAPI or POSIX call that can fail takes its outcome as an argument
  (`none`: the call succeeds, `some e`: it returns `-1` with `errno = e`), so
  that every theorem quantifies over the behaviour of the filesystem.
* Every DMAPI or POSIX call that is made is appended to `World.log`.
* A C++ `throw` is a value of `Exn`; an operation returns `Except Exn _`
  together with the world at the point of the throw.
* The reference counts of the lock map are `int` in the source and `Int`
  here (signed overflow is not modelled).
-/

namespace LTFSDM

/-! ## File identity and the lock map (`Connector.cc`, lines 32-52) -/

/-- File identity `fuid_t`: filesystem id, inode generation, inode number. -/
structure fuid_t where
  fsid : Nat
  igen : Nat
  ino : Nat
  deriving DecidableEq, Repr

/-- Comparator `ltstr::operator()` that keys `fuidMap`. -/
def ltstr (fuid1 fuid2 : fuid_t) : Bool :=
  decide (fuid1.ino < fuid2.ino)
    || (decide (fuid1.ino = fuid2.ino)
      && (decide (fuid1.igen < fuid2.igen)
        || (decide (fuid1.igen = fuid2.igen)
          && decide (fuid1.fsid < fuid2.fsid))))

/-- Key equivalence of a `std::map` ordered by `ltstr`: neither key is less
than the other. -/
def keyEquiv (a b : fuid_t) : Bool := !ltstr a b && !ltstr b a

/-- The container `std::map<fuid_t, int, ltstr>`: its entries in iteration
order. -/
abbrev FuidMap := List (fuid_t × Int)

namespace FuidMap

/-- Member `std::map::count(key)`: the number of entries with an equivalent key. -/
def count (m : FuidMap) (k : fuid_t) : Nat :=
  (m.filter fun e => keyEquiv e.1 k).length

/-- Value read by `fuidMap[key]` when the key is present. -/
def find (m : FuidMap) (k : fuid_t) : Option Int :=
  (m.find? fun e => keyEquiv e.1 k).map Prod.snd

/-- Effect of `fuidMap[key] = v` for a key that is not present: a new entry at
the key's place in the order. -/
def insert (k : fuid_t) (v : Int) : FuidMap → FuidMap
  | [] => [(k, v)]
  | e :: es => if ltstr k e.1 then (k, v) :: e :: es else e :: insert k v es

/-- Effect of `fuidMap[key]++` and `fuidMap[key]--` for a key that is present:
the stored value is changed in place. -/
def modify (m : FuidMap) (k : fuid_t) (f : Int → Int) : FuidMap :=
  m.map fun e => if keyEquiv e.1 k then (e.1, f e.2) else e

/-- Member `std::map::erase(key)`. -/
def erase (m : FuidMap) (k : fuid_t) : FuidMap :=
  m.filter fun e => !keyEquiv e.1 k

end FuidMap

/-! ## Exceptions, events and the world -/

/-- Values thrown in the embedded code.  `errno` and `general_error`
(`Error::LTFSDM_GENERAL_ERROR`) and `attr_format` (`Error::LTFSDM_ATTR_FORMAT`)
are thrown as `int`; `nelem` is the `unsigned int` thrown by `getMigState`;
`assert_failed` is a failing `assert`. -/
inductive Exn where
  | errno (e : Int)
  | general_error
  | attr_format
  | nelem (n : Nat)
  | assert_failed
  deriving DecidableEq, Repr

/-- A managed region `dm_region_t`. -/
structure dm_region_t where
  rg_offset : Nat
  rg_size : Nat
  rg_flags : Nat
  deriving DecidableEq, Repr

/-- Calls to the filesystem interface, in the order they are made. -/
inductive Event where
  | request_right (k : fuid_t)
  | release_right (k : fuid_t)
  | get_region
  | set_region (regs : List dm_region_t)
  | get_dmattr
  | set_dmattr
  | remove_dmattr
  | get_fileattr
  | open_tape
  | close_tape
  | read_tape (rsize : Int)
  | write_invis (offset : Nat) (size : Nat) (wsize : Int)
  deriving DecidableEq, Repr

/-- Modelled from the spec: the tape attribute record `FsObj::attr_t` is
declared in `src/connector/Connector.h`, which is not among the sources.  The
spec lists its fields: type tag, tape-id array (length N), start-block array
(length N), copies count, in-progress flag. -/
structure attr_t where
  typeId : Nat
  tapeId : List String
  startBlock : List Nat
  copies : Nat
  inProgress : Bool
  deriving DecidableEq, Repr

/-- The record left by `memset(&attr, 0, sizeof(attr_t))`, for arrays of
length `N`. -/
def attr_t.zero (N : Nat) : attr_t :=
  { typeId := 0, tapeId := List.replicate N "", startBlock := List.replicate N 0,
    copies := 0, inProgress := false }

/-- The state the embedded code acts on: the process-wide lock map, the
managed file a handle refers to (its regions, its DMAPI attribute stored under
`Const::DMAPI_ATTR`, its bytes), the tape file of that file with the offset of
the open descriptor, and the log of filesystem calls. -/
structure World where
  fuidMap : FuidMap
  regions : List dm_region_t
  attr : Option attr_t
  data : List Nat
  tape : List Nat
  tapePos : Nat
  log : List Event
  deriving DecidableEq, Repr

/-- Append a call to the log. -/
def World.emit (w : World) (e : Event) : World := { w with log := w.log ++ [e] }

/-- The members of `FsObj` that the embedded code reads: the DMAPI handle,
which encodes the file identity returned by `getFsId()`, `getIGen()` and
`getINode()`, and the flag `isLocked`. -/
structure FsObj where
  handle : fuid_t
  isLocked : Bool
  deriving DecidableEq, Repr

/-! ## `FsObj::lock` and `FsObj::unlock` (`Connector.cc`, lines 621-694) -/

/-- Method `FsObj::lock()`; `request_right` is the outcome of `dm_request_right`. -/
def FsObj.lock (request_right : Option Int) (o : FsObj) (w : World) :
    Except Exn FsObj × World :=
  let fuid := o.handle
  if w.fuidMap.count fuid = 0 then
    let w1 := w.emit (.request_right fuid)
    match request_right with
    | some e => (.error (.errno e), w1)
    | none =>
      (.ok { o with isLocked := true }, { w1 with fuidMap := FuidMap.insert fuid 1 w1.fuidMap })
  else
    (.ok { o with isLocked := true },
      { w with fuidMap := w.fuidMap.modify fuid (fun c => c + 1) })

/-- Method `FsObj::unlock()`; `release_right` is the outcome of `dm_release_right`. -/
def FsObj.unlock (release_right : Option Int) (o : FsObj) (w : World) :
    Except Exn FsObj × World :=
  let fuid := o.handle
  if o.isLocked = false then (.error .general_error, w)
  else if w.fuidMap.count fuid ≠ 1 then (.error .assert_failed, w)
  else if w.fuidMap.find fuid = some 1 then
    let w1 := w.emit (.release_right fuid)
    match release_right with
    | some e => (.error (.errno e), w1)
    | none =>
      (.ok { o with isLocked := false }, { w1 with fuidMap := w1.fuidMap.erase fuid })
  else
    (.ok { o with isLocked := false },
      { w with fuidMap := w.fuidMap.modify fuid (fun c => c - 1) })

/-! ## Region state (`Connector.cc`, lines 784-919) -/

/-- Region flag `DM_REGION_NOEVENT` of the DMAPI header `xfs/dmapi.h`. -/
def DM_REGION_NOEVENT : Nat := 0
/-- Region flag `DM_REGION_READ` of the DMAPI header. -/
def DM_REGION_READ : Nat := 1
/-- Region flag `DM_REGION_WRITE` of the DMAPI header. -/
def DM_REGION_WRITE : Nat := 2
/-- Region flag `DM_REGION_TRUNCATE` of the DMAPI header. -/
def DM_REGION_TRUNCATE : Nat := 4

/-- Value of `errno` for a missing attribute. -/
def ENOENT : Int := 2
/-- Value of `errno` for a buffer that is too small. -/
def E2BIG : Int := 7

/-- Modelled from the spec: the enumeration `FsObj::file_state` is declared in
`src/connector/Connector.h`, which is not among the sources; its three members
are the residency states named by the spec and used by the code. -/
inductive file_state where
  | RESIDENT
  | PREMIGRATED
  | MIGRATED
  deriving DecidableEq, Repr

/-- DMAPI call `dm_get_region` with a buffer of `nelem` regions: it returns the
managed regions of the file, and fails with `E2BIG` when there are more than
`nelem` of them. -/
def dm_get_region (fail : Option Int) (nelem : Nat) (w : World) :
    Except Int (List dm_region_t) × World :=
  let w1 := w.emit .get_region
  match fail with
  | some e => (.error e, w1)
  | none => if w.regions.length ≤ nelem then (.ok w.regions, w1) else (.error E2BIG, w1)

/-- DMAPI call `dm_set_region`: the first `nelem` regions of `regbuf` replace
the managed regions of the file. -/
def dm_set_region (fail : Option Int) (nelem : Nat) (regbuf : List dm_region_t) (w : World) :
    Except Int Unit × World :=
  let w1 := w.emit (.set_region (regbuf.take nelem))
  match fail with
  | some e => (.error e, w1)
  | none => (.ok (), { w1 with regions := regbuf.take nelem })

/-- Method `FsObj::getMigState()`. -/
def FsObj.getMigState (get_region : Option Int) (_o : FsObj) (w : World) :
    Except Exn file_state × World :=
  match dm_get_region get_region 2 w with
  | (.error e, w1) => (.error (.errno e), w1)
  | (.ok regbuf, w1) =>
    let nelem := regbuf.length
    if nelem > 1 then (.error (.nelem nelem), w1)
    else
      match regbuf with
      | [] => (.ok .RESIDENT, w1)
      | r :: _ =>
        if r.rg_flags = (DM_REGION_READ ||| DM_REGION_WRITE ||| DM_REGION_TRUNCATE) then
          (.ok .MIGRATED, w1)
        else
          (.ok .PREMIGRATED, w1)

/-- Method `FsObj::finishPremigration()`. -/
def FsObj.finishPremigration (set_region : Option Int) (_o : FsObj) (w : World) :
    Except Exn Unit × World :=
  let reg : dm_region_t :=
    { rg_offset := 0, rg_size := 0, rg_flags := DM_REGION_WRITE ||| DM_REGION_TRUNCATE }
  match dm_set_region set_region 1 [reg] w with
  | (.error e, w1) => (.error (.errno e), w1)
  | (.ok _, w1) => (.ok (), w1)

/-- Method `FsObj::finishRecall(fstate)`. -/
def FsObj.finishRecall (set_region : Option Int) (fstate : file_state) (_o : FsObj)
    (w : World) : Except Exn Unit × World :=
  if fstate = .PREMIGRATED then
    let reg : dm_region_t :=
      { rg_offset := 0, rg_size := 0, rg_flags := DM_REGION_WRITE ||| DM_REGION_TRUNCATE }
    match dm_set_region set_region 1 [reg] w with
    | (.error e, w1) => (.error (.errno e), w1)
    | (.ok _, w1) => (.ok (), w1)
  else
    let reg : dm_region_t := { rg_offset := 0, rg_size := 0, rg_flags := DM_REGION_NOEVENT }
    match dm_set_region set_region 0 [reg] w with
    | (.error e, w1) => (.error (.errno e), w1)
    | (.ok _, w1) => (.ok (), w1)

/-- Method `FsObj::prepareStubbing()`. -/
def FsObj.prepareStubbing (set_region : Option Int) (_o : FsObj) (w : World) :
    Except Exn Unit × World :=
  let reg : dm_region_t :=
    { rg_offset := 0, rg_size := 0,
      rg_flags := DM_REGION_READ ||| DM_REGION_WRITE ||| DM_REGION_TRUNCATE }
  match dm_set_region set_region 1 [reg] w with
  | (.error e, w1) => (.error (.errno e), w1)
  | (.ok _, w1) => (.ok (), w1)

/-! ## Attribute access (`Connector.cc`, lines 743-782) -/

/-- DMAPI call `dm_remove_dmattr` for the attribute `Const::DMAPI_ATTR`. -/
def dm_remove_dmattr (fail : Option Int) (w : World) : Except Int Unit × World :=
  let w1 := w.emit .remove_dmattr
  match fail with
  | some e => (.error e, w1)
  | none => (.ok (), { w1 with attr := none })

/-- DMAPI call `dm_get_dmattr` for the attribute `Const::DMAPI_ATTR`: it fails
with `ENOENT` when the file carries no such attribute. -/
def dm_get_dmattr (fail : Option Int) (w : World) : Except Int attr_t × World :=
  let w1 := w.emit .get_dmattr
  match fail with
  | some e => (.error e, w1)
  | none =>
    match w.attr with
    | none => (.error ENOENT, w1)
    | some a => (.ok a, w1)

/-- DMAPI call `dm_set_dmattr` for the attribute `Const::DMAPI_ATTR` with a
buffer of `sizeof(attr_t)` bytes: the record given is stored with the file. -/
def dm_set_dmattr (fail : Option Int) (value : attr_t) (w : World) : Except Int Unit × World :=
  let w1 := w.emit .set_dmattr
  match fail with
  | some e => (.error e, w1)
  | none => (.ok (), { w1 with attr := some value })

/-- Method `FsObj::addAttribute(value)`; `hash_code` is the value of
`typeid(attr_t).hash_code()`, which the method writes into its copy of the
record before storing it. -/
def FsObj.addAttribute (hash_code : Nat) (set_dmattr : Option Int) (value : attr_t)
    (_o : FsObj) (w : World) : Except Exn Unit × World :=
  let value := { value with typeId := hash_code }
  match dm_set_dmattr set_dmattr value w with
  | (.error e, w1) => (.error (.errno e), w1)
  | (.ok _, w1) => (.ok (), w1)

/-- Method `FsObj::remAttribute()`. -/
def FsObj.remAttribute (remove_dmattr : Option Int) (_o : FsObj) (w : World) :
    Except Exn Unit × World :=
  match dm_remove_dmattr remove_dmattr w with
  | (.error e, w1) => (.error (.errno e), w1)
  | (.ok _, w1) => (.ok (), w1)

/-- Method `FsObj::getAttribute()`; `N` is the length of the arrays of `attr_t`
and `hash_code` the value of `typeid(attr_t).hash_code()`. -/
def FsObj.getAttribute (N hash_code : Nat) (get_dmattr : Option Int) (_o : FsObj)
    (w : World) : Except Exn attr_t × World :=
  let attr := attr_t.zero N
  match dm_get_dmattr get_dmattr w with
  | (.error e, w1) => if e = ENOENT then (.ok attr, w1) else (.error (.errno e), w1)
  | (.ok a, w1) => if a.typeId ≠ hash_code then (.error .attr_format, w1) else (.ok a, w1)

/-! ## File data (`Connector.cc`, lines 529-561 and 711-723) -/

/-- Outcome of a `read` or of `dm_write_invis`: failure with an `errno`, or the
number of bytes the call is ready to transfer. -/
inductive IoResult where
  | fail (errno : Int)
  | bytes (n : Nat)
  deriving DecidableEq, Repr

/-- Method `FsObj::stat()`, reduced to the member `st_size` that `recall` reads:
the size reported by `dm_get_fileattr`. -/
def FsObj.stat (get_fileattr : Option Int) (_o : FsObj) (w : World) :
    Except Exn Nat × World :=
  let w1 := w.emit .get_fileattr
  match get_fileattr with
  | some e => (.error (.errno e), w1)
  | none => (.ok w.data.length, w1)

/-- Bytes of a file after `buf` is written at `offset`. -/
def writeAt (data : List Nat) (offset : Nat) (buf : List Nat) : List Nat :=
  if buf = [] then data
  else data.take offset ++ List.replicate (offset - data.length) 0 ++ buf
    ++ data.drop (offset + buf.length)

/-- Method `FsObj::write(offset, size, buffer)`: the invisible write
`dm_write_invis`; it returns the number of bytes written, or `-1`. -/
def FsObj.write (res : IoResult) (offset size : Nat) (buffer : List Nat) (_o : FsObj)
    (w : World) : Int × World :=
  match res with
  | .fail _ => (-1, w.emit (.write_invis offset size (-1)))
  | .bytes n =>
    let part := buffer.take (min n size)
    (part.length,
      { w with data := writeAt w.data offset part }.emit (.write_invis offset size part.length))

/-- System call `open(tapeName, O_RDWR)`: on success the descriptor is at
offset 0 of the tape file. -/
def open_tape (fail : Option Int) (w : World) : Except Int Unit × World :=
  let w1 := w.emit .open_tape
  match fail with
  | some e => (.error e, w1)
  | none => (.ok (), { w1 with tapePos := 0 })

/-- System call `read(fd, buffer, count)` on the tape file: the bytes
transferred start at the descriptor's offset and are at most `count` and at
most what the file still holds. -/
def read_tape (res : IoResult) (count : Nat) (w : World) : Except Int (List Nat) × World :=
  match res with
  | .fail e => (.error e, w.emit (.read_tape (-1)))
  | .bytes n =>
    let buffer := (w.tape.drop w.tapePos).take (min n count)
    (.ok buffer, { w with tapePos := w.tapePos + buffer.length }.emit (.read_tape buffer.length))

/-! ## `recall` (`SelRecall.cc`, lines 137-209) -/

/-- Outcomes of the filesystem calls made by one call of `recall`. -/
structure RecallCalls where
  path_to_handle : String → Except Int fuid_t
  request_right : Option Int
  get_region : Option Int
  open_tape : Option Int
  get_fileattr : Option Int
  read : Nat → IoResult
  write_invis : Nat → IoResult
  set_region : Option Int
  remove_dmattr : Option Int
  release_right : Option Int

/-- A run in which every filesystem call succeeds: each file name resolves to
the identity `k`, and every read and every invisible write transfers up to
`chunk` bytes. -/
def RecallCalls.allSucceed (k : fuid_t) (chunk : Nat) : RecallCalls :=
  { path_to_handle := fun _ => .ok k
    request_right := none
    get_region := none
    open_tape := none
    get_fileattr := none
    read := fun _ => .bytes chunk
    write_invis := fun _ => .bytes chunk
    set_region := none
    remove_dmattr := none
    release_right := none }

/-- A run like `allSucceed` in which every invisible write transfers at most
`short` bytes. -/
def RecallCalls.shortWrite (k : fuid_t) (chunk short : Nat) : RecallCalls :=
  { RecallCalls.allSucceed k chunk with write_invis := fun _ => .bytes short }

/-- A run like `allSucceed` in which `open` of the tape file fails with the
given `errno`. -/
def RecallCalls.openFails (k : fuid_t) (chunk : Nat) (errno : Int) : RecallCalls :=
  { RecallCalls.allSucceed k chunk with open_tape := some errno }

/-- Constructor `FsObj::FsObj(std::string fileName)`. -/
def FsObj.ofPath (path_to_handle : String → Except Int fuid_t) (fileName : String) :
    Except Exn FsObj :=
  match path_to_handle fileName with
  | .error e => .error (.errno e)
  | .ok h => .ok { handle := h, isLocked := false }

/-- The way the `try` block of `recall` is left. -/
inductive TryEnd where
  | completed
  | returned (value : Nat)
  | thrown (x : Exn)
  deriving DecidableEq, Repr

/-- Local variables of `recall` that are read after the `try` block: whether
`fd != -1`, and `statbuf.st_size` once `statbuf` is assigned. -/
structure RecallLocals where
  fdSet : Bool
  st_size : Option Nat
  deriving DecidableEq, Repr

/-- The loop `while ( offset < statbuf.st_size )` of `recall`, with `buffer` of
`READ_BUFFER_SIZE` bytes; `i` counts the iterations and `fuel` bounds the
number of loop tests (`none`: the bound is reached). -/
def recallLoop (READ_BUFFER_SIZE : Nat) (c : RecallCalls) (target : FsObj) (st_size : Nat) :
    Nat → Nat → Nat → World → Option (Except Exn Unit × World)
  | 0, _, _, _ => none
  | fuel + 1, i, offset, w =>
    if offset < st_size then
      match read_tape (c.read i) READ_BUFFER_SIZE w with
      | (.error e, w1) => some (.error (.errno e), w1)
      | (.ok buffer, w1) =>
        let rsize : Int := buffer.length
        match target.write (c.write_invis i) offset buffer.length buffer w1 with
        | (wsize, w2) =>
          if wsize ≠ rsize then some (.error .general_error, w2.emit .close_tape)
          else recallLoop READ_BUFFER_SIZE c target st_size fuel (i + 1)
            (offset + buffer.length) w2
    else some (.ok (), w)

/-- The statements of `recall` after the copy: `finishRecall`, `remAttribute`
for the target RESIDENT, `unlock`. -/
def recallFinish (c : RecallCalls) (target : FsObj) (toState : file_state) (w : World) :
    TryEnd × World :=
  match target.finishRecall c.set_region toState w with
  | (.error x, w1) => (.thrown x, w1)
  | (.ok _, w1) =>
    match (if toState = .RESIDENT then target.remAttribute c.remove_dmattr w1
           else (.ok (), w1)) with
    | (.error x, w2) => (.thrown x, w2)
    | (.ok _, w2) =>
      match target.unlock c.release_right w2 with
      | (.error x, w3) => (.thrown x, w3)
      | (.ok _, w3) => (.completed, w3)

/-- The branch `else if ( state == FsObj::MIGRATED )` of `recall` followed by
the statements after it: the tape file is opened, the size is read, the data is
copied, the descriptor is closed. -/
def recallCopy (READ_BUFFER_SIZE : Nat) (c : RecallCalls) (fuel : Nat) (target : FsObj)
    (toState : file_state) (w : World) : Option (TryEnd × RecallLocals × World) :=
  match open_tape c.open_tape w with
  | (.error _, w1) => some (.thrown .general_error, ⟨false, none⟩, w1)
  | (.ok _, w1) =>
    match target.stat c.get_fileattr w1 with
    | (.error x, w2) => some (.thrown x, ⟨true, none⟩, w2)
    | (.ok st_size, w2) =>
      match recallLoop READ_BUFFER_SIZE c target st_size fuel 0 0 w2 with
      | none => none
      | some (.error x, w3) => some (.thrown x, ⟨true, some st_size⟩, w3)
      | some (.ok _, w3) =>
        match recallFinish c target toState (w3.emit .close_tape) with
        | (e, w4) => some (e, ⟨true, some st_size⟩, w4)

/-- The `try` block of `recall`. -/
def recallTry (READ_BUFFER_SIZE : Nat) (c : RecallCalls) (fuel : Nat)
    (fileName _tapeId : String) (state toState : file_state) (w : World) :
    Option (TryEnd × RecallLocals × World) :=
  match FsObj.ofPath c.path_to_handle fileName with
  | .error x => some (.thrown x, ⟨false, none⟩, w)
  | .ok target0 =>
    match target0.lock c.request_right w with
    | (.error x, w1) => some (.thrown x, ⟨false, none⟩, w1)
    | (.ok target, w1) =>
      match target.getMigState c.get_region w1 with
      | (.error x, w2) => some (.thrown x, ⟨false, none⟩, w2)
      | (.ok curstate, w2) =>
        let state := if curstate ≠ state then curstate else state
        if state = .RESIDENT then some (.returned 0, ⟨false, none⟩, w2)
        else if state = .MIGRATED then
          recallCopy READ_BUFFER_SIZE c fuel target toState w2
        else
          match recallFinish c target toState w2 with
          | (e, w3) => some (e, ⟨false, none⟩, w3)

/-- Result of a call of `recall`: the value returned (`none` when
`statbuf.st_size` is returned without `statbuf` having been assigned), or an
exception that `catch ( int error )` does not handle. -/
inductive RecallResult where
  | value (v : Option Nat)
  | uncaught (x : Exn)
  deriving DecidableEq, Repr

/-- Function `recall(fileName, tapeId, state, toState)` of `SelRecall.cc` (the
bare name is reserved in Lean): the `try` block, the handler
`catch ( int error )`, which closes `fd` when it is set, and the final
`return statbuf.st_size`. -/
def SelRecall.recall (READ_BUFFER_SIZE : Nat) (c : RecallCalls) (fuel : Nat)
    (fileName tapeId : String) (state toState : file_state) (w : World) :
    Option (RecallResult × World) :=
  match recallTry READ_BUFFER_SIZE c fuel fileName tapeId state toState w with
  | none => none
  | some (.completed, l, w1) => some (.value l.st_size, w1)
  | some (.returned v, _, w1) => some (.value (some v), w1)
  | some (.thrown (.nelem n), _, w1) => some (.uncaught (.nelem n), w1)
  | some (.thrown .assert_failed, _, w1) => some (.uncaught .assert_failed, w1)
  | some (.thrown _, l, w1) =>
    some (.value l.st_size, if l.fdSet then w1.emit .close_tape else w1)

/-- A world with an empty lock map and a resident, empty file. -/
def World.empty : World :=
  { fuidMap := [], regions := [], attr := none, data := [], tape := [], tapePos := 0, log := [] }


/-- A sample world: an empty lock map, a file of five bytes with one managed
region of the given flags and a tape attribute naming tape "T1", and a tape
file of five bytes. -/
def World.sample (flags : Nat) : World :=
  { fuidMap := []
    regions := [{ rg_offset := 0, rg_size := 0, rg_flags := flags }]
    attr := some { typeId := 7, tapeId := ["T1"], startBlock := [0], copies := 1,
                   inProgress := false }
    data := [0, 0, 0, 0, 0]
    tape := [10, 11, 12, 13, 14]
    tapePos := 0
    log := [] }

/-! ## Call sequences on the lock -/

/-- Sequence of `n` consecutive calls of `lock()` on one `FsObj`, the
filesystem granting the right. -/
def lockN : Nat → FsObj → World → Except Exn FsObj × World
  | 0, o, w => (.ok o, w)
  | n + 1, o, w =>
    match lockN n o w with
    | (.ok o1, w1) => o1.lock none w1
    | (.error x, w1) => (.error x, w1)

/-- Sequence of `n` consecutive calls of `unlock()` on one `FsObj`, the
filesystem taking the right back. -/
def unlockN : Nat → FsObj → World → Except Exn FsObj × World
  | 0, o, w => (.ok o, w)
  | n + 1, o, w =>
    match unlockN n o w with
    | (.ok o1, w1) => o1.unlock none w1
    | (.error x, w1) => (.error x, w1)

/-- One call of `lock()` on each of `n` newly constructed handles of the file
identity `k`, the filesystem granting the right. -/
def lockEach (k : fuid_t) : Nat → World → Except Exn Unit × World
  | 0, w => (.ok (), w)
  | n + 1, w =>
    match lockEach k n w with
    | (.ok _, w1) =>
      match FsObj.lock none { handle := k, isLocked := false } w1 with
      | (.ok _, w2) => (.ok (), w2)
      | (.error x, w2) => (.error x, w2)
    | (.error x, w1) => (.error x, w1)

/-- One call of `unlock()` on each of `n` handles of the file identity `k` as
their `lock()` left them, the filesystem taking the right back. -/
def unlockEach (k : fuid_t) : Nat → World → Except Exn Unit × World
  | 0, w => (.ok (), w)
  | n + 1, w =>
    match unlockEach k n w with
    | (.ok _, w1) =>
      match FsObj.unlock none { handle := k, isLocked := true } w1 with
      | (.ok _, w2) => (.ok (), w2)
      | (.error x, w2) => (.error x, w2)
    | (.error x, w1) => (.error x, w1)

/-! ## Reading the log -/

/-- A read of the tape file or an invisible write. -/
def Event.isTransfer : Event → Bool
  | .read_tape _ => true
  | .write_invis _ _ _ => true
  | _ => false

/-- An invisible write that returned another count than the size it was
given. -/
def Event.isShortWrite : Event → Bool
  | .write_invis _ size wsize => wsize != (size : Int)
  | _ => false

/-- A call that changes the regions or removes the attribute. -/
def Event.isStateChange : Event → Bool
  | .set_region _ => true
  | .remove_dmattr => true
  | _ => false

/-- Check that in a sequence of calls every invisible write is given the chunk
read last and the offset equal to the number of bytes read before that chunk;
`total` is the number of bytes read so far and `last` the size of the chunk
read last. -/
def writesFollowReads (total last : Nat) : List Event → Bool
  | [] => true
  | .read_tape rsize :: es => writesFollowReads (total + rsize.toNat) rsize.toNat es
  | .write_invis offset size _ :: es =>
    offset + last == total && size == last && writesFollowReads total last es
  | _ :: es => writesFollowReads total last es

/-! ## Inventory (`OpenLTFSInventory.cc`) -/

/-- Modelled from the spec: the states of a cartridge, an enumeration of
`OpenLTFSCartridge`, whose header is not among the sources. -/
inductive CartridgeState where
  | UNKNOWN
  | UNMOUNTED
  | MOVING
  | MOUNTED
  | IN_USE
  | ERROR
  deriving DecidableEq, Repr

/-- The members of `OpenLTFSCartridge` that the inventory reads and writes:
`GetObjectID()`, `getState()`/`setState()`, `get_slot()`. -/
structure OpenLTFSCartridge where
  objectID : String
  state : CartridgeState
  slot : Int
  deriving DecidableEq, Repr

/-- The members of `OpenLTFSDrive` that the inventory reads and writes:
`GetObjectID()`, `isBusy()`/`setBusy()`/`setFree()`, `get_slot()`. -/
structure OpenLTFSDrive where
  objectID : String
  busy : Bool
  slot : Int
  deriving DecidableEq, Repr

/-- Calls to the tape library made through a cartridge object. -/
inductive LibCall where
  | Mount (cartridge drive : String) (rc : Int)
  | Unmount (cartridge : String) (rc : Int)
  | update (cartridge : String)
  deriving DecidableEq, Repr

/-- The members `drives` and `cartridges` of `OpenLTFSInventory`, with the log
of library calls. -/
structure OpenLTFSInventory where
  drives : List OpenLTFSDrive
  cartridges : List OpenLTFSCartridge
  calls : List LibCall
  deriving DecidableEq, Repr

/-- The loop `for ( x : list ) if ( p(x) ) found = x;` started at index `i` with
`found = acc`: the last element that satisfies `p`, with its index. -/
def lastMatchFrom {α : Type} (p : α → Bool) : List α → Nat → Option (Nat × α) → Option (Nat × α)
  | [], _, acc => acc
  | x :: xs, i, acc => lastMatchFrom p xs (i + 1) (if p x then some (i, x) else acc)

/-- The loop `for ( x : list ) if ( p(x) ) found = x;` with `found = nullptr`
at the start. -/
def lastMatch {α : Type} (p : α → Bool) (l : List α) : Option (Nat × α) :=
  lastMatchFrom p l 0 none

/-- A write through a shared pointer to the element at index `i` of a list. -/
def updateAt {α : Type} (f : α → α) : List α → Nat → List α
  | [], _ => []
  | x :: xs, 0 => f x :: xs
  | x :: xs, i + 1 => x :: updateAt f xs i

/-- The way a method of the inventory ends: it returns, it throws, or it
dereferences a null pointer. -/
inductive InvEnd where
  | returned
  | thrown (x : Exn)
  | null_dereference
  deriving DecidableEq, Repr

/-- Modelled from the spec: method `OpenLTFSCartridge::update(sess)`, whose
source is not among the sources; it refreshes the library-side attributes of
the cartridge, here its slot, to what the library reports (`slot`). -/
def OpenLTFSCartridge.update (slot : Int) (c : OpenLTFSCartridge) : OpenLTFSCartridge :=
  { c with slot := slot }

/-- The first block of `OpenLTFSInventory::mount`, under the mutex: the lookup
of the cartridge and of the drive, the two checks, `setState(MOVING)` and
`setBusy()`.  It gives the indices of the cartridge and the drive found. -/
def OpenLTFSInventory.mountBegin (driveid cartridgeid : String) (inv : OpenLTFSInventory) :
    Except Exn (Nat × Nat × OpenLTFSInventory) :=
  match lastMatch (fun c => c.objectID == cartridgeid) inv.cartridges with
  | none => .error .general_error
  | some (ci, ctg) =>
    if ctg.state ≠ .UNMOUNTED then .error .general_error
    else
      match lastMatch (fun d => d.objectID == driveid) inv.drives with
      | none => .error .general_error
      | some (di, drv) =>
        if drv.busy = true then .error .general_error
        else
          .ok (ci, di,
            { inv with
              cartridges := updateAt (fun c => { c with state := .MOVING }) inv.cartridges ci
              drives := updateAt (fun d => { d with busy := true }) inv.drives di })

/-- The last block of `OpenLTFSInventory::mount`, under the mutex:
`ctg->update(sess)`, `setState(MOUNTED)`, `drv->setFree()`. -/
def OpenLTFSInventory.mountEnd (cartridgeid : String) (slot : Int) (ci di : Nat)
    (inv : OpenLTFSInventory) : OpenLTFSInventory :=
  { drives := updateAt (fun d => { d with busy := false }) inv.drives di
    cartridges :=
      updateAt (fun c => { c.update slot with state := .MOUNTED }) inv.cartridges ci
    calls := inv.calls ++ [LibCall.update cartridgeid] }

/-- Method `OpenLTFSInventory::mount(driveid, cartridgeid)`; `rc` is the value
returned by the library call `ctg->Mount(driveid)`, which the method does not
read, and `slot` the slot that the library reports afterwards. -/
def OpenLTFSInventory.mount (rc : Int) (slot : Int) (driveid cartridgeid : String)
    (inv : OpenLTFSInventory) : InvEnd × OpenLTFSInventory :=
  match inv.mountBegin driveid cartridgeid with
  | .error x => (.thrown x, inv)
  | .ok (ci, di, inv1) =>
    let inv2 := { inv1 with calls := inv1.calls ++ [LibCall.Mount cartridgeid driveid rc] }
    (.returned, inv2.mountEnd cartridgeid slot ci di)

/-- Method `OpenLTFSInventory::unmount(cartridgeid)`; `UNSET` is the constant
`Const::UNSET`, `rc` the value returned by `ctg->Unmount()` and `slot` the slot
that the library reports afterwards. -/
def OpenLTFSInventory.unmount (UNSET : Int) (rc : Int) (slot : Int) (cartridgeid : String)
    (inv : OpenLTFSInventory) : InvEnd × OpenLTFSInventory :=
  match lastMatch (fun c => c.objectID == cartridgeid) inv.cartridges with
  | none => (.thrown .general_error, inv)
  | some (ci, ctg) =>
    if ctg.state ≠ .MOUNTED then (.thrown .general_error, inv)
    else
      match lastMatch (fun d => d.slot == ctg.slot) inv.drives with
      | none => (.null_dereference, inv)
      | some (di, drv) =>
        let slot0 := ctg.slot
        if drv.busy = true ∨ slot0 = UNSET then (.thrown .general_error, inv)
        else
          let inv1 : OpenLTFSInventory :=
            { inv with
              cartridges := updateAt (fun c => { c with state := .MOVING }) inv.cartridges ci
              drives := updateAt (fun d => { d with busy := true }) inv.drives di }
          let inv2 := { inv1 with calls := inv1.calls ++ [LibCall.Unmount cartridgeid rc] }
          (.returned,
            { drives := updateAt (fun d => { d with busy := false }) inv2.drives di
              cartridges :=
                updateAt (fun c => { c.update slot with state := .UNMOUNTED }) inv2.cartridges ci
              calls := inv2.calls ++ [LibCall.update cartridgeid] })

/-- A sample inventory: the free drives "D1" (slot 256) and "D2" (slot 257)
and the unmounted cartridges "C1" (slot 4096) and "C2" (slot 4097). -/
def OpenLTFSInventory.sample : OpenLTFSInventory :=
  { drives := [⟨"D1", false, 256⟩, ⟨"D2", false, 257⟩]
    cartridges := [⟨"C1", .UNMOUNTED, 4096⟩, ⟨"C2", .UNMOUNTED, 4097⟩]
    calls := [] }

/-! ## Retries on a busy tape (`Server.cc`, lines 29-64) -/

/-- Value of `errno` for a busy device. -/
def EBUSY : Int := 16

/-- Modelled from the spec: the operation kinds `DataBase::operation`, declared
in `DataBase.h`, which is not among the sources. -/
inductive Operation where
  | SELRECALL
  | TRANSRECALL
  | PREMIGRATE
  | MIGRATE
  deriving DecidableEq, Repr

/-- Modelled from the spec: the request states of `DataBase.h` (NEW,
IN_PROGRESS, COMPLETED, FAILED). -/
inductive ReqState where
  | REQ_NEW
  | REQ_INPROGRESS
  | REQ_COMPLETED
  | REQ_FAILED
  deriving DecidableEq, Repr

/-- Modelled from the spec: the tape states of `DataBase.h` (FREE, IN_USE,
MOUNTING, UNMOUNTING). -/
inductive TapeState where
  | TAPE_FREE
  | TAPE_INUSE
  | TAPE_MOUNTING
  | TAPE_UNMOUNTING
  deriving DecidableEq, Repr

/-- A row of the table JOB_QUEUE, with the columns that `SelRecall::addJob`
writes and its ROWID.  A column that can hold NULL is an `Option`; FILE_STATE
holds a value of `FsObj::file_state`. -/
structure JobRow where
  rowid : Int
  operation : Operation
  file_name : Option String
  req_num : Int
  target_state : Int
  file_size : Int
  fs_id : Int
  i_gen : Int
  i_num : Int
  mtime_sec : Int
  mtime_nsec : Int
  last_upd : Int
  file_state : file_state
  tape_id : Option String
  start_block : Int
  failed : Int
  deriving DecidableEq, Repr

/-- A row of the table REQUEST_QUEUE, with the columns that
`SelRecall::addRequest` writes. -/
structure RequestRow where
  operation : Operation
  req_num : Int
  target_state : Int
  coloc_grp : Option Int
  tape_id : Option String
  time_added : Int
  state : ReqState
  deriving DecidableEq, Repr

/-- Modelled from the spec: a row of the table TAPE_LIST (tape ID, pool, mount
state, drive binding, state); the code under `src/` reads TAPE_ID and writes
STATE. -/
structure TapeRow where
  tape_id : Option String
  pool : Option String
  mounted : Bool
  drive : Option String
  state : TapeState
  deriving DecidableEq, Repr

/-- The three tables and the map `Scheduler::updReq`. -/
structure ServerState where
  JOB_QUEUE : List JobRow
  REQUEST_QUEUE : List RequestRow
  TAPE_LIST : List TapeRow
  updReq : Int → Option Bool

/-- Assignment `Scheduler::updReq[reqNum] = b`. -/
def ServerState.setUpdReq (st : ServerState) (reqNum : Int) (b : Bool) : ServerState :=
  { st with updReq := fun n => if n = reqNum then some b else st.updReq n }

/-- What SQLite reads between the quotes when the code writes a quote, the
characters given and a closing quote into a statement: two quotes in a row
stand for one quote character of the value, and a single quote ends the
literal (`none`): what follows it is then read as SQL, not as the value. -/
def sqlUnquote : List Char → Option (List Char)
  | [] => some []
  | [c] => if c = Char.ofNat 39 then none else some [c]
  | c :: d :: rest =>
    if c = Char.ofNat 39 then
      if d = Char.ofNat 39 then (sqlUnquote rest).map fun v => c :: v else none
    else (sqlUnquote (d :: rest)).map fun v => c :: v

/-- The value of the string literal that SQLite reads when `text` is spliced
between quotes into a statement (`none`: a quote of `text` ends the literal
early). -/
def sqlLiteral (text : String) : Option String :=
  (sqlUnquote text.data).map String.mk

/-- Outcome of code that runs an SQL text into which a string is spliced
between quotes.  `statement r`: the text is the statement that the code writes,
with the literal that `sqlLiteral` gives, and `r` is the outcome of the code.
`other_text`: a quote of the string ends the literal early, so that SQLite is
given another text than the statement written; what SQLite does with it is not
part of this embedding. -/
inductive Spliced (α : Type) where
  | statement (result : α)
  | other_text

/-- The value of type `int` that `sqlite3_column_int` gives for a 64-bit
integer: its low 32 bits, signed. -/
def toInt32 (x : Int) : Int :=
  (x + 2147483648) % 4294967296 - 2147483648

/-- Statement `SELECT ROWID, FILE_NAME, FILE_STATE FROM JOB_QUEUE WHERE
REQ_NUM=reqNum AND TAPE_ID='...' ORDER BY START_BLOCK`, where `lit` is the
value of the string literal; rows with equal START_BLOCK come in table
order. -/
def selectJobs (reqNum : Int) (lit : String) (jobs : List JobRow) : List JobRow :=
  (jobs.filter fun r => r.req_num == reqNum && r.tape_id == some lit).insertionSort
    (fun a b => a.start_block ≤ b.start_block)

/-- Statement `UPDATE JOB_QUEUE SET FILE_STATE = toState WHERE REQ_NUM=reqNum AND
TAPE_ID ='...' AND (ROWID BETWEEN group_begin AND group_end)`, where `lit` is
the value of the string literal. -/
def updateJobs (reqNum : Int) (lit : String) (toState : file_state)
    (group_begin group_end : Int) (jobs : List JobRow) : List JobRow :=
  jobs.map fun r =>
    if r.req_num = reqNum ∧ r.tape_id = some lit ∧ group_begin ≤ r.rowid ∧
        r.rowid ≤ group_end then
      { r with file_state := toState }
    else r

/-- The loop of `recallStep` over the rows that the SELECT statement gives,
ended by the pass for `SQLITE_DONE`.  `recallFn` is the function `recall`
acting on a state `σ` of the file system (`none`: it does not return), and
`elapsed i` tells whether `time(NULL) - start < 10` is false after the recall
of the row at position `i`.  `tapeId` is the argument given to `recall` and
`lit` the value that SQLite reads for it in the statements; `group_begin` and
`group_end` are of type `int`.  The arguments are the rows left, the position,
`group_begin`, `group_end` and the table JOB_QUEUE. -/
def recallStepLoop {σ : Type}
    (recallFn : String → String → file_state → file_state → σ → Option (RecallResult × σ))
    (elapsed : Nat → Bool) (reqNum : Int) (tapeId lit : String) (toState : file_state) :
    List JobRow → Nat → Int → Int → List JobRow → σ →
      Option (Except Exn Unit × List JobRow × σ)
  | [], _, group_begin, group_end, jobs, s =>
    some (.ok (), updateJobs reqNum lit toState group_begin group_end jobs, s)
  | row :: rest, i, group_begin, group_end, jobs, s =>
    match row.file_name with
    | none =>
      recallStepLoop recallFn elapsed reqNum tapeId lit toState rest (i + 1) group_begin
        group_end jobs s
    | some cstr =>
      if row.file_state = .RESIDENT then
        recallStepLoop recallFn elapsed reqNum tapeId lit toState rest (i + 1) group_begin
          group_end jobs s
      else if row.file_state = toState then
        recallStepLoop recallFn elapsed reqNum tapeId lit toState rest (i + 1) group_begin
          group_end jobs s
      else
        match recallFn cstr tapeId row.file_state toState s with
        | none => none
        | some (.uncaught x, s1) => some (.error x, jobs, s1)
        | some (.value _, s1) =>
          let group_end1 := toInt32 row.rowid
          let group_begin1 := if group_begin = -1 then group_end1 else group_begin
          if elapsed i = false then
            recallStepLoop recallFn elapsed reqNum tapeId lit toState rest (i + 1)
              group_begin1 group_end1 jobs s1
          else
            recallStepLoop recallFn elapsed reqNum tapeId lit toState rest (i + 1) (-1)
              group_end1 (updateJobs reqNum lit toState group_begin1 group_end1 jobs) s1

/-- Function `recallStep(reqNum, tapeId, toState)`; `tapeId` is spliced between
quotes into the SELECT and UPDATE statements. -/
def recallStep {σ : Type}
    (recallFn : String → String → file_state → file_state → σ → Option (RecallResult × σ))
    (elapsed : Nat → Bool) (reqNum : Int) (tapeId : String) (toState : file_state)
    (st : ServerState) (s : σ) : Spliced (Option (Except Exn Unit × ServerState × σ)) :=
  let st1 := st.setUpdReq reqNum true
  match sqlLiteral tapeId with
  | none => .other_text
  | some lit =>
    .statement
      (match recallStepLoop recallFn elapsed reqNum tapeId lit toState
          (selectJobs reqNum lit st1.JOB_QUEUE) 0 (-1) 0 st1.JOB_QUEUE s with
      | none => none
      | some (.error x, jobs, s1) => some (.error x, { st1 with JOB_QUEUE := jobs }, s1)
      | some (.ok _, jobs, s1) =>
        some (.ok (),
          ({ st1 with JOB_QUEUE := jobs } : ServerState).setUpdReq reqNum true, s1))

/-- Method `SelRecall::execRequest(reqNum, tgtState, tapeId)`; `PREMIGRATED_req`
is the constant `LTFSDmProtocol::LTFSDmMigRequest::PREMIGRATED`.  `tapeId` is
spliced between quotes into the two UPDATE statements. -/
def SelRecall.execRequest {σ : Type}
    (recallFn : String → String → file_state → file_state → σ → Option (RecallResult × σ))
    (elapsed : Nat → Bool) (PREMIGRATED_req : Int) (reqNum : Int) (tgtState : Int)
    (tapeId : String) (st : ServerState) (s : σ) :
    Spliced (Option (Except Exn Unit × ServerState × σ)) :=
  match recallStep recallFn elapsed reqNum tapeId
      (if tgtState = PREMIGRATED_req then .PREMIGRATED else .RESIDENT) st s with
  | .other_text => .other_text
  | .statement none => .statement none
  | .statement (some (.error x, st1, s1)) => .statement (some (.error x, st1, s1))
  | .statement (some (.ok _, st1, s1)) =>
    match sqlLiteral tapeId with
    | none => .other_text
    | some lit =>
      let st2 : ServerState :=
        { st1 with TAPE_LIST := st1.TAPE_LIST.map fun r =>
            if r.tape_id = some lit then { r with state := .TAPE_FREE } else r }
      let st3 : ServerState :=
        { st2 with REQUEST_QUEUE := st2.REQUEST_QUEUE.map fun r =>
            if r.req_num = reqNum ∧ r.tape_id = some lit then
              { r with state := .REQ_COMPLETED }
            else r }
      .statement (some (.ok (), st3.setUpdReq reqNum true, s1))

/-- Statement `SELECT TAPE_ID FROM JOB_QUEUE WHERE REQ_NUM=reqNumber GROUP BY
TAPE_ID`: one row for each distinct value of TAPE_ID. -/
def selectTapeIds (reqNumber : Int) (jobs : List JobRow) : List (Option String) :=
  ((jobs.filter fun r => r.req_num == reqNumber).map fun r => r.tape_id).dedup

/-- The loop of `addRequest` over the rows of the SELECT statement: for each
tape ID (the empty text for NULL) the row that the INSERT statement adds, the
tape ID being spliced between quotes into the statement (`none`: a quote of a
tape ID ends its literal early).  `i` numbers the insertions. -/
def addRequestRows (time : Nat → Int) (reqNumber targetState : Int) :
    List (Option String) → Nat → Option (List RequestRow)
  | [], _ => some []
  | cstr :: rest, i =>
    match sqlLiteral (cstr.getD "") with
    | none => none
    | some lit =>
      (addRequestRows time reqNumber targetState rest (i + 1)).map fun rows =>
        { operation := .SELRECALL
          req_num := reqNumber
          target_state := targetState
          coloc_grp := none
          tape_id := some lit
          time_added := time i
          state := .REQ_NEW } :: rows

/-- Method `SelRecall::addRequest()` of a request with the members `reqNumber`
and `targetState`; `time i` is the value of `time(NULL)` at the insertion
numbered `i`. -/
def SelRecall.addRequest (time : Nat → Int) (reqNumber : Int) (targetState : Int)
    (st : ServerState) : Spliced ServerState :=
  let st1 := st.setUpdReq reqNumber false
  match addRequestRows time reqNumber targetState
      (selectTapeIds reqNumber st1.JOB_QUEUE) 0 with
  | none => .other_text
  | some rows => .statement { st1 with REQUEST_QUEUE := st1.REQUEST_QUEUE ++ rows }

/-- The rows of a SELECT result that `recallStep` passes to `recall`: those
with a file name whose recorded state is neither RESIDENT nor the target. -/
def recalledJobs (toState : file_state) (rows : List JobRow) : List JobRow :=
  rows.filter fun r =>
    r.file_name.isSome && !(r.file_state == .RESIDENT) && !(r.file_state == toState)

/-- The calls of `recall` for the rows given, one after the other, each
returning to its caller. -/
def recallAll {σ : Type}
    (recallFn : String → String → file_state → file_state → σ → Option (RecallResult × σ))
    (tapeId : String) (toState : file_state) : List JobRow → σ → Option σ
  | [], s => some s
  | row :: rest, s =>
    match recallFn (row.file_name.getD "") tapeId row.file_state toState s with
    | some (.value _, s1) => recallAll recallFn tapeId toState rest s1
    | _ => none

/-- The table JOB_QUEUE that the loop of `recallStep` leaves when every call of
`recall` returns: the updates that the loop makes, as a function of the rows
and of the clock alone. -/
def recallStepTable (elapsed : Nat → Bool) (reqNum : Int) (lit : String)
    (toState : file_state) : List JobRow → Nat → Int → Int → List JobRow → List JobRow
  | [], _, group_begin, group_end, jobs =>
    updateJobs reqNum lit toState group_begin group_end jobs
  | row :: rest, i, group_begin, group_end, jobs =>
    if row.file_name.isSome && !(row.file_state == .RESIDENT)
        && !(row.file_state == toState) then
      if elapsed i = false then
        recallStepTable elapsed reqNum lit toState rest (i + 1)
          (if group_begin = -1 then toInt32 row.rowid else group_begin)
          (toInt32 row.rowid) jobs
      else
        recallStepTable elapsed reqNum lit toState rest (i + 1) (-1) (toInt32 row.rowid)
          (updateJobs reqNum lit toState
            (if group_begin = -1 then toInt32 row.rowid else group_begin)
            (toInt32 row.rowid) jobs)
    else
      recallStepTable elapsed reqNum lit toState rest (i + 1) group_begin group_end jobs

/-- A sample state of the server: one job of request 1 on tape "T1", for the
file "f" recorded MIGRATED, with its request row and its tape row. -/
def ServerState.sample : ServerState :=
  { JOB_QUEUE := [{ rowid := 1, operation := .SELRECALL, file_name := some "f", req_num := 1,
                    target_state := 1, file_size := 5, fs_id := 1, i_gen := 2, i_num := 3,
                    mtime_sec := 0, mtime_nsec := 0, last_upd := 0, file_state := .MIGRATED,
                    tape_id := some "T1", start_block := 0, failed := 0 }]
    REQUEST_QUEUE := [{ operation := .SELRECALL, req_num := 1, target_state := 1,
                        coloc_grp := none, tape_id := some "T1", time_added := 0,
                        state := .REQ_INPROGRESS },
                      { operation := .SELRECALL, req_num := 2, target_state := 1,
                        coloc_grp := none, tape_id := some "T1", time_added := 0,
                        state := .REQ_NEW }]
    TAPE_LIST := [{ tape_id := some "T1", pool := none, mounted := true, drive := some "D1",
                    state := .TAPE_INUSE },
                  { tape_id := some "T2", pool := none, mounted := false, drive := none,
                    state := .TAPE_INUSE }]
    updReq := fun _ => none }

/-- A job of request 1 on tape "T1" with the given ROWID, file name, recorded
state and START_BLOCK. -/
def sampleJob (rowid : Int) (file_name : String) (state : file_state)
    (start_block : Int) : JobRow :=
  { rowid := rowid, operation := .SELRECALL, file_name := some file_name, req_num := 1,
    target_state := 0, file_size := 5, fs_id := 1, i_gen := 2, i_num := rowid,
    mtime_sec := 0, mtime_nsec := 0, last_upd := 0, file_state := state,
    tape_id := some "T1", start_block := start_block, failed := 0 }

/-- A `recall` that succeeds at once and notes the name of the file it is
called for. -/
def recallNoting (fileName _tapeId : String) (_state _toState : file_state)
    (s : List String) : Option (RecallResult × List String) :=
  some (.value none, s ++ [fileName])


/-! ## `Server::createDir` (`Server.cc`, lines 121-151) -/

/-- Value of `errno` for a file that exists. -/
def EEXIST : Int := 17

/-- A call made by `createDir`, with what it reported: `statTapeRetry` (`-1`
with an `errno`, or 0 with `S_ISDIR` of the mode found), or `mkdir` (success,
or `-1` with an `errno`). -/
inductive DirCall where
  | stat (res : Except Int Bool)
  | mkdir (res : Option Int)

/-- The loop `while (retry > 0)` of `createDir`.  `stat i` is the outcome of
the call of `statTapeRetry` numbered `i` and `mkdir j` the outcome of the call
of `mkdir` numbered `j`; `fuel` bounds the number of loop tests (`none`: the
bound is reached) and the last argument lists the calls made so far. -/
def createDirLoop (stat : Nat → Except Int Bool) (mkdir : Nat → Option Int) :
    Nat → Int → Nat → Nat → List DirCall → Option (Except Exn Unit × List DirCall)
  | 0, _, _, _, _ => none
  | fuel + 1, retry, i, j, calls =>
    if 0 < retry then
      match stat i with
      | .error e =>
        let calls1 := calls ++ [DirCall.stat (.error e)]
        if e = ENOENT then
          match mkdir j with
          | some e2 =>
            let calls2 := calls1 ++ [DirCall.mkdir (some e2)]
            if e2 = EBUSY then
              createDirLoop stat mkdir fuel (retry - 1) (i + 1) (j + 1) calls2
            else if e2 = EEXIST then some (.ok (), calls2)
            else some (.error .general_error, calls2)
          | none =>
            createDirLoop stat mkdir fuel retry (i + 1) (j + 1)
              (calls1 ++ [DirCall.mkdir none])
        else some (.error .general_error, calls1)
      | .ok isDir =>
        let calls1 := calls ++ [DirCall.stat (.ok isDir)]
        if !isDir then some (.error .general_error, calls1)
        else some (.ok (), calls1)
    else some (.ok (), calls)

/-- Method `Server::createDir(tapeId, path)`: `retry` starts at
`Const::LTFS_OPERATION_RETRY`; the function returns when the loop is left. -/
def Server.createDir (LTFS_OPERATION_RETRY : Int) (stat : Nat → Except Int Bool)
    (mkdir : Nat → Option Int) (fuel : Nat) : Option (Except Exn Unit × List DirCall) :=
  createDirLoop stat mkdir fuel LTFS_OPERATION_RETRY 0 0 []

/-- Whether a call is a `statTapeRetry` that found a directory. -/
def DirCall.foundDirectory : DirCall → Bool
  | .stat (.ok true) => true
  | _ => false

/-- Whether a call is a `mkdir` that reported the given `errno`. -/
def DirCall.mkdirErrno (e : Int) : DirCall → Bool
  | .mkdir (some e2) => decide (e2 = e)
  | _ => false

/-! ## `InfoFilesCommand::doCommand` (`InfoFilesCommand.cc`, lines 16-54) -/

/-- Messages that `doCommand` prints. -/
inductive InfoMsg where
  | LTFSDMC0010I
  | LTFSDMC0015E
  | LTFSDMC0016E
  | LTFSDMC0017E
  | LTFSDMC0018E
  | LTFSDMC0019E
  deriving DecidableEq, Repr

/-- What `processOptions(argc, argv)` leaves behind: the members `fileList`
and `directoryName` of the command (empty when the option was not given) and
the index `optind` of the first argument that is not an option. -/
structure ParsedOptions where
  fileList : String
  directoryName : String
  optind : Int
  deriving DecidableEq, Repr

/-- Method `InfoFilesCommand::doCommand(argc, argv)`.  `processOptions` is the
outcome of the call `processOptions(argc, argv)`, made when `argc` is not 1;
the result lists the messages printed, `printUsage()` printing LTFSDMC0010I. -/
def InfoFilesCommand.doCommand (argc : Int) (processOptions : Except Exn ParsedOptions) :
    Except Exn Unit × List InfoMsg :=
  if argc = 1 then (.error .general_error, [.LTFSDMC0018E, .LTFSDMC0010I])
  else
    match processOptions with
    | .error x => (.error x, [])
    | .ok p =>
      if p.fileList ≠ "" ∧ p.directoryName ≠ "" then
        (.error .general_error, [.LTFSDMC0015E, .LTFSDMC0010I])
      else if p.optind ≠ argc then
        if p.fileList ≠ "" then (.error .general_error, [.LTFSDMC0016E, .LTFSDMC0010I])
        else if p.directoryName ≠ "" then
          (.error .general_error, [.LTFSDMC0017E, .LTFSDMC0010I])
        else (.ok (), [])
      else if ¬ (p.fileList ≠ "") ∧ ¬ (p.directoryName ≠ "") then
        (.error .general_error, [.LTFSDMC0019E, .LTFSDMC0010I])
      else (.ok (), [])


/-! ## Data events (`Connector.cc`, lines 358-500) -/

/-- Value of `errno` for an interrupted call. -/
def EINTR : Int := 4

/-- Value of `errno` for a call to be tried again. -/
def EAGAIN : Int := 11

/-- Value of `errno` for an input/output error. -/
def EIO : Int := 5

/-- Event types of DMAPI that `getEvents` tells apart; `other` stands for every
other type. -/
inductive dm_eventtype_t where
  | DM_EVENT_MOUNT
  | DM_EVENT_READ
  | DM_EVENT_WRITE
  | DM_EVENT_TRUNCATE
  | other (n : Nat)
  deriving DecidableEq, Repr

/-- A file handle carried by an event, given by what `dm_handle_to_fsid`,
`dm_handle_to_igen` and `dm_handle_to_ino` return for it (`none`: the call
returns non-zero). -/
structure dm_handle_t where
  to_fsid : Option Nat
  to_igen : Option Nat
  to_ino : Option Nat
  deriving DecidableEq, Repr

/-- An event message `dm_eventmsg_t` as `getEvents` reads it: type, token, the
handle of the event data, and for a mount event the lengths of the two
names. -/
structure dm_eventmsg_t where
  ev_type : dm_eventtype_t
  ev_token : Nat
  handle : dm_handle_t
  name1Len : Nat
  name2Len : Nat
  deriving DecidableEq, Repr

/-- Responses of `dm_respond_event`. -/
inductive dm_response_t where
  | DM_RESP_CONTINUE
  | DM_RESP_ABORT
  deriving DecidableEq, Repr

/-- Calls on the DMAPI session that change it: `dm_set_disp`, and
`dm_respond_event(session, token, response, reterror, 0, NULL)`. -/
inductive SessionCall where
  | set_disp
  | respond_event (token : Nat) (response : dm_response_t) (reterror : Int)
  deriving DecidableEq, Repr

/-- Record `conn_info_t`: the token of the event. -/
structure conn_info_t where
  token : Nat
  deriving DecidableEq, Repr

/-- Record `Connector::rec_info_t` as `getEvents` fills it; `conn_info` is a
pointer (`none`: the null pointer). -/
structure rec_info_t where
  conn_info : Option conn_info_t
  toresident : Bool
  fsid : Nat
  igen : Nat
  ino : Nat
  deriving DecidableEq, Repr

/-- The record left by `memset(&recinfo, 0, sizeof(recinfo))`. -/
def rec_info_t.zero : rec_info_t :=
  { conn_info := none, toresident := false, fsid := 0, igen := 0, ino := 0 }

/-- The loop `while ( dm_get_events(...) == -1 )` of `getEvents`:
`get_events i` is the outcome of the call numbered `i`, and `fuel` bounds the
number of calls (`none`: the bound is reached). -/
def getEventsWait (get_events : Nat → Except Int dm_eventmsg_t) :
    Nat → Nat → Option (Except Exn dm_eventmsg_t)
  | 0, _ => none
  | fuel + 1, i =>
    match get_events i with
    | .ok msg => some (.ok msg)
    | .error e =>
      if e ≠ EINTR ∧ e ≠ EAGAIN then some (.error .general_error)
      else getEventsWait get_events fuel (i + 1)

/-- The `switch` of `getEvents` on the type of the event received. -/
def getEventsProcess (PATH_MAX : Nat) (set_disp respond_event : Option Int)
    (msg : dm_eventmsg_t) (calls : List SessionCall) :
    Except Exn rec_info_t × List SessionCall :=
  let recinfo := rec_info_t.zero
  let token := msg.ev_token
  match msg.ev_type with
  | .DM_EVENT_MOUNT =>
    if msg.name1Len ≥ PATH_MAX ∨ msg.name2Len ≥ PATH_MAX then (.error .general_error, calls)
    else
      let calls1 := calls ++ [SessionCall.set_disp]
      match set_disp with
      | some _ => (.error .general_error, calls1)
      | none =>
        let calls2 := calls1 ++ [SessionCall.respond_event token .DM_RESP_CONTINUE 0]
        match respond_event with
        | some _ => (.error .general_error, calls2)
        | none => (.ok recinfo, calls2)
  | .other _ => (.ok recinfo, calls)
  | ty =>
    let toresident := if ty = .DM_EVENT_READ then false else true
    let recinfo1 := { recinfo with toresident := toresident, conn_info := some ⟨token⟩ }
    match msg.handle.to_fsid with
    | none => (.error .general_error, calls)
    | some fsid =>
      let recinfo2 := { recinfo1 with fsid := fsid }
      match msg.handle.to_igen with
      | none => (.error .general_error, calls)
      | some igen =>
        let recinfo3 := { recinfo2 with igen := igen }
        match msg.handle.to_ino with
        | none => (.error .general_error, calls)
        | some ino => (.ok { recinfo3 with ino := ino }, calls)

/-- Method `Connector::getEvents()`. -/
def Connector.getEvents (PATH_MAX : Nat) (get_events : Nat → Except Int dm_eventmsg_t)
    (set_disp respond_event : Option Int) (fuel : Nat) (calls : List SessionCall) :
    Option (Except Exn rec_info_t × List SessionCall) :=
  match getEventsWait get_events fuel 0 with
  | none => none
  | some (.error x) => some (.error x, calls)
  | some (.ok msg) => some (getEventsProcess PATH_MAX set_disp respond_event msg calls)

/-- Method `Connector::respondRecallEvent(recinfo)`; the token is read through
the pointer `recinfo.conn_info`. -/
def Connector.respondRecallEvent (respond_event : Option Int) (recinfo : rec_info_t)
    (calls : List SessionCall) : InvEnd × List SessionCall :=
  match recinfo.conn_info with
  | none => (.null_dereference, calls)
  | some conn_info =>
    let token := conn_info.token
    let calls1 := calls ++ [SessionCall.respond_event token .DM_RESP_CONTINUE 0]
    match respond_event with
    | some _ => (.thrown .general_error, calls1)
    | none => (.returned, calls1)

/-- Whether a call is a response on the given token. -/
def SessionCall.respondsOn (token : Nat) : SessionCall → Bool
  | .respond_event t _ _ => decide (t = token)
  | .set_disp => false


/-! ## `SelRecall::addJob` (`SelRecall.cc`, lines 30-87) -/

/-- Outcomes of the calls made in the `try` block of `addJob`, in the order of
the calls: the constructor `FsObj fso(fileName)`, `stat` (whether the mode is
that of a regular file, size and modification time), the three identity
getters, `time(NULL)`, the two calls of `getMigState`, `getAttribute`, and
`Scheduler::getStartBlock` of the tape name. -/
structure AddJobCalls where
  path_to_handle : Option Int
  isReg : Bool
  st_size : Int
  mtime_sec : Int
  mtime_nsec : Int
  getFsId : Except Int Nat
  getIGen : Except Int Nat
  getINode : Except Int Nat
  time : Int
  getMigState : Except Exn file_state
  getMigState2 : Except Exn file_state
  getAttribute : Except Exn attr_t
  getStartBlock : Int

/-- The way the `try` block of `addJob` is left. -/
inductive AddJobEnd where
  | completed
  | returned
  | thrown (x : Exn)
  deriving DecidableEq, Repr

/-- The `try` block of `addJob`: the way it is left and the text that it has
appended to `ssql` by then.  `code` gives the integer value of a state, as
`ssql << state` prints it. -/
def addJobTry (code : file_state → Int) (c : AddJobCalls) : AddJobEnd × String :=
  match c.path_to_handle with
  | some e => (.thrown (.errno e), "")
  | none =>
    if !c.isReg then (.returned, "")
    else
      let s1 := toString c.st_size ++ ", "
      match c.getFsId with
      | .error e => (.thrown (.errno e), s1)
      | .ok fsid =>
        let s2 := s1 ++ toString fsid ++ ", "
        match c.getIGen with
        | .error e => (.thrown (.errno e), s2)
        | .ok igen =>
          let s3 := s2 ++ toString igen ++ ", "
          match c.getINode with
          | .error e => (.thrown (.errno e), s3)
          | .ok ino =>
            let s4 := s3 ++ toString ino ++ ", " ++ toString c.mtime_sec ++ ", "
              ++ toString c.mtime_nsec ++ ", " ++ toString c.time ++ ", "
            match c.getMigState with
            | .error x => (.thrown x, s4)
            | .ok state =>
              match c.getMigState2 with
              | .error x => (.thrown x, s4)
              | .ok state2 =>
                if state2 = .RESIDENT then (.returned, s4)
                else
                  let s5 := s4 ++ toString (code state) ++ ", "
                  match c.getAttribute with
                  | .error x => (.thrown x, s5)
                  | .ok attr =>
                    (.completed,
                      s5 ++ "'" ++ attr.tapeId.headD "" ++ "', "
                        ++ toString c.getStartBlock ++ ", " ++ toString (0 : Int) ++ ");")

/-- The text that `addJob` puts into `ssql` before the `try` block. -/
def addJobHead (SELRECALL : Int) (reqNumber targetState : Int) (fileName : String) : String :=
  "INSERT INTO JOB_QUEUE (OPERATION, FILE_NAME, REQ_NUM, TARGET_STATE, FILE_SIZE, FS_ID, I_GEN, "
    ++ "I_NUM, MTIME_SEC, MTIME_NSEC, LAST_UPD, FILE_STATE, TAPE_ID, START_BLOCK, FAILED) "
    ++ "VALUES (" ++ toString SELRECALL ++ ", "
    ++ "'" ++ fileName ++ "', "
    ++ toString reqNumber ++ ", "
    ++ toString targetState ++ ", "

/-- Method `SelRecall::addJob(fileName)` of a request with the members
`reqNumber` and `targetState`; `SELRECALL` is the value of
`DataBase::SELRECALL`.  The result is the text given to
`sqlite3_statement::prepare` (`none`: the function returns before it), or an
exception that `catch ( int error )` does not handle. -/
def SelRecall.addJob (SELRECALL : Int) (code : file_state → Int) (reqNumber targetState : Int)
    (c : AddJobCalls) (fileName : String) : Except Exn (Option String) :=
  let ssql := addJobHead SELRECALL reqNumber targetState fileName
  match addJobTry code c with
  | (.returned, _) => .ok none
  | (.thrown (.nelem n), _) => .error (.nelem n)
  | (.thrown .assert_failed, _) => .error .assert_failed
  | (_, appended) => .ok (some (ssql ++ appended))

/-- A run of `addJob` in which every call succeeds, for a migrated regular file
of five bytes on tape "T1". -/
def AddJobCalls.sample : AddJobCalls :=
  { path_to_handle := none, isReg := true, st_size := 5, mtime_sec := 100, mtime_nsec := 0,
    getFsId := .ok 1, getIGen := .ok 2, getINode := .ok 3, time := 200,
    getMigState := .ok .MIGRATED, getMigState2 := .ok .MIGRATED,
    getAttribute := .ok { typeId := 7, tapeId := ["T1"], startBlock := [0], copies := 1,
                          inProgress := false },
    getStartBlock := 0 }

/-- The integer values of the states in the sample runs. -/
def sampleCode : file_state → Int
  | .RESIDENT => 0
  | .PREMIGRATED => 1
  | .MIGRATED => 2


/-! ## Tape file names (`Server.cc`, lines 66-92) -/

/-- Modelled from the spec: the identity tuple that `FsObj::getfuid()` returns
in `Server.cc` (filesystem id in two halves, inode generation, inode number);
its declaration is in `src/connector/Connector.h`, which is not among the
sources. -/
structure Server.fuid_t where
  fsid_h : Nat
  fsid_l : Nat
  igen : Nat
  inum : Nat
  deriving DecidableEq, Repr

/-- Overload `Server::getTapeName(fsid_h, fsid_l, igen, ino, tapeId)`.  The
mount point of the inventory and the constants `Const::DELIM`,
`Const::LTFSDM_DATA_DIR` and `Const::LTFS_NAME` are arguments; the numbers are
printed in decimal. -/
def Server.getTapeName (mountPoint DELIM LTFSDM_DATA_DIR LTFS_NAME : String)
    (fsid_h fsid_l igen ino : Nat) (tapeId : String) : String :=
  mountPoint ++ DELIM ++ tapeId ++ DELIM ++ LTFSDM_DATA_DIR ++ DELIM ++ LTFS_NAME ++ "."
    ++ toString fsid_h ++ "." ++ toString fsid_l ++ "." ++ toString igen ++ "."
    ++ toString ino

/-- Overload `Server::getTapeName(FsObj *diskFile, tapeId)`; `getfuid` is what
`diskFile->getfuid()` returns. -/
def Server.getTapeNameFsObj (mountPoint DELIM LTFSDM_DATA_DIR LTFS_NAME : String)
    (getfuid : Server.fuid_t) (tapeId : String) : String :=
  let fuid := getfuid
  mountPoint ++ DELIM ++ tapeId ++ DELIM ++ LTFSDM_DATA_DIR ++ DELIM ++ LTFS_NAME ++ "."
    ++ toString fuid.fsid_h ++ "." ++ toString fuid.fsid_l ++ "." ++ toString fuid.igen ++ "."
    ++ toString fuid.inum

/-- The number that a text of decimal digits denotes. -/
def decimalValue (l : List Char) : Nat :=
  l.foldl (fun acc c => acc * 10 + (c.toNat - 48)) 0


/-! ## `Server::createLink` (`Server.cc`, lines 153-192)

In this section a `std::string` is the list of its characters, since the code
works with positions in the text. -/

/-- Value of `std::string::npos`. -/
def npos : Nat := 2 ^ 64 - 1

/-- Position of the first `c` in the characters given, which start at position
`i`; `npos` when there is none. -/
def findIdx (c : Char) : List Char → Nat → Nat
  | [], _ => npos
  | x :: xs, i => if x = c then i else findIdx c xs (i + 1)

/-- Member `std::string::find(c, pos)`. -/
def std_find (s : List Char) (c : Char) (pos : Nat) : Nat :=
  findIdx c (s.drop pos) pos

/-- An operation on the tape file system made by `createLink`: a call of
`createDir`, `unlink`, or `symlink` with what it reported. -/
inductive TapeOp where
  | createDir (tapeId path : List Char)
  | unlink (path : List Char)
  | symlink (target linkpath : List Char) (res : Option Int)
  deriving DecidableEq, Repr

/-- The way `createLink` ends: it returns, it throws, or
`std::string::substr` throws `std::out_of_range`. -/
inductive LinkEnd where
  | returned
  | thrown (x : Exn)
  | out_of_range
  deriving DecidableEq, Repr

/-- The first loop of `createLink`, over the positions of `/` in `link`, with
`pos` and `next` of type `unsigned int`; `createDir path` is the outcome of
`createDir(tapeId, path)` (`none`: it returns) and `fuel` bounds the number of
loop tests (`none`: the bound is reached).  The result is `relPath`. -/
def createLinkLoop (createDir : List Char → Option Exn) (tapeId link : List Char) :
    Nat → Nat → List Char → List TapeOp → Option (Except Exn (List Char) × List TapeOp)
  | 0, _, _, _ => none
  | fuel + 1, pos, relPath, ops =>
    let next := std_find link '/' pos % 2 ^ 32
    if next < link.length then
      let subs := link.take next
      let ops1 := ops ++ [TapeOp.createDir tapeId subs]
      match createDir subs with
      | some x => some (.error x, ops1)
      | none =>
        createLinkLoop createDir tapeId link fuel ((next + 1) % 2 ^ 32)
          (relPath ++ ['.', '.', '/']) ops1
    else some (.ok relPath, ops)

/-- The second loop of `createLink`, `while (retry > 0)` around `symlink`;
`symlink i` is the outcome of the call numbered `i`.  The function returns
when the loop is left. -/
def createLinkSymlink (symlink : Nat → Option Int) (relPath link : List Char) :
    Nat → Nat → List TapeOp → Except Exn Unit × List TapeOp
  | 0, _, ops => (.ok (), ops)
  | retry + 1, i, ops =>
    let ops1 := ops ++ [TapeOp.symlink relPath link (symlink i)]
    match symlink i with
    | some e =>
      if e = EBUSY then createLinkSymlink symlink relPath link retry (i + 1) ops1
      else (.error .general_error, ops1)
    | none => (.ok (), ops1)

/-- Method `Server::createLink(tapeId, origPath, dataPath)`; `mountPoint` is
what `inventory->getMountPoint()` returns, and `DELIM` and
`LTFS_OPERATION_RETRY` are the constants of `Const`. -/
def Server.createLink (mountPoint DELIM : List Char) (LTFS_OPERATION_RETRY : Int)
    (createDir : List Char → Option Exn) (symlink : Nat → Option Int) (fuel : Nat)
    (tapeId origPath dataPath : List Char) : Option (LinkEnd × List TapeOp) :=
  let link := mountPoint ++ DELIM ++ tapeId ++ origPath
  let dataSubPath := mountPoint ++ DELIM ++ tapeId ++ DELIM
  let pos := (dataSubPath.length + 1) % 2 ^ 32
  match createLinkLoop createDir tapeId link fuel pos [] [] with
  | none => none
  | some (.error x, ops) => some (.thrown x, ops)
  | some (.ok relPath, ops) =>
    if dataPath.length < dataSubPath.length then some (.out_of_range, ops)
    else
      let relPath1 := relPath ++ (dataPath.drop dataSubPath.length).take dataPath.length
      let ops1 := ops ++ [TapeOp.unlink link]
      match createLinkSymlink symlink relPath1 link LTFS_OPERATION_RETRY.toNat 0 ops1 with
      | (.error x, ops2) => some (.thrown x, ops2)
      | (.ok _, ops2) => some (.returned, ops2)

/-- The text `/d1/.../dk` of a list of components. -/
def slashed (ds : List (List Char)) : List Char :=
  (ds.map fun d => '/' :: d).flatten

/-- The directories `base/d1`, `base/d1/d2`, ..., `base/d1/.../dk`. -/
def mirrorDirs (base : List Char) : List (List Char) → List (List Char)
  | [] => []
  | d :: ds => (base ++ '/' :: d) :: mirrorDirs (base ++ '/' :: d) ds

/-- The text of `k` copies of `../`. -/
def upwards (k : Nat) : List Char :=
  (List.replicate k ['.', '.', '/']).flatten

/-- The components of a path: the texts between its slashes. -/
def splitSlash : List Char → List (List Char)
  | [] => [[]]
  | c :: cs =>
    if c = '/' then [] :: splitSlash cs
    else
      match splitSlash cs with
      | [] => [[c]]
      | h :: t => (c :: h) :: t

/-- One step of path resolution from the directory `dir`, given by the names
on the way from the root: an empty component and `.` stay, `..` goes to the
parent, a name goes into the entry of that name. -/
def walkStep (dir : List (List Char)) (component : List Char) : List (List Char) :=
  if component = [] ∨ component = ['.'] then dir
  else if component = ['.', '.'] then dir.dropLast
  else dir ++ [component]

/-- The place that a path denotes from the directory `dir`, no component on the
way being a symbolic link. -/
def walk (dir : List (List Char)) (path : List Char) : List (List Char) :=
  (splitSlash path).foldl walkStep dir

/-! ## Facts about the lock map -/

theorem ltstr_irrefl (a : fuid_t) : ltstr a a = false := by
  simp [ltstr]

theorem keyEquiv_iff (a b : fuid_t) : keyEquiv a b = true ↔ a = b := by
  constructor
  · intro h
    obtain ⟨f1, g1, i1⟩ := a
    obtain ⟨f2, g2, i2⟩ := b
    simp only [keyEquiv, ltstr, Bool.and_eq_true, Bool.not_eq_true', Bool.or_eq_false_iff,
      Bool.and_eq_false_iff, decide_eq_false_iff_not, not_lt] at h
    have hi : i1 = i2 := by omega
    subst hi
    have hg : g1 = g2 := by omega
    subst hg
    have hf : f1 = f2 := by omega
    subst hf
    rfl
  · rintro rfl
    simp [keyEquiv, ltstr_irrefl]

theorem keyEquiv_self (a : fuid_t) : keyEquiv a a = true := (keyEquiv_iff a a).2 rfl

theorem keyEquiv_ne {a b : fuid_t} (h : a ≠ b) : keyEquiv a b = false := by
  cases hk : keyEquiv a b
  · rfl
  · exact absurd ((keyEquiv_iff a b).1 hk) h

namespace FuidMap

theorem count_cons (e : fuid_t × Int) (es : FuidMap) (k : fuid_t) :
    count (e :: es) k = (if keyEquiv e.1 k then 1 else 0) + count es k := by
  simp only [count, List.filter_cons]
  cases keyEquiv e.1 k <;> simp [Nat.add_comm]

theorem find_cons (e : fuid_t × Int) (es : FuidMap) (k : fuid_t) :
    find (e :: es) k = if keyEquiv e.1 k then some e.2 else find es k := by
  simp only [find, List.find?_cons]
  cases keyEquiv e.1 k <;> simp

theorem modify_cons (e : fuid_t × Int) (es : FuidMap) (k : fuid_t) (f : Int → Int) :
    modify (e :: es) k f = (if keyEquiv e.1 k then (e.1, f e.2) else e) :: modify es k f := rfl

theorem erase_cons (e : fuid_t × Int) (es : FuidMap) (k : fuid_t) :
    erase (e :: es) k = if keyEquiv e.1 k then erase es k else e :: erase es k := by
  simp only [erase, List.filter_cons]
  cases keyEquiv e.1 k <;> simp

theorem count_eq_zero_iff (m : FuidMap) (k : fuid_t) :
    m.count k = 0 ↔ ∀ e ∈ m, e.1 ≠ k := by
  simp only [count, List.length_eq_zero, List.filter_eq_nil_iff, keyEquiv_iff]

theorem find_eq_none_iff (m : FuidMap) (k : fuid_t) :
    m.find k = none ↔ m.count k = 0 := by
  rw [count_eq_zero_iff]
  simp [find, keyEquiv_iff]

theorem find_insert_self (m : FuidMap) (k : fuid_t) (v : Int) (h : m.count k = 0) :
    find (insert k v m) k = some v := by
  induction m with
  | nil => simp [insert, find_cons, keyEquiv_self]
  | cons e es ih =>
    rw [count_cons] at h
    have hes : count es k = 0 := by omega
    have hne : keyEquiv e.1 k = false := by
      cases hk : keyEquiv e.1 k
      · rfl
      · rw [hk] at h; simp at h
    unfold insert
    split
    · simp [find_cons, keyEquiv_self]
    · rw [find_cons, hne]
      simpa using ih hes

theorem find_insert_other (m : FuidMap) (k k' : fuid_t) (v : Int) (h : k' ≠ k) :
    find (insert k v m) k' = find m k' := by
  induction m with
  | nil => simp [insert, find, keyEquiv_ne (Ne.symm h)]
  | cons e es ih =>
    unfold insert
    split
    · rw [find_cons]
      simp [keyEquiv_ne (Ne.symm h)]
    · rw [find_cons, find_cons, ih]

theorem count_insert_self (m : FuidMap) (k : fuid_t) (v : Int) :
    count (insert k v m) k = count m k + 1 := by
  induction m with
  | nil => simp [insert, count, keyEquiv_self]
  | cons e es ih =>
    unfold insert
    split
    · rw [count_cons]
      simp [keyEquiv_self, Nat.add_comm]
    · rw [count_cons, count_cons, ih, Nat.add_assoc]

theorem count_insert_other (m : FuidMap) (k k' : fuid_t) (v : Int) (h : k' ≠ k) :
    count (insert k v m) k' = count m k' := by
  induction m with
  | nil => simp [insert, count, keyEquiv_ne (Ne.symm h)]
  | cons e es ih =>
    unfold insert
    split
    · rw [count_cons]
      simp [keyEquiv_ne (Ne.symm h)]
    · rw [count_cons, count_cons, ih]

theorem find_modify_self (m : FuidMap) (k : fuid_t) (f : Int → Int) :
    find (modify m k f) k = (find m k).map f := by
  induction m with
  | nil => simp [modify, find]
  | cons e es ih =>
    rw [modify_cons, find_cons, find_cons, ih]
    cases hk : keyEquiv e.1 k <;> simp [hk]

theorem find_modify_other (m : FuidMap) (k k' : fuid_t) (f : Int → Int) (h : k' ≠ k) :
    find (modify m k f) k' = find m k' := by
  induction m with
  | nil => simp [modify, find]
  | cons e es ih =>
    rw [modify_cons, find_cons, find_cons, ih]
    cases hk : keyEquiv e.1 k
    · simp
    · have h1 : e.1 = k := (keyEquiv_iff _ _).1 hk
      have h2 : keyEquiv e.1 k' = false := keyEquiv_ne (by rw [h1]; exact Ne.symm h)
      simp [h2]

theorem count_modify (m : FuidMap) (k k' : fuid_t) (f : Int → Int) :
    count (modify m k f) k' = count m k' := by
  induction m with
  | nil => simp [modify, count]
  | cons e es ih =>
    rw [modify_cons, count_cons, count_cons, ih]
    cases hk : keyEquiv e.1 k <;> simp

theorem count_erase_self (m : FuidMap) (k : fuid_t) : count (erase m k) k = 0 := by
  induction m with
  | nil => simp [erase, count]
  | cons e es ih =>
    rw [erase_cons]
    cases hk : keyEquiv e.1 k
    · simp [count_cons, hk, ih]
    · simpa using ih

theorem find_erase_other (m : FuidMap) (k k' : fuid_t) (h : k' ≠ k) :
    find (erase m k) k' = find m k' := by
  induction m with
  | nil => simp [erase, find]
  | cons e es ih =>
    rw [erase_cons, find_cons]
    cases hk : keyEquiv e.1 k
    · simp [find_cons, ih]
    · have h1 : e.1 = k := (keyEquiv_iff _ _).1 hk
      have h2 : keyEquiv e.1 k' = false := keyEquiv_ne (by rw [h1]; exact Ne.symm h)
      simp [h2, ih]

theorem count_erase_other (m : FuidMap) (k k' : fuid_t) (h : k' ≠ k) :
    count (erase m k) k' = count m k' := by
  induction m with
  | nil => simp [erase, count]
  | cons e es ih =>
    rw [erase_cons, count_cons]
    cases hk : keyEquiv e.1 k
    · simp [count_cons, ih]
    · have h1 : e.1 = k := (keyEquiv_iff _ _).1 hk
      have h2 : keyEquiv e.1 k' = false := keyEquiv_ne (by rw [h1]; exact Ne.symm h)
      simp [h2, ih]

theorem erase_insert (m : FuidMap) (k : fuid_t) (v : Int) (h : m.count k = 0) :
    erase (insert k v m) k = m := by
  induction m with
  | nil => simp [insert, erase, keyEquiv_self]
  | cons e es ih =>
    rw [count_cons] at h
    have hes : count es k = 0 := by omega
    have hne : keyEquiv e.1 k = false := by
      cases hk : keyEquiv e.1 k
      · rfl
      · rw [hk] at h; simp at h
    have hself : erase (e :: es) k = e :: es := by
      have := ih hes
      rw [erase_cons, hne]
      have h0 : erase es k = es := by
        simp only [erase, List.filter_eq_self, Bool.not_eq_true']
        intro x hx
        exact keyEquiv_ne ((count_eq_zero_iff _ _).1 hes x hx)
      simp [h0]
    unfold insert
    split
    · rw [erase_cons]
      simp [keyEquiv_self, hself]
    · rw [erase_cons, hne]
      simp [ih hes]

theorem modify_modify (m : FuidMap) (k : fuid_t) (f g h : Int → Int)
    (hh : ∀ c, g (f c) = h c) : modify (modify m k f) k g = modify m k h := by
  induction m with
  | nil => rfl
  | cons e es ih =>
    rw [modify_cons, modify_cons, modify_cons, ih]
    cases hk : keyEquiv e.1 k <;> simp [hk, hh]

theorem modify_id (m : FuidMap) (k : fuid_t) (f : Int → Int) (hf : ∀ c, f c = c) :
    modify m k f = m := by
  induction m with
  | nil => rfl
  | cons e es ih =>
    rw [modify_cons, ih]
    cases hk : keyEquiv e.1 k <;> simp [hf]

end FuidMap

/-! ## The lock map under `lock` and `unlock` -/

theorem lock_ok_eq (rr : Option Int) (o o' : FsObj) (w w' : World)
    (h : o.lock rr w = (.ok o', w')) :
    o' = { o with isLocked := true } ∧
    ((w.fuidMap.count o.handle = 0 ∧ rr = none ∧
        w' = { w.emit (.request_right o.handle) with
                fuidMap := FuidMap.insert o.handle 1 w.fuidMap }) ∨
     (w.fuidMap.count o.handle ≠ 0 ∧
        w' = { w with fuidMap := w.fuidMap.modify o.handle (fun c => c + 1) })) := by
  unfold FsObj.lock at h
  by_cases hc : w.fuidMap.count o.handle = 0
  · simp only [hc, if_true] at h
    cases rr with
    | some e => simp at h
    | none =>
      simp only [Prod.mk.injEq, Except.ok.injEq] at h
      exact ⟨h.1.symm, Or.inl ⟨hc, rfl, by rw [← h.2]; rfl⟩⟩
  · simp only [hc, if_false, Prod.mk.injEq, Except.ok.injEq] at h
    exact ⟨h.1.symm, Or.inr ⟨hc, h.2.symm⟩⟩

theorem unlock_ok_eq (rr : Option Int) (o o' : FsObj) (w w' : World)
    (h : o.unlock rr w = (.ok o', w')) :
    o.isLocked = true ∧ w.fuidMap.count o.handle = 1 ∧ o' = { o with isLocked := false } ∧
    ((w.fuidMap.find o.handle = some 1 ∧ rr = none ∧
        w' = { w.emit (.release_right o.handle) with
                fuidMap := w.fuidMap.erase o.handle }) ∨
     (w.fuidMap.find o.handle ≠ some 1 ∧
        w' = { w with fuidMap := w.fuidMap.modify o.handle (fun c => c - 1) })) := by
  unfold FsObj.unlock at h
  cases hl : o.isLocked with
  | false => simp [hl] at h
  | true =>
    by_cases hc : w.fuidMap.count o.handle = 1
    · by_cases hf : w.fuidMap.find o.handle = some 1
      · cases rr with
        | some e => simp [hl, hc, hf] at h
        | none =>
          simp only [hl, hc, hf, if_true, ne_eq, not_true_eq_false, Prod.mk.injEq,
            Except.ok.injEq, Bool.true_eq_false, if_false] at h
          exact ⟨rfl, hc, h.1.symm, Or.inl ⟨hf, rfl, by rw [← h.2]; rfl⟩⟩
      · simp only [hl, hc, hf, if_false, ne_eq, not_true_eq_false, Prod.mk.injEq,
          Except.ok.injEq, Bool.true_eq_false] at h
        exact ⟨rfl, hc, h.1.symm, Or.inr ⟨hf, h.2.symm⟩⟩
    · simp [hl, hc] at h

/-- C1: a successful `lock()` asks the filesystem for the exclusive right
exactly when the file identity is absent from the lock map, and leaves the
identity with count 1 if it was absent and with its count plus one otherwise;
a successful `unlock()` on a locked handle gives the right back exactly when
the identity's count is 1, erasing the identity, and otherwise only lowers the
count by one; every other identity keeps its entry under both operations. -/
theorem lock_unlock_refcount (w : World) (o : FsObj) :
    (∀ rr o' w', o.lock rr w = (.ok o', w') →
      w'.log = w.log ++
        (if w.fuidMap.count o.handle = 0 then [Event.request_right o.handle] else []) ∧
      (w.fuidMap.count o.handle = 0 →
        w'.fuidMap.count o.handle = 1 ∧ w'.fuidMap.find o.handle = some 1) ∧
      (w.fuidMap.count o.handle ≠ 0 →
        w'.fuidMap.count o.handle = w.fuidMap.count o.handle ∧
        w'.fuidMap.find o.handle = (w.fuidMap.find o.handle).map (fun c => c + 1)) ∧
      (∀ k, k ≠ o.handle →
        w'.fuidMap.count k = w.fuidMap.count k ∧ w'.fuidMap.find k = w.fuidMap.find k)) ∧
    (∀ rr o' w', o.isLocked = true → o.unlock rr w = (.ok o', w') →
      w'.log = w.log ++
        (if w.fuidMap.find o.handle = some 1 then [Event.release_right o.handle] else []) ∧
      (w.fuidMap.find o.handle = some 1 →
        w'.fuidMap.count o.handle = 0 ∧ w'.fuidMap.find o.handle = none) ∧
      (w.fuidMap.find o.handle ≠ some 1 →
        w'.fuidMap.count o.handle = w.fuidMap.count o.handle ∧
        w'.fuidMap.find o.handle = (w.fuidMap.find o.handle).map (fun c => c - 1)) ∧
      (∀ k, k ≠ o.handle →
        w'.fuidMap.count k = w.fuidMap.count k ∧ w'.fuidMap.find k = w.fuidMap.find k)) := by
  constructor
  · intro rr o' w' h
    obtain ⟨-, hcase⟩ := lock_ok_eq rr o o' w w' h
    rcases hcase with ⟨hc, -, rfl⟩ | ⟨hc, rfl⟩
    · dsimp only [World.emit]
      refine ⟨by simp [hc], fun _ => ⟨?_, ?_⟩, fun hn => absurd hc hn, fun k hk => ⟨?_, ?_⟩⟩
      · simp [FuidMap.count_insert_self, hc]
      · exact FuidMap.find_insert_self _ _ _ hc
      · exact FuidMap.count_insert_other _ _ _ _ hk
      · exact FuidMap.find_insert_other _ _ _ _ hk
    · dsimp only
      refine ⟨by simp [hc], fun h0 => absurd h0 hc, fun _ => ⟨?_, ?_⟩, fun k hk => ⟨?_, ?_⟩⟩
      · exact FuidMap.count_modify _ _ _ _
      · exact FuidMap.find_modify_self _ _ _
      · exact FuidMap.count_modify _ _ _ _
      · exact FuidMap.find_modify_other _ _ _ _ hk
  · intro rr o' w' _ h
    obtain ⟨-, -, -, hcase⟩ := unlock_ok_eq rr o o' w w' h
    rcases hcase with ⟨hf, -, rfl⟩ | ⟨hf, rfl⟩
    · have h0 : (w.fuidMap.erase o.handle).count o.handle = 0 := FuidMap.count_erase_self _ _
      dsimp only [World.emit]
      refine ⟨by simp [hf], fun _ => ⟨h0, ?_⟩, fun hn => absurd hf hn, fun k hk => ⟨?_, ?_⟩⟩
      · exact (FuidMap.find_eq_none_iff _ _).2 h0
      · exact FuidMap.count_erase_other _ _ _ hk
      · exact FuidMap.find_erase_other _ _ _ hk
    · dsimp only
      refine ⟨by simp [hf], fun h1 => absurd h1 hf, fun _ => ⟨?_, ?_⟩, fun k hk => ⟨?_, ?_⟩⟩
      · exact FuidMap.count_modify _ _ _ _
      · exact FuidMap.find_modify_self _ _ _
      · exact FuidMap.count_modify _ _ _ _
      · exact FuidMap.find_modify_other _ _ _ _ hk

/-- Witness of `lock_unlock_refcount`: the first `lock()` of identity (1, 2, 3)
on an empty map, and the `unlock()` that follows it. -/
theorem lock_unlock_refcount_witness :
    (FsObj.lock none ⟨⟨1, 2, 3⟩, false⟩ World.empty).2.log = [Event.request_right ⟨1, 2, 3⟩] ∧
    (FsObj.unlock none ⟨⟨1, 2, 3⟩, true⟩
      (FsObj.lock none ⟨⟨1, 2, 3⟩, false⟩ World.empty).2).2.fuidMap.count ⟨1, 2, 3⟩ = 0 :=
  ⟨((lock_unlock_refcount World.empty ⟨⟨1, 2, 3⟩, false⟩).1 none _ _ rfl).1,
   (((lock_unlock_refcount (FsObj.lock none ⟨⟨1, 2, 3⟩, false⟩ World.empty).2
      ⟨⟨1, 2, 3⟩, true⟩).2 none _ _ rfl rfl).2.1 (by decide)).1⟩

/-! ## Nested locking -/

theorem lock_present (k : fuid_t) (b : Bool) (w : World) (h : w.fuidMap.count k ≠ 0) :
    FsObj.lock none ⟨k, b⟩ w =
      (.ok ⟨k, true⟩, { w with fuidMap := w.fuidMap.modify k (fun c => c + 1) }) := by
  simp [FsObj.lock, h]

theorem lock_absent (k : fuid_t) (b : Bool) (w : World) (h : w.fuidMap.count k = 0) :
    FsObj.lock none ⟨k, b⟩ w =
      (.ok ⟨k, true⟩,
        { w.emit (.request_right k) with fuidMap := FuidMap.insert k 1 w.fuidMap }) := by
  simp [FsObj.lock, h, World.emit]

theorem unlock_dec (k : fuid_t) (w : World) (h1 : w.fuidMap.count k = 1)
    (h2 : w.fuidMap.find k ≠ some 1) :
    FsObj.unlock none ⟨k, true⟩ w =
      (.ok ⟨k, false⟩, { w with fuidMap := w.fuidMap.modify k (fun c => c - 1) }) := by
  simp [FsObj.unlock, h1, h2]

theorem unlock_last (k : fuid_t) (w : World) (h1 : w.fuidMap.count k = 1)
    (h2 : w.fuidMap.find k = some 1) :
    FsObj.unlock none ⟨k, true⟩ w =
      (.ok ⟨k, false⟩, { w.emit (.release_right k) with fuidMap := w.fuidMap.erase k }) := by
  simp [FsObj.unlock, h1, h2, World.emit]

theorem lockEach_present (k : fuid_t) (n : Nat) (w : World) (h : w.fuidMap.count k ≠ 0) :
    lockEach k n w =
      (.ok (), { w with fuidMap := w.fuidMap.modify k (fun c => c + (n : Int)) }) := by
  induction n with
  | zero =>
    simp only [lockEach, Nat.cast_zero, add_zero]
    rw [FuidMap.modify_id _ _ _ (fun _ => rfl)]
  | succ n ih =>
    simp only [lockEach, ih]
    rw [lock_present k false _ (by simpa [FuidMap.count_modify] using h)]
    simp only [Prod.mk.injEq, true_and]
    rw [FuidMap.modify_modify _ _ _ _ (fun c => c + ((n + 1 : Nat) : Int))
      (fun c => by push_cast; ring)]

theorem lockEach_absent (k : fuid_t) (n : Nat) (w : World) (h : w.fuidMap.count k = 0) :
    lockEach k (n + 1) w =
      (.ok (), { w.emit (.request_right k) with
        fuidMap := (FuidMap.insert k 1 w.fuidMap).modify k (fun c => c + (n : Int)) }) := by
  induction n with
  | zero =>
    simp only [lockEach, lock_absent k false w h, Nat.cast_zero, add_zero]
    rw [FuidMap.modify_id _ _ _ (fun _ => rfl)]
  | succ n ih =>
    rw [lockEach, ih]
    simp only
    rw [lock_present k false _ (by
      simp [FuidMap.count_modify, FuidMap.count_insert_self])]
    simp only [Prod.mk.injEq, true_and]
    rw [FuidMap.modify_modify _ _ _ _ (fun c => c + ((n + 1 : Nat) : Int))
      (fun c => by push_cast; ring)]

theorem unlockEach_present (k : fuid_t) (j : Nat) (w : World) (c : Int)
    (h1 : w.fuidMap.count k = 1) (h2 : w.fuidMap.find k = some c) (hj : (j : Int) < c) :
    unlockEach k j w =
      (.ok (), { w with fuidMap := w.fuidMap.modify k (fun x => x - (j : Int)) }) := by
  induction j with
  | zero =>
    simp only [unlockEach, Nat.cast_zero, sub_zero]
    rw [FuidMap.modify_id _ _ _ (fun _ => rfl)]
  | succ j ih =>
    have hj' : (j : Int) < c := by push_cast at hj; omega
    rw [unlockEach, ih hj']
    simp only
    rw [unlock_dec k _ (by simpa [FuidMap.count_modify] using h1) (by
      simp only [FuidMap.find_modify_self, h2, Option.map_some', ne_eq, Option.some.injEq]
      push_cast at hj
      omega)]
    simp only [Prod.mk.injEq, true_and]
    rw [FuidMap.modify_modify _ _ _ _ (fun x => x - ((j + 1 : Nat) : Int))
      (fun x => by push_cast; ring)]

theorem erase_modify (m : FuidMap) (k : fuid_t) (f : Int → Int) :
    FuidMap.erase (FuidMap.modify m k f) k = FuidMap.erase m k := by
  induction m with
  | nil => rfl
  | cons e es ih =>
    rw [FuidMap.modify_cons, FuidMap.erase_cons, FuidMap.erase_cons, ih]
    cases hk : keyEquiv e.1 k <;> simp [hk]

/-- C2 (as amended): the lock is counted per file identity across handles.  For
a lock map in which the identity `k` is absent, or present once with a count
of at least 1, one `lock()` on each of `n ≥ 1` handles of `k` followed by one
`unlock()` on each of them all succeed when the filesystem grants and takes
back the right; the lock map is then the one before the first `lock()`; the
first `n - 1` calls of `unlock()` make no filesystem call, and the right is
given back by the `n`-th exactly when `k` was absent at the start. -/
theorem lock_counted_across_handles (k : fuid_t) (n : Nat) (hn : 1 ≤ n) (w : World)
    (hw : w.fuidMap.count k = 0 ∨
      (w.fuidMap.count k = 1 ∧ ∃ c : Int, 1 ≤ c ∧ w.fuidMap.find k = some c)) :
    ∃ w1 w2 w3 o3,
      lockEach k n w = (.ok (), w1) ∧
      unlockEach k (n - 1) w1 = (.ok (), w2) ∧
      FsObj.unlock none ⟨k, true⟩ w2 = (.ok o3, w3) ∧
      unlockEach k n w1 = (.ok (), w3) ∧
      w3.fuidMap = w.fuidMap ∧
      w1.log = w.log ++ (if w.fuidMap.count k = 0 then [Event.request_right k] else []) ∧
      w2.log = w1.log ∧
      w3.log = w2.log ++ (if w.fuidMap.count k = 0 then [Event.release_right k] else []) := by
  obtain ⟨n, rfl⟩ : ∃ n', n = n' + 1 := ⟨n - 1, by omega⟩
  simp only [Nat.add_sub_cancel]
  rcases hw with h0 | ⟨h1, c, hc, hf⟩
  · -- the identity is absent: the first lock inserts it, the last unlock erases it
    have hcnt : ((FuidMap.insert k 1 w.fuidMap).modify k (fun c => c + (n : Int))).count k = 1 := by
      simp [FuidMap.count_modify, FuidMap.count_insert_self, h0]
    have hfind : ((FuidMap.insert k 1 w.fuidMap).modify k (fun c => c + (n : Int))).find k
        = some (1 + (n : Int)) := by
      simp [FuidMap.find_modify_self, FuidMap.find_insert_self _ _ _ h0]
    have hU := unlockEach_present k n
      { w.emit (.request_right k) with
        fuidMap := (FuidMap.insert k 1 w.fuidMap).modify k (fun c => c + (n : Int)) }
      (1 + (n : Int)) hcnt hfind (by omega)
    simp only at hU
    rw [FuidMap.modify_modify _ _ _ _ (fun c => c) (fun c => by ring),
      FuidMap.modify_id _ _ _ (fun _ => rfl)] at hU
    have hL := unlock_last k
      { w.emit (.request_right k) with fuidMap := FuidMap.insert k 1 w.fuidMap }
      (by simp [FuidMap.count_insert_self, h0]) (FuidMap.find_insert_self _ _ _ h0)
    refine ⟨_, _, _, _, lockEach_absent k n w h0, hU, hL, ?_, ?_, ?_, ?_, ?_⟩
    · rw [unlockEach, hU]
      simp only
      rw [hL]
    · exact FuidMap.erase_insert _ _ _ h0
    · simp [World.emit, h0]
    · rfl
    · simp [World.emit, h0]
  · -- the identity is held already: the counts go up and come down again
    have h1' : w.fuidMap.count k ≠ 0 := by omega
    have hcnt : (w.fuidMap.modify k (fun c => c + ((n + 1 : Nat) : Int))).count k = 1 := by
      simp [FuidMap.count_modify, h1]
    have hfind : (w.fuidMap.modify k (fun c => c + ((n + 1 : Nat) : Int))).find k
        = some (c + ((n + 1 : Nat) : Int)) := by
      simp [FuidMap.find_modify_self, hf]
    have hU := unlockEach_present k n
      { w with fuidMap := w.fuidMap.modify k (fun c => c + ((n + 1 : Nat) : Int)) }
      (c + ((n + 1 : Nat) : Int)) hcnt hfind (by push_cast; omega)
    simp only at hU
    rw [FuidMap.modify_modify _ _ _ _ (fun c => c + 1) (fun c => by push_cast; ring)] at hU
    have hD := unlock_dec k { w with fuidMap := w.fuidMap.modify k (fun c => c + 1) }
      (by simp [FuidMap.count_modify, h1])
      (by
        simp only [FuidMap.find_modify_self, hf, Option.map_some', ne_eq, Option.some.injEq]
        omega)
    simp only at hD
    rw [FuidMap.modify_modify _ _ _ _ (fun c => c) (fun c => by ring),
      FuidMap.modify_id _ _ _ (fun _ => rfl)] at hD
    refine ⟨_, _, _, _, lockEach_present k (n + 1) w h1', hU, hD, ?_, rfl, ?_, rfl, ?_⟩
    · rw [unlockEach, hU]
      simp only
      rw [hD]
    · simp [h1']
    · simp [h1']

/-- Witness of `lock_counted_across_handles`: three handles of identity
(1, 2, 3) on an empty lock map. -/
theorem lock_counted_across_handles_witness :
    ∃ w1 w2 w3 o3,
      lockEach ⟨1, 2, 3⟩ 3 World.empty = (.ok (), w1) ∧
      unlockEach ⟨1, 2, 3⟩ (3 - 1) w1 = (.ok (), w2) ∧
      FsObj.unlock none ⟨⟨1, 2, 3⟩, true⟩ w2 = (.ok o3, w3) ∧
      unlockEach ⟨1, 2, 3⟩ 3 w1 = (.ok (), w3) ∧
      w3.fuidMap = World.empty.fuidMap ∧
      w1.log = World.empty.log ++
        (if World.empty.fuidMap.count ⟨1, 2, 3⟩ = 0 then [Event.request_right ⟨1, 2, 3⟩]
          else []) ∧
      w2.log = w1.log ∧
      w3.log = w2.log ++
        (if World.empty.fuidMap.count ⟨1, 2, 3⟩ = 0 then [Event.release_right ⟨1, 2, 3⟩]
          else []) :=
  lock_counted_across_handles ⟨1, 2, 3⟩ 3 (by decide) World.empty (Or.inl (by decide))

/-- C2 (counterexample): two calls of `lock()` on one `FsObj` of identity
(1, 2, 3), starting from an empty lock map, succeed; of the two calls of
`unlock()` that follow on the same `FsObj` the second raises
`LTFSDM_GENERAL_ERROR`, the identity stays in the map with count 1 and the
right is never given back. -/
theorem lock_twice_one_handle_counterexample :
    (lockN 2 ⟨⟨1, 2, 3⟩, false⟩ World.empty).1 = .ok ⟨⟨1, 2, 3⟩, true⟩ ∧
    (unlockN 1 ⟨⟨1, 2, 3⟩, true⟩ (lockN 2 ⟨⟨1, 2, 3⟩, false⟩ World.empty).2).1
      = .ok ⟨⟨1, 2, 3⟩, false⟩ ∧
    (unlockN 2 ⟨⟨1, 2, 3⟩, true⟩ (lockN 2 ⟨⟨1, 2, 3⟩, false⟩ World.empty).2).1
      = .error Exn.general_error ∧
    (unlockN 2 ⟨⟨1, 2, 3⟩, true⟩ (lockN 2 ⟨⟨1, 2, 3⟩, false⟩ World.empty).2).2.fuidMap
      = [(⟨1, 2, 3⟩, 1)] ∧
    (unlockN 2 ⟨⟨1, 2, 3⟩, true⟩ (lockN 2 ⟨⟨1, 2, 3⟩, false⟩ World.empty).2).2.fuidMap
      ≠ World.empty.fuidMap ∧
    Event.release_right ⟨1, 2, 3⟩ ∉
      (unlockN 2 ⟨⟨1, 2, 3⟩, true⟩ (lockN 2 ⟨⟨1, 2, 3⟩, false⟩ World.empty).2).2.log :=
  ⟨rfl, rfl, rfl, rfl, by decide, by decide⟩

/-! ## Region state read back by `getMigState` -/

theorem getMigState_fst (q : Option Int) (o : FsObj) (w : World) :
    (o.getMigState q w).1 =
      match q with
      | some e => .error (.errno e)
      | none =>
        match w.regions with
        | [] => .ok .RESIDENT
        | [r] =>
          if r.rg_flags = (DM_REGION_READ ||| DM_REGION_WRITE ||| DM_REGION_TRUNCATE) then
            .ok .MIGRATED
          else .ok .PREMIGRATED
        | [_, _] => .error (.nelem 2)
        | _ :: _ :: _ :: _ => .error (.errno E2BIG) := by
  cases q with
  | some e => simp [FsObj.getMigState, dm_get_region]
  | none =>
    rcases hr : w.regions with _ | ⟨r, _ | ⟨r2, _ | ⟨r3, rs⟩⟩⟩
    · simp [FsObj.getMigState, dm_get_region, hr]
    · by_cases hf : r.rg_flags = (DM_REGION_READ ||| DM_REGION_WRITE ||| DM_REGION_TRUNCATE) <;>
        simp [FsObj.getMigState, dm_get_region, hr, hf]
    · simp [FsObj.getMigState, dm_get_region, hr]
    · simp [FsObj.getMigState, dm_get_region, hr]

/-- C9: `getMigState()` classifies the region map.  It returns RESIDENT exactly
when the region query succeeds and the file has no managed region, MIGRATED
exactly when the file has one region whose flags are READ|WRITE|TRUNCATE,
PREMIGRATED exactly when it has one region with any other flags; it throws
exactly when the query fails or the file has more than one region. -/
theorem getMigState_classifies (q : Option Int) (o : FsObj) (w : World) :
    ((o.getMigState q w).1 = .ok .RESIDENT ↔ q = none ∧ w.regions = []) ∧
    ((o.getMigState q w).1 = .ok .MIGRATED ↔ q = none ∧ ∃ r, w.regions = [r] ∧
        r.rg_flags = (DM_REGION_READ ||| DM_REGION_WRITE ||| DM_REGION_TRUNCATE)) ∧
    ((o.getMigState q w).1 = .ok .PREMIGRATED ↔ q = none ∧ ∃ r, w.regions = [r] ∧
        r.rg_flags ≠ (DM_REGION_READ ||| DM_REGION_WRITE ||| DM_REGION_TRUNCATE)) ∧
    ((∃ x, (o.getMigState q w).1 = .error x) ↔ q ≠ none ∨ 1 < w.regions.length) := by
  rw [getMigState_fst]
  cases q with
  | some e => simp
  | none =>
    rcases hr : w.regions with _ | ⟨r, _ | ⟨r2, _ | ⟨r3, rs⟩⟩⟩
    · simp
    · by_cases hf : r.rg_flags = (DM_REGION_READ ||| DM_REGION_WRITE ||| DM_REGION_TRUNCATE) <;>
        simp [hf]
    · simp
    · simp

theorem dm_set_region_ok (f : Option Int) (nelem : Nat) (regbuf : List dm_region_t)
    (w w' : World) (u : Unit) (h : dm_set_region f nelem regbuf w = (.ok u, w')) :
    f = none ∧ w' = { w.emit (.set_region (regbuf.take nelem)) with
      regions := regbuf.take nelem } := by
  cases f with
  | some e => simp [dm_set_region] at h
  | none =>
    simp only [dm_set_region, Prod.mk.injEq, true_and] at h
    exact ⟨rfl, h.symm⟩

theorem finishPremigration_ok (f : Option Int) (o : FsObj) (w w' : World) (u : Unit)
    (h : o.finishPremigration f w = (.ok u, w')) :
    w'.regions = [⟨0, 0, DM_REGION_WRITE ||| DM_REGION_TRUNCATE⟩] := by
  cases f with
  | some e => simp [FsObj.finishPremigration, dm_set_region] at h
  | none =>
    simp only [FsObj.finishPremigration, dm_set_region, Prod.mk.injEq, true_and] at h
    rw [← h]
    rfl

theorem prepareStubbing_ok (f : Option Int) (o : FsObj) (w w' : World) (u : Unit)
    (h : o.prepareStubbing f w = (.ok u, w')) :
    w'.regions =
      [⟨0, 0, DM_REGION_READ ||| DM_REGION_WRITE ||| DM_REGION_TRUNCATE⟩] := by
  cases f with
  | some e => simp [FsObj.prepareStubbing, dm_set_region] at h
  | none =>
    simp only [FsObj.prepareStubbing, dm_set_region, Prod.mk.injEq, true_and] at h
    rw [← h]
    rfl

theorem finishRecall_ok (f : Option Int) (s : file_state) (o : FsObj) (w w' : World)
    (u : Unit) (h : o.finishRecall f s w = (.ok u, w')) :
    f = none ∧
    w' = { w.emit (.set_region
              (if s = .PREMIGRATED then [⟨0, 0, DM_REGION_WRITE ||| DM_REGION_TRUNCATE⟩]
                else [])) with
            regions := if s = .PREMIGRATED then
              [⟨0, 0, DM_REGION_WRITE ||| DM_REGION_TRUNCATE⟩] else [] } := by
  cases f with
  | some e =>
    by_cases hs : s = .PREMIGRATED <;> simp [FsObj.finishRecall, dm_set_region, hs] at h
  | none =>
    by_cases hs : s = .PREMIGRATED
    · simp only [FsObj.finishRecall, dm_set_region, hs, if_true, Prod.mk.injEq, true_and] at h
      refine ⟨rfl, ?_⟩
      rw [← h, hs]
      rfl
    · simp only [FsObj.finishRecall, dm_set_region, hs, if_false, Prod.mk.injEq, true_and] at h
      refine ⟨rfl, ?_⟩
      rw [← h]
      simp [hs]

theorem finishRecall_err (f : Option Int) (s : file_state) (o : FsObj) (w w' : World)
    (x : Exn) (h : o.finishRecall f s w = (.error x, w')) :
    w'.regions = w.regions ∧ w'.attr = w.attr ∧ w'.data = w.data ∧ w'.tape = w.tape ∧
      w'.fuidMap = w.fuidMap ∧ ∃ regs, w'.log = w.log ++ [.set_region regs] := by
  cases f with
  | none =>
    by_cases hs : s = .PREMIGRATED <;> simp [FsObj.finishRecall, dm_set_region, hs] at h
  | some e =>
    by_cases hs : s = .PREMIGRATED
    · simp only [FsObj.finishRecall, dm_set_region, hs, if_true, Prod.mk.injEq] at h
      rw [← h.2]
      exact ⟨rfl, rfl, rfl, rfl, rfl, _, rfl⟩
    · simp only [FsObj.finishRecall, dm_set_region, hs, if_false, Prod.mk.injEq] at h
      rw [← h.2]
      exact ⟨rfl, rfl, rfl, rfl, rfl, _, rfl⟩

/-- C10: the region-marking operations fix the state that `getMigState()` reads
back, whatever the regions were before.  After a successful
`finishPremigration()` or `finishRecall(PREMIGRATED)` the file has the one
region [0, infinity) with flags WRITE|TRUNCATE, without READ, and
`getMigState()` returns PREMIGRATED; after a successful `prepareStubbing()` it
returns MIGRATED; after a successful `finishRecall(RESIDENT)` it returns
RESIDENT. -/
theorem region_marking_read_back (o : FsObj) (w : World) :
    (∀ f u w', o.finishPremigration f w = (.ok u, w') →
      w'.regions = [⟨0, 0, DM_REGION_WRITE ||| DM_REGION_TRUNCATE⟩] ∧
      (DM_REGION_WRITE ||| DM_REGION_TRUNCATE) &&& DM_REGION_READ = 0 ∧
      (o.getMigState none w').1 = .ok .PREMIGRATED) ∧
    (∀ f u w', o.finishRecall f .PREMIGRATED w = (.ok u, w') →
      w'.regions = [⟨0, 0, DM_REGION_WRITE ||| DM_REGION_TRUNCATE⟩] ∧
      (DM_REGION_WRITE ||| DM_REGION_TRUNCATE) &&& DM_REGION_READ = 0 ∧
      (o.getMigState none w').1 = .ok .PREMIGRATED) ∧
    (∀ f u w', o.prepareStubbing f w = (.ok u, w') →
      (o.getMigState none w').1 = .ok .MIGRATED) ∧
    (∀ f u w', o.finishRecall f .RESIDENT w = (.ok u, w') →
      w'.regions = [] ∧ (o.getMigState none w').1 = .ok .RESIDENT) := by
  refine ⟨fun f u w' h => ?_, fun f u w' h => ?_, fun f u w' h => ?_, fun f u w' h => ?_⟩
  · have hr := finishPremigration_ok f o w w' u h
    refine ⟨hr, by decide, ?_⟩
    rw [getMigState_fst, hr]
    rfl
  · obtain ⟨-, rfl⟩ := finishRecall_ok f _ o w w' u h
    refine ⟨rfl, by decide, ?_⟩
    rw [getMigState_fst]
    rfl
  · have hr := prepareStubbing_ok f o w w' u h
    rw [getMigState_fst, hr]
    rfl
  · obtain ⟨-, rfl⟩ := finishRecall_ok f _ o w w' u h
    refine ⟨rfl, ?_⟩
    rw [getMigState_fst]
    rfl

/-- Witness of `region_marking_read_back`: the four operations succeed on a
file that has the two regions of a partly managed file. -/
theorem region_marking_read_back_witness :
    (FsObj.getMigState none ⟨⟨1, 2, 3⟩, false⟩
      (FsObj.finishPremigration none ⟨⟨1, 2, 3⟩, false⟩
        { World.empty with regions := [⟨0, 8, 1⟩, ⟨8, 8, 7⟩] }).2).1 = .ok .PREMIGRATED ∧
    (FsObj.getMigState none ⟨⟨1, 2, 3⟩, false⟩
      (FsObj.finishRecall none .PREMIGRATED ⟨⟨1, 2, 3⟩, false⟩
        { World.empty with regions := [⟨0, 8, 1⟩, ⟨8, 8, 7⟩] }).2).1 = .ok .PREMIGRATED ∧
    (FsObj.getMigState none ⟨⟨1, 2, 3⟩, false⟩
      (FsObj.prepareStubbing none ⟨⟨1, 2, 3⟩, false⟩
        { World.empty with regions := [⟨0, 8, 1⟩, ⟨8, 8, 7⟩] }).2).1 = .ok .MIGRATED ∧
    (FsObj.getMigState none ⟨⟨1, 2, 3⟩, false⟩
      (FsObj.finishRecall none .RESIDENT ⟨⟨1, 2, 3⟩, false⟩
        { World.empty with regions := [⟨0, 8, 1⟩, ⟨8, 8, 7⟩] }).2).1 = .ok .RESIDENT :=
  ⟨((region_marking_read_back ⟨⟨1, 2, 3⟩, false⟩
      { World.empty with regions := [⟨0, 8, 1⟩, ⟨8, 8, 7⟩] }).1 none () _ rfl).2.2,
   ((region_marking_read_back ⟨⟨1, 2, 3⟩, false⟩
      { World.empty with regions := [⟨0, 8, 1⟩, ⟨8, 8, 7⟩] }).2.1 none () _ rfl).2.2,
   (region_marking_read_back ⟨⟨1, 2, 3⟩, false⟩
      { World.empty with regions := [⟨0, 8, 1⟩, ⟨8, 8, 7⟩] }).2.2.1 none () _ rfl,
   ((region_marking_read_back ⟨⟨1, 2, 3⟩, false⟩
      { World.empty with regions := [⟨0, 8, 1⟩, ⟨8, 8, 7⟩] }).2.2.2 none () _ rfl).2⟩

/-! ## What each call leaves unchanged -/

@[simp] theorem emit_regions (w : World) (e : Event) : (w.emit e).regions = w.regions := rfl
@[simp] theorem emit_attr (w : World) (e : Event) : (w.emit e).attr = w.attr := rfl
@[simp] theorem emit_data (w : World) (e : Event) : (w.emit e).data = w.data := rfl
@[simp] theorem emit_tape (w : World) (e : Event) : (w.emit e).tape = w.tape := rfl
@[simp] theorem emit_tapePos (w : World) (e : Event) : (w.emit e).tapePos = w.tapePos := rfl
@[simp] theorem emit_fuidMap (w : World) (e : Event) : (w.emit e).fuidMap = w.fuidMap := rfl
@[simp] theorem emit_log (w : World) (e : Event) : (w.emit e).log = w.log ++ [e] := rfl

theorem lock_snd (rr : Option Int) (o : FsObj) (w : World) :
    (o.lock rr w).2.regions = w.regions ∧ (o.lock rr w).2.attr = w.attr ∧
    (o.lock rr w).2.data = w.data ∧ (o.lock rr w).2.tape = w.tape ∧
    (o.lock rr w).2.log = w.log ++
      (if w.fuidMap.count o.handle = 0 then [Event.request_right o.handle] else []) := by
  unfold FsObj.lock
  by_cases hc : w.fuidMap.count o.handle = 0
  · cases rr <;> simp [hc]
  · simp [hc]

theorem unlock_snd (rr : Option Int) (o : FsObj) (w : World) :
    (o.unlock rr w).2.regions = w.regions ∧ (o.unlock rr w).2.attr = w.attr ∧
    (o.unlock rr w).2.data = w.data ∧ (o.unlock rr w).2.tape = w.tape ∧
    ∃ evs, (o.unlock rr w).2.log = w.log ++ evs ∧
      ∀ e ∈ evs, e = Event.release_right o.handle := by
  unfold FsObj.unlock
  cases hl : o.isLocked with
  | false => exact ⟨rfl, rfl, rfl, rfl, [], by simp⟩
  | true =>
    by_cases hc : w.fuidMap.count o.handle = 1
    · by_cases hf : w.fuidMap.find o.handle = some 1
      · cases rr <;>
          exact ⟨by simp [hc, hf], by simp [hc, hf], by simp [hc, hf], by simp [hc, hf],
            [Event.release_right o.handle], by simp [hc, hf]⟩
      · exact ⟨by simp [hc, hf], by simp [hc, hf], by simp [hc, hf], by simp [hc, hf],
          [], by simp [hc, hf]⟩
    · exact ⟨by simp [hc], by simp [hc], by simp [hc], by simp [hc], [], by simp [hc]⟩

theorem getMigState_snd (q : Option Int) (o : FsObj) (w : World) :
    (o.getMigState q w).2 = w.emit .get_region := by
  cases q with
  | some e => simp [FsObj.getMigState, dm_get_region]
  | none =>
    rcases hr : w.regions with _ | ⟨r, _ | ⟨r2, _ | ⟨r3, rs⟩⟩⟩
    · simp [FsObj.getMigState, dm_get_region, hr]
    · by_cases hf : r.rg_flags = (DM_REGION_READ ||| DM_REGION_WRITE ||| DM_REGION_TRUNCATE) <;>
        simp [FsObj.getMigState, dm_get_region, hr, hf]
    · simp [FsObj.getMigState, dm_get_region, hr]
    · simp [FsObj.getMigState, dm_get_region, hr]

theorem stat_eq (q : Option Int) (o : FsObj) (w : World) :
    o.stat q w = ((match q with
      | some e => .error (.errno e)
      | none => .ok w.data.length), w.emit .get_fileattr) := by
  cases q <;> rfl

theorem open_tape_snd (f : Option Int) (w : World) :
    (open_tape f w).2.regions = w.regions ∧ (open_tape f w).2.attr = w.attr ∧
    (open_tape f w).2.data = w.data ∧ (open_tape f w).2.tape = w.tape ∧
    (open_tape f w).2.fuidMap = w.fuidMap ∧
    (open_tape f w).2.log = w.log ++ [Event.open_tape] := by
  cases f <;> simp [open_tape]

theorem open_tape_ok (f : Option Int) (w w' : World) (u : Unit)
    (h : open_tape f w = (.ok u, w')) : w'.tapePos = 0 := by
  cases f with
  | some e => simp [open_tape] at h
  | none =>
    simp only [open_tape, Prod.mk.injEq, true_and] at h
    rw [← h]

theorem read_tape_snd (r : IoResult) (count : Nat) (w : World) :
    (read_tape r count w).2.regions = w.regions ∧ (read_tape r count w).2.attr = w.attr ∧
    (read_tape r count w).2.data = w.data ∧ (read_tape r count w).2.tape = w.tape ∧
    (read_tape r count w).2.fuidMap = w.fuidMap := by
  cases r <;> simp [read_tape]

theorem write_snd (r : IoResult) (offset size : Nat) (buffer : List Nat) (o : FsObj)
    (w : World) :
    (o.write r offset size buffer w).2.regions = w.regions ∧
    (o.write r offset size buffer w).2.attr = w.attr ∧
    (o.write r offset size buffer w).2.tape = w.tape ∧
    (o.write r offset size buffer w).2.tapePos = w.tapePos ∧
    (o.write r offset size buffer w).2.fuidMap = w.fuidMap ∧
    (o.write r offset size buffer w).2.log =
      w.log ++ [Event.write_invis offset size (o.write r offset size buffer w).1] := by
  cases r <;> simp [FsObj.write]

theorem finishRecall_snd (f : Option Int) (s : file_state) (o : FsObj) (w : World) :
    (o.finishRecall f s w).2.attr = w.attr ∧ (o.finishRecall f s w).2.data = w.data ∧
    (o.finishRecall f s w).2.tape = w.tape ∧
    (o.finishRecall f s w).2.fuidMap = w.fuidMap ∧
    ∃ regs, (o.finishRecall f s w).2.log = w.log ++ [Event.set_region regs] := by
  unfold FsObj.finishRecall dm_set_region
  by_cases hs : s = .PREMIGRATED <;> cases f <;>
    exact ⟨by simp [hs], by simp [hs], by simp [hs], by simp [hs], _, by simp [hs]; rfl⟩

theorem remAttribute_snd (f : Option Int) (o : FsObj) (w : World) :
    (o.remAttribute f w).2.regions = w.regions ∧ (o.remAttribute f w).2.data = w.data ∧
    (o.remAttribute f w).2.tape = w.tape ∧ (o.remAttribute f w).2.fuidMap = w.fuidMap ∧
    (o.remAttribute f w).2.log = w.log ++ [Event.remove_dmattr] := by
  cases f <;> simp [FsObj.remAttribute, dm_remove_dmattr]

theorem remAttribute_ok (f : Option Int) (o : FsObj) (w w' : World) (u : Unit)
    (h : o.remAttribute f w = (.ok u, w')) : w'.attr = none := by
  cases f with
  | some e => simp [FsObj.remAttribute, dm_remove_dmattr] at h
  | none =>
    simp only [FsObj.remAttribute, dm_remove_dmattr, Prod.mk.injEq, true_and] at h
    rw [← h]

theorem remAttribute_err (f : Option Int) (o : FsObj) (w w' : World) (x : Exn)
    (h : o.remAttribute f w = (.error x, w')) : w'.attr = w.attr := by
  cases f with
  | none => simp [FsObj.remAttribute, dm_remove_dmattr] at h
  | some e =>
    simp only [FsObj.remAttribute, dm_remove_dmattr, Prod.mk.injEq] at h
    rw [← h.2]
    rfl

/-! ## The copy loop -/

theorem read_tape_log (r : IoResult) (count : Nat) (w : World) :
    ∃ rsize, (read_tape r count w).2.log = w.log ++ [Event.read_tape rsize] := by
  cases r <;> exact ⟨_, rfl⟩

theorem recallLoop_inv (B : Nat) (c : RecallCalls) (t : FsObj) (n : Nat) :
    ∀ (fuel i off : Nat) (w : World) (r : Except Exn Unit) (w' : World),
      recallLoop B c t n fuel i off w = some (r, w') →
      w'.regions = w.regions ∧ w'.attr = w.attr ∧ w'.fuidMap = w.fuidMap ∧
      w'.tape = w.tape ∧
      ∃ evs, w'.log = w.log ++ evs ∧ (∀ x ∈ evs, x.isStateChange = false) ∧
        (((∀ x ∈ evs, x.isShortWrite = false) ∧ r ≠ .error .general_error) ∨
         (∃ pre s, evs = pre ++ [s, Event.close_tape] ∧
            (∀ x ∈ pre, x.isShortWrite = false) ∧ s.isShortWrite = true ∧
            r = .error .general_error)) := by
  intro fuel
  induction fuel with
  | zero => intro i off w r w' h; simp [recallLoop] at h
  | succ fuel ih =>
    intro i off w r w' h
    rw [recallLoop] at h
    by_cases hlt : off < n
    · simp only [hlt, if_true] at h
      obtain ⟨hr1, hr2, -, hr4, hr5⟩ := read_tape_snd (c.read i) B w
      obtain ⟨rsize, hrl⟩ := read_tape_log (c.read i) B w
      rcases hrd : read_tape (c.read i) B w with ⟨res, w1⟩
      rw [hrd] at h hr1 hr2 hr4 hr5 hrl
      simp only at hr1 hr2 hr4 hr5 hrl
      cases res with
      | error e =>
        simp only [Option.some.injEq, Prod.mk.injEq] at h
        obtain ⟨rfl, rfl⟩ := h
        exact ⟨hr1, hr2, hr5, hr4, [Event.read_tape rsize], hrl, by simp [Event.isStateChange],
          Or.inl ⟨by simp [Event.isShortWrite], by simp⟩⟩
      | ok buffer =>
        simp only at h
        obtain ⟨hw1, hw2, hw3, -, hw5, hw6⟩ :=
          write_snd (c.write_invis i) off buffer.length buffer t w1
        rcases hwd : t.write (c.write_invis i) off buffer.length buffer w1 with ⟨wsize, w2⟩
        rw [hwd] at h hw1 hw2 hw3 hw5 hw6
        simp only at h hw1 hw2 hw3 hw5 hw6
        by_cases hs : wsize = (buffer.length : Int)
        · simp only [hs, ne_eq, not_true_eq_false, if_false] at h
          obtain ⟨h1, h2, h3, h4, evs, hl, hsc, hcase⟩ := ih _ _ _ _ _ h
          refine ⟨by rw [h1, hw1, hr1], by rw [h2, hw2, hr2], by rw [h3, hw5, hr5],
            by rw [h4, hw3, hr4],
            Event.read_tape rsize :: Event.write_invis off buffer.length wsize :: evs,
            by rw [hl, hw6, hrl]; simp, ?_, ?_⟩
          · intro x hx
            simp only [List.mem_cons] at hx
            rcases hx with rfl | rfl | hx
            · rfl
            · rfl
            · exact hsc x hx
          · rcases hcase with ⟨hns, hne⟩ | ⟨pre, s, he, hpre, hss, hre⟩
            · left
              refine ⟨?_, hne⟩
              intro x hx
              simp only [List.mem_cons] at hx
              rcases hx with rfl | rfl | hx
              · rfl
              · simp [Event.isShortWrite, hs]
              · exact hns x hx
            · right
              refine ⟨Event.read_tape rsize :: Event.write_invis off buffer.length wsize :: pre,
                s, by rw [he]; simp, ?_, hss, hre⟩
              intro x hx
              simp only [List.mem_cons] at hx
              rcases hx with rfl | rfl | hx
              · rfl
              · simp [Event.isShortWrite, hs]
              · exact hpre x hx
        · simp only [ne_eq, hs, not_false_eq_true, if_true, Option.some.injEq,
            Prod.mk.injEq] at h
          obtain ⟨rfl, rfl⟩ := h
          refine ⟨by simp [hw1, hr1], by simp [hw2, hr2], by simp [hw5, hr5],
            by simp [hw3, hr4],
            [Event.read_tape rsize, Event.write_invis off buffer.length wsize,
              Event.close_tape],
            by simp [hw6, hrl], by simp [Event.isStateChange], Or.inr ?_⟩
          exact ⟨[Event.read_tape rsize], _, rfl, by simp [Event.isShortWrite],
            by simp [Event.isShortWrite, hs], rfl⟩
    · simp only [hlt, if_false, Option.some.injEq, Prod.mk.injEq] at h
      obtain ⟨rfl, rfl⟩ := h
      exact ⟨rfl, rfl, rfl, rfl, [], by simp, by simp, Or.inl ⟨by simp, by simp⟩⟩

/-! ## The end of `recall` -/

theorem isShortWrite_isTransfer (x : Event) (h : x.isTransfer = false) :
    x.isShortWrite = false := by
  cases x <;> simp_all [Event.isTransfer, Event.isShortWrite]

theorem recallFinish_inv (c : RecallCalls) (t : FsObj) (s : file_state) (w : World)
    (e : TryEnd) (w' : World) (h : recallFinish c t s w = (e, w')) :
    w'.data = w.data ∧ w'.tape = w.tape ∧
    (s ≠ .RESIDENT → w'.attr = w.attr) ∧
    ((w'.regions = w.regions ∧ w'.attr = w.attr ∧ e ≠ .completed) ∨
      (w'.regions = (if s = .PREMIGRATED then
          [⟨0, 0, DM_REGION_WRITE ||| DM_REGION_TRUNCATE⟩] else []) ∧
        (e = .completed → s = .RESIDENT → w'.attr = none))) ∧
    (∀ v, e ≠ .returned v) ∧
    ∃ evs, w'.log = w.log ++ evs ∧ (∀ x ∈ evs, x.isTransfer = false) := by
  unfold recallFinish at h
  obtain ⟨hf1, hf2, hf3, -, regs, hf5⟩ := finishRecall_snd c.set_region s t w
  rcases hfr : t.finishRecall c.set_region s w with ⟨rf, w1⟩
  rw [hfr] at h hf1 hf2 hf3 hf5
  simp only at h hf1 hf2 hf3 hf5
  cases rf with
  | error x =>
    simp only [Prod.mk.injEq] at h
    obtain ⟨rfl, rfl⟩ := h
    have := finishRecall_err _ _ _ _ _ _ hfr
    exact ⟨hf2, hf3, fun _ => hf1, Or.inl ⟨this.1, hf1, by simp⟩, by simp,
      [Event.set_region regs], hf5, by simp [Event.isTransfer]⟩
  | ok u =>
    have hreg : w1.regions = (if s = .PREMIGRATED then
          [⟨0, 0, DM_REGION_WRITE ||| DM_REGION_TRUNCATE⟩] else []) := by
      rw [(finishRecall_ok _ _ _ _ _ _ hfr).2]
    simp only at h
    by_cases hs : s = .RESIDENT
    · simp only [hs, if_true] at h
      obtain ⟨hm1, hm2, hm3, -, hm5⟩ := remAttribute_snd c.remove_dmattr t w1
      rcases hrm : t.remAttribute c.remove_dmattr w1 with ⟨rm, w2⟩
      rw [hrm] at h hm1 hm2 hm3 hm5
      simp only at h hm1 hm2 hm3 hm5
      cases rm with
      | error x =>
        simp only [Prod.mk.injEq] at h
        obtain ⟨rfl, rfl⟩ := h
        refine ⟨by rw [hm2, hf2], by rw [hm3, hf3], fun hn => absurd hs hn,
          Or.inr ⟨by rw [hm1, hreg], by simp⟩, by simp,
          [Event.set_region regs, Event.remove_dmattr], by rw [hm5, hf5]; simp,
          by simp [Event.isTransfer]⟩
      | ok u2 =>
        have hnone := remAttribute_ok _ _ _ _ _ hrm
        simp only at h
        obtain ⟨hu1, hu2, hu3, hu4, uevs, hu5, hu6⟩ := unlock_snd c.release_right t w2
        rcases hul : t.unlock c.release_right w2 with ⟨ru, w3⟩
        rw [hul] at h hu1 hu2 hu3 hu4 hu5
        simp only at h hu1 hu2 hu3 hu4 hu5
        have hlog : w3.log = w.log ++
            (Event.set_region regs :: Event.remove_dmattr :: uevs) := by
          rw [hu5, hm5, hf5]; simp
        have htr : ∀ x ∈ Event.set_region regs :: Event.remove_dmattr :: uevs,
            x.isTransfer = false := by
          intro x hx
          simp only [List.mem_cons] at hx
          rcases hx with rfl | rfl | hx
          · rfl
          · rfl
          · rw [hu6 x hx]; rfl
        cases ru with
        | error x =>
          simp only [Prod.mk.injEq] at h
          obtain ⟨rfl, rfl⟩ := h
          exact ⟨by rw [hu3, hm2, hf2], by rw [hu4, hm3, hf3], fun hn => absurd hs hn,
            Or.inr ⟨by rw [hu1, hm1, hreg], by simp⟩, by simp, _, hlog, htr⟩
        | ok u3 =>
          simp only [Prod.mk.injEq] at h
          obtain ⟨rfl, rfl⟩ := h
          exact ⟨by rw [hu3, hm2, hf2], by rw [hu4, hm3, hf3], fun hn => absurd hs hn,
            Or.inr ⟨by rw [hu1, hm1, hreg], fun _ _ => by rw [hu2, hnone]⟩, by simp,
            _, hlog, htr⟩
    · simp only [hs, if_false] at h
      obtain ⟨hu1, hu2, hu3, hu4, uevs, hu5, hu6⟩ := unlock_snd c.release_right t w1
      rcases hul : t.unlock c.release_right w1 with ⟨ru, w3⟩
      rw [hul] at h hu1 hu2 hu3 hu4 hu5
      simp only at h hu1 hu2 hu3 hu4 hu5
      have hlog : w3.log = w.log ++ (Event.set_region regs :: uevs) := by
        rw [hu5, hf5]; simp
      have htr : ∀ x ∈ Event.set_region regs :: uevs, x.isTransfer = false := by
        intro x hx
        simp only [List.mem_cons] at hx
        rcases hx with rfl | hx
        · rfl
        · rw [hu6 x hx]; rfl
      cases ru with
      | error x =>
        simp only [Prod.mk.injEq] at h
        obtain ⟨rfl, rfl⟩ := h
        exact ⟨by rw [hu3, hf2], by rw [hu4, hf3], fun _ => by rw [hu2, hf1],
          Or.inr ⟨by rw [hu1, hreg], by simp⟩, by simp, _, hlog, htr⟩
      | ok u3 =>
        simp only [Prod.mk.injEq] at h
        obtain ⟨rfl, rfl⟩ := h
        exact ⟨by rw [hu3, hf2], by rw [hu4, hf3], fun _ => by rw [hu2, hf1],
          Or.inr ⟨by rw [hu1, hreg], fun _ hs' => absurd hs' hs⟩, by simp, _, hlog, htr⟩

theorem recallCopy_inv (B : Nat) (c : RecallCalls) (fuel : Nat) (t : FsObj) (s : file_state)
    (w : World) (e : TryEnd) (l : RecallLocals) (w' : World)
    (h : recallCopy B c fuel t s w = some (e, l, w')) :
    w'.tape = w.tape ∧
    (s ≠ .RESIDENT → w'.attr = w.attr) ∧
    ((w'.regions = w.regions ∧ e ≠ .completed) ∨
      (w'.regions = (if s = .PREMIGRATED then
          [⟨0, 0, DM_REGION_WRITE ||| DM_REGION_TRUNCATE⟩] else []) ∧
        (e = .completed → s = .RESIDENT → w'.attr = none))) ∧
    (∀ v, e ≠ .returned v) ∧
    ∃ evs, w'.log = w.log ++ evs ∧
      ((∀ x ∈ evs, x.isShortWrite = false) ∨
       (∃ pre sw, evs = pre ++ [sw, Event.close_tape] ∧
          (∀ x ∈ pre, x.isShortWrite = false) ∧ sw.isShortWrite = true ∧
          e = .thrown .general_error ∧ l.fdSet = true ∧
          w'.regions = w.regions ∧ w'.attr = w.attr)) := by
  unfold recallCopy at h
  obtain ⟨ho1, ho2, -, ho4, -, ho6⟩ := open_tape_snd c.open_tape w
  rcases hop : open_tape c.open_tape w with ⟨ro, w1⟩
  rw [hop] at h ho1 ho2 ho4 ho6
  simp only at h ho1 ho2 ho4 ho6
  cases ro with
  | error x =>
    simp only [Option.some.injEq, Prod.mk.injEq] at h
    obtain ⟨rfl, rfl, rfl⟩ := h
    exact ⟨ho4, fun _ => ho2, Or.inl ⟨ho1, by simp⟩, by simp, [Event.open_tape], ho6,
      Or.inl (by simp [Event.isShortWrite])⟩
  | ok u =>
    simp only [stat_eq] at h
    cases hq : c.get_fileattr with
    | some x =>
      simp only [hq, Option.some.injEq, Prod.mk.injEq] at h
      obtain ⟨rfl, rfl, rfl⟩ := h
      exact ⟨by simp [ho4], fun _ => by simp [ho2], Or.inl ⟨by simp [ho1], by simp⟩, by simp,
        [Event.open_tape, Event.get_fileattr], by simp [ho6],
        Or.inl (by simp [Event.isShortWrite])⟩
    | none =>
      simp only [hq] at h
      rcases hlp : recallLoop B c t w1.data.length fuel 0 0 (w1.emit .get_fileattr)
        with _ | ⟨rl, w3⟩
      · simp [hlp] at h
      · obtain ⟨hl1, hl2, -, hl4, levs, hl5, -, hcase⟩ := recallLoop_inv _ _ _ _ _ _ _ _ _ _ hlp
        simp only [emit_regions, emit_attr, emit_tape, emit_log] at hl1 hl2 hl4 hl5
        rw [hlp] at h
        cases rl with
        | error x =>
          simp only [Option.some.injEq, Prod.mk.injEq] at h
          obtain ⟨rfl, rfl, rfl⟩ := h
          refine ⟨by rw [hl4, ho4], fun _ => by rw [hl2, ho2],
            Or.inl ⟨by rw [hl1, ho1], by simp⟩, by simp,
            Event.open_tape :: Event.get_fileattr :: levs, by rw [hl5, ho6]; simp, ?_⟩
          rcases hcase with ⟨hns, -⟩ | ⟨pre, sw, he, hpre, hsw, hx⟩
          · left
            intro y hy
            simp only [List.mem_cons] at hy
            rcases hy with rfl | rfl | hy
            · rfl
            · rfl
            · exact hns y hy
          · right
            refine ⟨Event.open_tape :: Event.get_fileattr :: pre, sw, by rw [he]; simp, ?_,
              hsw, by rw [Except.error.injEq] at hx; rw [hx], rfl, by rw [hl1, ho1],
              by rw [hl2, ho2]⟩
            intro y hy
            simp only [List.mem_cons] at hy
            rcases hy with rfl | rfl | hy
            · rfl
            · rfl
            · exact hpre y hy
        | ok u2 =>
          simp only at h
          rcases hfin : recallFinish c t s (w3.emit .close_tape) with ⟨e1, w4⟩
          rw [hfin] at h
          simp only [Option.some.injEq, Prod.mk.injEq] at h
          obtain ⟨rfl, rfl, rfl⟩ := h
          obtain ⟨-, hf2, hf3, hf4, hf5, fevs, hf6, hf7⟩ := recallFinish_inv _ _ _ _ _ _ hfin
          simp only [emit_regions, emit_attr, emit_tape, emit_log] at hf2 hf3 hf4 hf6
          have hns : ∀ x ∈ levs, x.isShortWrite = false := by
            rcases hcase with ⟨hns, -⟩ | ⟨pre, sw, he, hpre, hsw, hx⟩
            · exact hns
            · simp at hx
          refine ⟨by rw [hf2, hl4, ho4], fun hs => by rw [hf3 hs, hl2, ho2], ?_, hf5,
            Event.open_tape :: Event.get_fileattr :: (levs ++ Event.close_tape :: fevs),
            by rw [hf6, hl5, ho6]; simp, Or.inl ?_⟩
          · rcases hf4 with ⟨h1, -, h3⟩ | ⟨h1, h2⟩
            · exact Or.inl ⟨by rw [h1, hl1, ho1], h3⟩
            · exact Or.inr ⟨h1, h2⟩
          · intro y hy
            simp only [List.mem_cons, List.mem_append] at hy
            rcases hy with rfl | rfl | hy | rfl | hy
            · rfl
            · rfl
            · exact hns y hy
            · rfl
            · exact isShortWrite_isTransfer y (hf7 y hy)

theorem getMigState_found (q : Option Int) (t : FsObj) (w1 w : World) (cur : file_state)
    (h : (t.getMigState q w1).1 = .ok cur) (hr : w1.regions = w.regions) (o : FsObj) :
    (o.getMigState none w).1 = .ok cur := by
  rw [getMigState_fst] at h ⊢
  cases q with
  | some e => simp at h
  | none => rw [← hr]; exact h

theorem recallTry_inv (B : Nat) (c : RecallCalls) (fuel : Nat) (fn tid : String)
    (st s : file_state) (w : World) (e : TryEnd) (l : RecallLocals) (w' : World)
    (h : recallTry B c fuel fn tid st s w = some (e, l, w')) :
    w'.tape = w.tape ∧
    (s ≠ .RESIDENT → w'.attr = w.attr) ∧
    ((w'.regions = w.regions ∧ e ≠ .completed) ∨
      (w'.regions = (if s = .PREMIGRATED then
          [⟨0, 0, DM_REGION_WRITE ||| DM_REGION_TRUNCATE⟩] else []) ∧
        (e = .completed → s = .RESIDENT → w'.attr = none) ∧
        ∃ cur, cur ≠ .RESIDENT ∧ ∀ o : FsObj, (o.getMigState none w).1 = .ok cur)) ∧
    ∃ evs, w'.log = w.log ++ evs ∧
      ((∀ x ∈ evs, x.isShortWrite = false) ∨
       (∃ pre sw, evs = pre ++ [sw, Event.close_tape] ∧
          (∀ x ∈ pre, x.isShortWrite = false) ∧ sw.isShortWrite = true ∧
          e = .thrown .general_error ∧ l.fdSet = true ∧
          w'.regions = w.regions ∧ w'.attr = w.attr ∧
          ∀ o : FsObj, (o.getMigState none w).1 = .ok .MIGRATED)) := by
  unfold recallTry at h
  cases hp : FsObj.ofPath c.path_to_handle fn with
  | error x =>
    simp only [hp, Option.some.injEq, Prod.mk.injEq] at h
    obtain ⟨rfl, rfl, rfl⟩ := h
    exact ⟨rfl, fun _ => rfl, Or.inl ⟨rfl, by simp⟩, [], by simp, Or.inl (by simp)⟩
  | ok t0 =>
    simp only [hp] at h
    obtain ⟨hk1, hk2, -, hk4, hk5⟩ := lock_snd c.request_right t0 w
    rcases hlk : t0.lock c.request_right w with ⟨rl, w1⟩
    rw [hlk] at h hk1 hk2 hk4 hk5
    simp only at h hk1 hk2 hk4 hk5
    have hkl : ∀ x ∈ (if w.fuidMap.count t0.handle = 0 then
        [Event.request_right t0.handle] else []), x.isShortWrite = false := by
      intro x hx
      split at hx
      · simp only [List.mem_singleton] at hx; rw [hx]; rfl
      · simp at hx
    cases rl with
    | error x =>
      simp only [Option.some.injEq, Prod.mk.injEq] at h
      obtain ⟨rfl, rfl, rfl⟩ := h
      exact ⟨hk4, fun _ => hk2, Or.inl ⟨hk1, by simp⟩, _, hk5, Or.inl hkl⟩
    | ok t =>
      simp only at h
      have hg2 := getMigState_snd c.get_region t w1
      rcases hgm : t.getMigState c.get_region w1 with ⟨rg, w2⟩
      rw [hgm] at h hg2
      simp only at h hg2
      subst hg2
      have hpre : ∀ x ∈ (if w.fuidMap.count t0.handle = 0 then
          [Event.request_right t0.handle] else []) ++ [Event.get_region],
          x.isShortWrite = false := by
        intro x hx
        simp only [List.mem_append, List.mem_singleton] at hx
        rcases hx with hx | rfl
        · exact hkl x hx
        · rfl
      have hlog2 : (w1.emit .get_region).log = w.log ++
          ((if w.fuidMap.count t0.handle = 0 then
            [Event.request_right t0.handle] else []) ++ [Event.get_region]) := by
        simp [hk5]
      cases rg with
      | error x =>
        simp only [Option.some.injEq, Prod.mk.injEq] at h
        obtain ⟨rfl, rfl, rfl⟩ := h
        exact ⟨hk4, fun _ => hk2, Or.inl ⟨hk1, by simp⟩, _, hlog2, Or.inl hpre⟩
      | ok cur =>
        have hfound : ∀ o : FsObj, (o.getMigState none w).1 = .ok cur :=
          getMigState_found c.get_region t w1 w cur (by rw [hgm]) hk1
        have hst : (if cur ≠ st then cur else st) = cur := by
          by_cases hc : cur = st <;> simp [hc]
        simp only [hst] at h
        by_cases hres : cur = .RESIDENT
        · simp only [hres, if_true, Option.some.injEq, Prod.mk.injEq] at h
          obtain ⟨rfl, rfl, rfl⟩ := h
          exact ⟨hk4, fun _ => hk2, Or.inl ⟨hk1, by simp⟩, _, hlog2, Or.inl hpre⟩
        · simp only [hres, if_false] at h
          by_cases hmig : cur = .MIGRATED
          · simp only [hmig, if_true] at h
            obtain ⟨hc1, hc2, hc3, -, cevs, hc5, hc6⟩ := recallCopy_inv _ _ _ _ _ _ _ _ _ h
            simp only [emit_tape, emit_attr, emit_regions] at hc1 hc2 hc3 hc6
            refine ⟨by rw [hc1, hk4], fun hs => by rw [hc2 hs, hk2], ?_, _,
              by rw [hc5, hlog2, List.append_assoc], ?_⟩
            · rcases hc3 with ⟨h1, h2⟩ | ⟨h1, h2⟩
              · exact Or.inl ⟨by rw [h1, hk1], h2⟩
              · exact Or.inr ⟨h1, h2, cur, hres, hfound⟩
            · rcases hc6 with hns | ⟨pre, sw, he, hpr, hsw, hx, hfd, hr, ha⟩
              · left
                intro y hy
                rw [List.mem_append] at hy
                rcases hy with hy | hy
                · exact hpre y hy
                · exact hns y hy
              · right
                refine ⟨((if w.fuidMap.count t0.handle = 0 then
                    [Event.request_right t0.handle] else []) ++ [Event.get_region]) ++ pre,
                  sw, by rw [he]; simp, ?_, hsw, hx, hfd, by rw [hr, hk1], by rw [ha, hk2],
                  by rw [← hmig]; exact hfound⟩
                intro y hy
                rw [List.mem_append] at hy
                rcases hy with hy | hy
                · exact hpre y hy
                · exact hpr y hy
          · simp only [hmig, if_false] at h
            rcases hfin : recallFinish c t s (w1.emit .get_region) with ⟨e1, w3⟩
            rw [hfin] at h
            simp only [Option.some.injEq, Prod.mk.injEq] at h
            obtain ⟨rfl, rfl, rfl⟩ := h
            obtain ⟨-, hf2, hf3, hf4, -, fevs, hf6, hf7⟩ := recallFinish_inv _ _ _ _ _ _ hfin
            simp only [emit_regions, emit_attr, emit_tape] at hf2 hf3 hf4
            refine ⟨by rw [hf2, hk4], fun hs => by rw [hf3 hs, hk2], ?_, _,
              by rw [hf6, hlog2, List.append_assoc], Or.inl ?_⟩
            · rcases hf4 with ⟨h1, -, h3⟩ | ⟨h1, h2⟩
              · exact Or.inl ⟨by rw [h1, hk1], h3⟩
              · exact Or.inr ⟨h1, h2, cur, hres, hfound⟩
            · intro y hy
              rw [List.mem_append] at hy
              rcases hy with hy | hy
              · exact hpre y hy
              · exact isShortWrite_isTransfer y (hf7 y hy)

/-! ## `recall` as a whole -/

theorem recall_inv (B : Nat) (c : RecallCalls) (fuel : Nat) (fn tid : String)
    (st s : file_state) (w : World) (r : RecallResult) (w' : World)
    (h : SelRecall.recall B c fuel fn tid st s w = some (r, w')) :
    ∃ e l w1, recallTry B c fuel fn tid st s w = some (e, l, w1) ∧
      (w' = w1 ∨ w' = w1.emit .close_tape) ∧
      (e = .thrown .general_error → l.fdSet = true → w' = w1.emit .close_tape) ∧
      (e = .completed → w' = w1 ∧ r = .value l.st_size) := by
  unfold SelRecall.recall at h
  rcases ht : recallTry B c fuel fn tid st s w with _ | ⟨e, l, w1⟩
  · simp [ht] at h
  · rw [ht] at h
    refine ⟨e, l, w1, rfl, ?_⟩
    cases e with
    | completed =>
      simp only [Option.some.injEq, Prod.mk.injEq] at h
      exact ⟨Or.inl h.2.symm, by simp, fun _ => ⟨h.2.symm, h.1.symm⟩⟩
    | returned v =>
      simp only [Option.some.injEq, Prod.mk.injEq] at h
      exact ⟨Or.inl h.2.symm, by simp, by simp⟩
    | thrown x =>
      cases x with
      | nelem n =>
        simp only [Option.some.injEq, Prod.mk.injEq] at h
        exact ⟨Or.inl h.2.symm, by simp, by simp⟩
      | assert_failed =>
        simp only [Option.some.injEq, Prod.mk.injEq] at h
        exact ⟨Or.inl h.2.symm, by simp, by simp⟩
      | errno n =>
        simp only [Option.some.injEq, Prod.mk.injEq] at h
        refine ⟨?_, by simp, by simp⟩
        cases hfd : l.fdSet <;> simp [hfd] at h
        · exact Or.inl h.2.symm
        · exact Or.inr h.2.symm
      | general_error =>
        simp only [Option.some.injEq, Prod.mk.injEq] at h
        refine ⟨?_, fun _ hfd => by simp [hfd] at h; exact h.2.symm, by simp⟩
        cases hfd : l.fdSet <;> simp [hfd] at h
        · exact Or.inl h.2.symm
        · exact Or.inr h.2.symm
      | attr_format =>
        simp only [Option.some.injEq, Prod.mk.injEq] at h
        refine ⟨?_, by simp, by simp⟩
        cases hfd : l.fdSet <;> simp [hfd] at h
        · exact Or.inl h.2.symm
        · exact Or.inr h.2.symm

theorem getMigState_congr (q : Option Int) (o o' : FsObj) (w w' : World)
    (h : w'.regions = w.regions) : (o'.getMigState q w').1 = (o.getMigState q w).1 := by
  rw [getMigState_fst, getMigState_fst, h]

theorem getMigState_target (s : file_state) (o : FsObj) (w' : World)
    (h : w'.regions = (if s = .PREMIGRATED then
      [⟨0, 0, DM_REGION_WRITE ||| DM_REGION_TRUNCATE⟩] else [])) :
    (o.getMigState none w').1 = if s = .PREMIGRATED then .ok .PREMIGRATED else .ok .RESIDENT := by
  rw [getMigState_fst, h]
  by_cases hs : s = .PREMIGRATED
  · simp only [hs, if_true]; rfl
  · simp only [hs, if_false]

/-- C8 (as amended): every change of the residency state made by `recall`
follows one of these edges: from MIGRATED to PREMIGRATED or RESIDENT, or from
PREMIGRATED to RESIDENT when the target is not PREMIGRATED.  If the value of
`getMigState()` differs before and after `recall`, the states before and after
are joined by such an edge; in particular no edge leaves RESIDENT. -/
theorem recall_state_edges (B : Nat) (c : RecallCalls) (fuel : Nat) (fn tid : String)
    (st s : file_state) (w : World) (r : RecallResult) (w' : World) (o : FsObj)
    (h : SelRecall.recall B c fuel fn tid st s w = some (r, w'))
    (hne : (o.getMigState none w').1 ≠ (o.getMigState none w).1) :
    ((o.getMigState none w).1 = .ok .MIGRATED ∧
      ((o.getMigState none w').1 = .ok .PREMIGRATED ∨
        (o.getMigState none w').1 = .ok .RESIDENT)) ∨
    ((o.getMigState none w).1 = .ok .PREMIGRATED ∧ s ≠ .PREMIGRATED ∧
      (o.getMigState none w').1 = .ok .RESIDENT) := by
  obtain ⟨e, l, w1, ht, hw, -, -⟩ := recall_inv _ _ _ _ _ _ _ _ _ _ h
  obtain ⟨-, -, hreg, -⟩ := recallTry_inv _ _ _ _ _ _ _ _ _ _ _ ht
  have hw1 : w'.regions = w1.regions := by
    rcases hw with rfl | rfl <;> rfl
  rcases hreg with ⟨h1, -⟩ | ⟨h1, -, cur, hcur, hfound⟩
  · exact absurd (getMigState_congr none o o w w' (by rw [hw1, h1])) hne
  · have hafter := getMigState_target s o w' (by rw [hw1, h1])
    have hbefore := hfound o
    cases cur with
    | RESIDENT => exact absurd rfl hcur
    | MIGRATED =>
      left
      refine ⟨hbefore, ?_⟩
      by_cases hs : s = .PREMIGRATED
      · left; rw [hafter]; simp [hs]
      · right; rw [hafter]; simp [hs]
    | PREMIGRATED =>
      right
      by_cases hs : s = .PREMIGRATED
      · exfalso
        apply hne
        rw [hafter, hbefore]
        simp [hs]
      · exact ⟨hbefore, hs, by rw [hafter]; simp [hs]⟩

/-- Witness of `recall_state_edges`: the recall of a MIGRATED file with target
PREMIGRATED, every call succeeding, changes the state. -/
theorem recall_state_edges_witness :
    ∃ r w', SelRecall.recall 4 (RecallCalls.allSucceed ⟨1, 2, 3⟩ 4) 8 "f" "T1" .MIGRATED
        .PREMIGRATED (World.sample 7) = some (r, w') ∧
      (((FsObj.getMigState none ⟨⟨1, 2, 3⟩, false⟩ (World.sample 7)).1 = .ok .MIGRATED ∧
        ((FsObj.getMigState none ⟨⟨1, 2, 3⟩, false⟩ w').1 = .ok .PREMIGRATED ∨
          (FsObj.getMigState none ⟨⟨1, 2, 3⟩, false⟩ w').1 = .ok .RESIDENT)) ∨
      ((FsObj.getMigState none ⟨⟨1, 2, 3⟩, false⟩ (World.sample 7)).1 = .ok .PREMIGRATED ∧
        file_state.PREMIGRATED ≠ .PREMIGRATED ∧
        (FsObj.getMigState none ⟨⟨1, 2, 3⟩, false⟩ w').1 = .ok .RESIDENT)) :=
  ⟨_, _, rfl,
    recall_state_edges 4 (RecallCalls.allSucceed ⟨1, 2, 3⟩ 4) 8 "f" "T1" .MIGRATED
      .PREMIGRATED (World.sample 7) _ _ ⟨⟨1, 2, 3⟩, false⟩ rfl
      (fun h => absurd
        (show (Except.ok file_state.PREMIGRATED : Except Exn file_state) = .ok .MIGRATED
          from h)
        (by simp))⟩

/-- C8 (counterexample): the recall of a PREMIGRATED file with target RESIDENT,
every call succeeding, takes the edge from PREMIGRATED to RESIDENT. -/
theorem recall_premigrated_to_resident_counterexample :
    ∃ r w', SelRecall.recall 4 (RecallCalls.allSucceed ⟨1, 2, 3⟩ 4) 8 "f" "T1" .PREMIGRATED
        .RESIDENT (World.sample 6) = some (r, w') ∧
      (FsObj.getMigState none ⟨⟨1, 2, 3⟩, false⟩ (World.sample 6)).1 = .ok .PREMIGRATED ∧
      (FsObj.getMigState none ⟨⟨1, 2, 3⟩, false⟩ w').1 = .ok .RESIDENT :=
  ⟨_, _, rfl, rfl, rfl⟩

theorem getAttribute_absent (N hash_code : Nat) (o : FsObj) (w : World) (h : w.attr = none) :
    (o.getAttribute N hash_code none w).1 = .ok (attr_t.zero N) := by
  simp [FsObj.getAttribute, dm_get_dmattr, h]

/-- C7: after a successful `recall` (its `try` block runs to the end, which
happens only for a file found MIGRATED or PREMIGRATED) with target RESIDENT,
`getMigState()` returns RESIDENT and the file has no tape attribute, so that
`getAttribute()` returns the all-zero record; with target PREMIGRATED,
`getMigState()` returns PREMIGRATED and the tape attribute is the one the file
had before. -/
theorem recall_success_state (B : Nat) (c : RecallCalls) (fuel : Nat) (fn tid : String)
    (st s : file_state) (w : World) (l : RecallLocals) (w' : World) (o : FsObj)
    (N hash_code : Nat)
    (h : recallTry B c fuel fn tid st s w = some (.completed, l, w')) :
    SelRecall.recall B c fuel fn tid st s w = some (.value l.st_size, w') ∧
    ((o.getMigState none w).1 = .ok .MIGRATED ∨
      (o.getMigState none w).1 = .ok .PREMIGRATED) ∧
    (s = .RESIDENT →
      (o.getMigState none w').1 = .ok .RESIDENT ∧ w'.attr = none ∧
      (o.getAttribute N hash_code none w').1 = .ok (attr_t.zero N)) ∧
    (s = .PREMIGRATED →
      (o.getMigState none w').1 = .ok .PREMIGRATED ∧ w'.attr = w.attr) := by
  obtain ⟨-, hattr, hreg, -⟩ := recallTry_inv _ _ _ _ _ _ _ _ _ _ _ h
  rcases hreg with ⟨-, hn⟩ | ⟨h1, h2, cur, hcur, hfound⟩
  · exact absurd rfl hn
  · have hafter := getMigState_target s o w' h1
    refine ⟨by simp [SelRecall.recall, h], ?_, ?_, ?_⟩
    · cases cur with
      | RESIDENT => exact absurd rfl hcur
      | MIGRATED => exact Or.inl (hfound o)
      | PREMIGRATED => exact Or.inr (hfound o)
    · intro hs
      have hnone := h2 rfl hs
      exact ⟨by rw [hafter]; simp [hs], hnone, getAttribute_absent N hash_code o w' hnone⟩
    · intro hs
      exact ⟨by rw [hafter]; simp [hs], hattr (by simp [hs])⟩

/-- Witness of `recall_success_state`: the recall of a MIGRATED file with
target RESIDENT, every call succeeding. -/
theorem recall_success_state_witness :
    ∃ l w', recallTry 4 (RecallCalls.allSucceed ⟨1, 2, 3⟩ 4) 8 "f" "T1" .MIGRATED .RESIDENT
        (World.sample 7) = some (.completed, l, w') ∧
      (FsObj.getMigState none ⟨⟨1, 2, 3⟩, false⟩ w').1 = .ok .RESIDENT ∧ w'.attr = none ∧
      (FsObj.getAttribute 2 7 none ⟨⟨1, 2, 3⟩, false⟩ w').1 = .ok (attr_t.zero 2) :=
  ⟨_, _, rfl,
    (recall_success_state 4 (RecallCalls.allSucceed ⟨1, 2, 3⟩ 4) 8 "f" "T1" .MIGRATED
      .RESIDENT (World.sample 7) _ _ ⟨⟨1, 2, 3⟩, false⟩ 2 7 rfl).2.2.1 rfl⟩

theorem recall_of_try_fd_unset (B : Nat) (c : RecallCalls) (fuel : Nat) (fn tid : String)
    (st s : file_state) (w : World) (e : TryEnd) (v : Option Nat) (w1 : World)
    (h : recallTry B c fuel fn tid st s w = some (e, ⟨false, v⟩, w1)) :
    ∃ r, SelRecall.recall B c fuel fn tid st s w = some (r, w1) := by
  unfold SelRecall.recall
  rw [h]
  cases e with
  | completed => exact ⟨_, rfl⟩
  | returned v => exact ⟨_, rfl⟩
  | thrown x => cases x <;> exact ⟨_, rfl⟩

/-- C6: a recall of a file that is already at the target is a no-op.  When
`recall`, under the lock, finds the file RESIDENT, or finds it PREMIGRATED with
target PREMIGRATED, then whatever state the job row recorded it returns, it
makes no read of the tape file and no invisible write, the bytes of the file
and the tape attribute are unchanged, and `getMigState()` has the value it had
before. -/
theorem recall_noop_at_target (B : Nat) (c : RecallCalls) (fuel : Nat) (fn tid : String)
    (st s : file_state) (w : World) (t0 t : FsObj) (w1 w2 : World) (cur : file_state)
    (o : FsObj)
    (hp : FsObj.ofPath c.path_to_handle fn = .ok t0)
    (hl : t0.lock c.request_right w = (.ok t, w1))
    (hg : t.getMigState c.get_region w1 = (.ok cur, w2))
    (hcur : cur = .RESIDENT ∨ (cur = .PREMIGRATED ∧ s = .PREMIGRATED)) :
    ∃ r w', SelRecall.recall B c fuel fn tid st s w = some (r, w') ∧
      (∃ evs, w'.log = w.log ++ evs ∧ ∀ x ∈ evs, x.isTransfer = false) ∧
      w'.data = w.data ∧ w'.attr = w.attr ∧
      (o.getMigState none w').1 = (o.getMigState none w).1 := by
  obtain ⟨hk1, hk2, hk3, -, hk5⟩ := lock_snd c.request_right t0 w
  rw [hl] at hk1 hk2 hk3 hk5
  simp only at hk1 hk2 hk3 hk5
  have hg2 := getMigState_snd c.get_region t w1
  rw [hg] at hg2
  simp only at hg2
  subst hg2
  have hfound : (o.getMigState none w).1 = .ok cur :=
    getMigState_found c.get_region t w1 w cur (by rw [hg]) hk1 o
  have hst : (if cur ≠ st then cur else st) = cur := by
    by_cases hc : cur = st <;> simp [hc]
  have hpre : ∀ x ∈ (if w.fuidMap.count t0.handle = 0 then
      [Event.request_right t0.handle] else []) ++ [Event.get_region],
      x.isTransfer = false := by
    intro x hx
    simp only [List.mem_append, List.mem_singleton] at hx
    rcases hx with hx | rfl
    · split at hx
      · simp only [List.mem_singleton] at hx; rw [hx]; rfl
      · simp at hx
    · rfl
  have hlog2 : (w1.emit .get_region).log = w.log ++
      ((if w.fuidMap.count t0.handle = 0 then
        [Event.request_right t0.handle] else []) ++ [Event.get_region]) := by
    simp [hk5]
  rcases hcur with rfl | ⟨rfl, rfl⟩
  · have ht : recallTry B c fuel fn tid st s w
        = some (.returned 0, ⟨false, none⟩, w1.emit .get_region) := by
      unfold recallTry
      simp only [hp, hl, hg, hst]
      simp
    refine ⟨.value (some 0), w1.emit .get_region, by simp [SelRecall.recall, ht],
      ⟨_, hlog2, hpre⟩, hk3, hk2, getMigState_congr none o o w _ hk1⟩
  · rcases hfin : recallFinish c t .PREMIGRATED (w1.emit .get_region) with ⟨e, w3⟩
    have ht : recallTry B c fuel fn tid st .PREMIGRATED w = some (e, ⟨false, none⟩, w3) := by
      unfold recallTry
      simp only [hp, hl, hg, hst]
      simp [hfin]
    obtain ⟨r, hr⟩ := recall_of_try_fd_unset _ _ _ _ _ _ _ _ _ _ _ ht
    obtain ⟨hf1, -, hf3, hf4, -, fevs, hf6, hf7⟩ := recallFinish_inv _ _ _ _ _ _ hfin
    simp only [emit_regions, emit_attr, emit_data] at hf1 hf3 hf4
    refine ⟨r, w3, hr, ⟨_, by rw [hf6, hlog2, List.append_assoc], ?_⟩, by rw [hf1, hk3],
      by rw [hf3 (by simp), hk2], ?_⟩
    · intro x hx
      rw [List.mem_append] at hx
      rcases hx with hx | hx
      · exact hpre x hx
      · exact hf7 x hx
    · rcases hf4 with ⟨h1, -, -⟩ | ⟨h1, -⟩
      · exact getMigState_congr none o o w w3 (by rw [h1, hk1])
      · rw [getMigState_target .PREMIGRATED o w3 h1, hfound]
        simp

/-- Witness of `recall_noop_at_target`: a job row that recorded MIGRATED for a
file that is found PREMIGRATED, with target PREMIGRATED. -/
theorem recall_noop_at_target_witness :
    ∃ r w', SelRecall.recall 4 (RecallCalls.allSucceed ⟨1, 2, 3⟩ 4) 8 "f" "T1" .MIGRATED
        .PREMIGRATED (World.sample 6) = some (r, w') ∧
      (∃ evs, w'.log = (World.sample 6).log ++ evs ∧ ∀ x ∈ evs, x.isTransfer = false) ∧
      w'.data = (World.sample 6).data ∧ w'.attr = (World.sample 6).attr ∧
      (FsObj.getMigState none ⟨⟨1, 2, 3⟩, false⟩ w').1
        = (FsObj.getMigState none ⟨⟨1, 2, 3⟩, false⟩ (World.sample 6)).1 :=
  recall_noop_at_target 4 (RecallCalls.allSucceed ⟨1, 2, 3⟩ 4) 8 "f" "T1" .MIGRATED
    .PREMIGRATED (World.sample 6) _ _ _ _ .PREMIGRATED ⟨⟨1, 2, 3⟩, false⟩ rfl rfl rfl
    (Or.inr ⟨rfl, rfl⟩)

theorem split_unique (p : Event → Bool) :
    ∀ (pre pre' post post' : List Event) (a b : Event),
      pre ++ a :: post = pre' ++ b :: post' →
      (∀ x ∈ pre', p x = false) → (∀ x ∈ post', p x = false) → p a = true →
      post = post' := by
  intro pre
  induction pre with
  | nil =>
    intro pre' post post' a b h hp hq ha
    cases pre' with
    | nil =>
      simp only [List.nil_append, List.cons.injEq] at h
      exact h.2
    | cons y ys =>
      simp only [List.nil_append, List.cons_append, List.cons.injEq] at h
      have := hp y (List.mem_cons_self _ _)
      rw [← h.1, ha] at this
      exact absurd this (by simp)
  | cons z zs ih =>
    intro pre' post post' a b h hp hq ha
    cases pre' with
    | nil =>
      simp only [List.nil_append, List.cons_append, List.cons.injEq] at h
      have hmem : a ∈ post' := by rw [← h.2]; simp
      have := hq a hmem
      rw [ha] at this
      exact absurd this (by simp)
    | cons y ys =>
      simp only [List.cons_append, List.cons.injEq] at h
      exact ih ys post post' a b h.2 (fun x hx => hp x (List.mem_cons_of_mem _ hx)) hq ha

/-- C5: a short write aborts the job.  If among the calls made by `recall` an
invisible write returns a count different from the size it was given (the
number of bytes just read from tape), then no read of the tape, no invisible
write, no region update and no attribute removal follows it; the regions and
the tape attribute are the ones before the call, and `getMigState()` returns
MIGRATED before and after. -/
theorem recall_short_write_aborts (B : Nat) (c : RecallCalls) (fuel : Nat) (fn tid : String)
    (st s : file_state) (w : World) (r : RecallResult) (w' : World)
    (pre post : List Event) (sw : Event) (o : FsObj)
    (h : SelRecall.recall B c fuel fn tid st s w = some (r, w'))
    (hlog : w'.log = w.log ++ (pre ++ sw :: post))
    (hsw : sw.isShortWrite = true) :
    (∀ x ∈ post, x.isTransfer = false ∧ x.isStateChange = false) ∧
    w'.regions = w.regions ∧ w'.attr = w.attr ∧
    (o.getMigState none w).1 = .ok .MIGRATED ∧
    (o.getMigState none w').1 = .ok .MIGRATED := by
  obtain ⟨e, l, w1, ht, hw, hge, -⟩ := recall_inv _ _ _ _ _ _ _ _ _ _ h
  obtain ⟨-, -, -, evs, hl1, hcase⟩ := recallTry_inv _ _ _ _ _ _ _ _ _ _ _ ht
  rcases hcase with hns | ⟨p, s1, he, hp, hs1, hx, hfd, hr, ha, hmig⟩
  · exfalso
    have hmem : sw ∈ evs ++ [Event.close_tape] := by
      rcases hw with rfl | rfl
      · rw [hl1] at hlog
        have := List.append_cancel_left hlog
        rw [List.mem_append]; left; rw [this]; simp
      · rw [emit_log, hl1, List.append_assoc] at hlog
        have := List.append_cancel_left hlog
        rw [this]; simp
    rw [List.mem_append, List.mem_singleton] at hmem
    rcases hmem with hm | rfl
    · rw [hns sw hm] at hsw; exact absurd hsw (by simp)
    · exact absurd hsw (by simp [Event.isShortWrite])
  · have hw' := hge hx hfd
    subst hw'
    rw [emit_log, hl1, he, List.append_assoc] at hlog
    have heq := List.append_cancel_left hlog
    have hpost : post = [Event.close_tape, Event.close_tape] :=
      split_unique Event.isShortWrite pre p post [Event.close_tape, Event.close_tape] sw s1
        (by rw [← heq]; simp) hp
        (by
          intro x hx
          simp only [List.mem_cons, List.mem_singleton, List.not_mem_nil, or_false,
            or_self] at hx
          rw [hx]; rfl)
        hsw
    refine ⟨?_, hr, ha, hmig o, ?_⟩
    · intro x hx
      rw [hpost] at hx
      simp only [List.mem_cons, List.mem_singleton, List.not_mem_nil, or_false, or_self] at hx
      rw [hx]
      exact ⟨rfl, rfl⟩
    · rw [getMigState_congr none o o w _ (by rw [emit_regions, hr])]
      exact hmig o

/-- Witness of `recall_short_write_aborts`: the recall of a MIGRATED file of
five bytes whose first invisible write takes two of the four bytes read. -/
theorem recall_short_write_aborts_witness :
    ∃ r w', SelRecall.recall 4 (RecallCalls.shortWrite ⟨1, 2, 3⟩ 4 2) 8 "f" "T1" .MIGRATED
        .PREMIGRATED (World.sample 7) = some (r, w') ∧
      w'.log = (World.sample 7).log ++
        ([Event.request_right ⟨1, 2, 3⟩, Event.get_region, Event.open_tape,
          Event.get_fileattr, Event.read_tape 4] ++
          Event.write_invis 0 4 2 :: [Event.close_tape, Event.close_tape]) ∧
      (∀ x ∈ [Event.close_tape, Event.close_tape],
        x.isTransfer = false ∧ x.isStateChange = false) ∧
      w'.regions = (World.sample 7).regions ∧ w'.attr = (World.sample 7).attr ∧
      (FsObj.getMigState none ⟨⟨1, 2, 3⟩, false⟩ (World.sample 7)).1 = .ok .MIGRATED ∧
      (FsObj.getMigState none ⟨⟨1, 2, 3⟩, false⟩ w').1 = .ok .MIGRATED :=
  ⟨_, _, rfl, rfl,
    recall_short_write_aborts 4 (RecallCalls.shortWrite ⟨1, 2, 3⟩ 4 2) 8 "f" "T1" .MIGRATED
      .PREMIGRATED (World.sample 7) _ _
      [Event.request_right ⟨1, 2, 3⟩, Event.get_region, Event.open_tape,
        Event.get_fileattr, Event.read_tape 4]
      [Event.close_tape, Event.close_tape] (Event.write_invis 0 4 2) ⟨⟨1, 2, 3⟩, false⟩
      rfl rfl rfl⟩

/-! ## The data copied by `recall` -/

theorem wfr_quiet (q rest : List Event) (hq : ∀ x ∈ q, x.isTransfer = false) (a b : Nat) :
    writesFollowReads a b (q ++ rest) = writesFollowReads a b rest := by
  induction q with
  | nil => rfl
  | cons x xs ih =>
    have hx := hq x (List.mem_cons_self _ _)
    have ih' := ih (fun y hy => hq y (List.mem_cons_of_mem _ hy))
    cases x <;> simp_all [Event.isTransfer, writesFollowReads]

theorem wfr_quiet_end (q : List Event) (hq : ∀ x ∈ q, x.isTransfer = false) (a b : Nat) :
    writesFollowReads a b q = true := by
  have := wfr_quiet q [] hq a b
  simpa [writesFollowReads] using this

theorem take_take_length (a : Nat) (d : List Nat) :
    d.take (d.take a).length = d.take a := by
  rw [List.length_take]
  by_cases h : a ≤ d.length
  · rw [Nat.min_eq_left h]
  · rw [Nat.min_eq_right (by omega), List.take_length, List.take_of_length_le (by omega)]

theorem writeAt_take (data buf : List Nat) (off : Nat) (h : off ≤ data.length)
    (hb : buf ≠ []) :
    (writeAt data off buf).take (off + buf.length) = data.take off ++ buf := by
  have h1 : (List.take off data).length = off := by simp [h]
  simp only [writeAt, hb, if_false, Nat.sub_eq_zero_of_le h, List.replicate_zero,
    List.append_nil, List.append_assoc]
  rw [List.take_append_eq_append_take, h1]
  simp only [List.take_take, Nat.add_sub_cancel_left]
  rw [List.take_append_eq_append_take]
  simp [Nat.min_eq_left (Nat.le_add_right off buf.length)]

theorem writeAt_length (data buf : List Nat) (off : Nat) :
    data.length ≤ (writeAt data off buf).length := by
  unfold writeAt
  split
  · exact le_refl _
  · simp only [List.length_append, List.length_take, List.length_replicate, List.length_drop]
    omega

theorem recallLoop_copies (B : Nat) (c : RecallCalls) (t : FsObj) (n : Nat) (hB : 0 < B)
    (hread : ∀ i, ∃ m, c.read i = .bytes m ∧ 0 < m)
    (hwrite : ∀ i, ∃ m, c.write_invis i = .bytes m ∧ B ≤ m) :
    ∀ (fuel i off : Nat) (w : World),
      w.tapePos = off → w.data.take off = w.tape.take off →
      n ≤ w.data.length → n ≤ w.tape.length → n < fuel + off → 0 < fuel →
      ∃ w', recallLoop B c t n fuel i off w = some (.ok (), w') ∧
        w'.data.take n = w.tape.take n ∧
        ∃ evs, w'.log = w.log ++ evs ∧
          ∀ last rest, (∀ a b, writesFollowReads a b rest = true) →
            writesFollowReads off last (evs ++ rest) = true := by
  intro fuel
  induction fuel with
  | zero => intro i off w _ _ _ _ _ h0; exact absurd h0 (by simp)
  | succ f ih =>
    intro i off w hpos hdat hn1 hn2 hfuel _
    rw [recallLoop]
    by_cases hlt : off < n
    · obtain ⟨m, hm, hm0⟩ := hread i
      obtain ⟨m', hm', hmB⟩ := hwrite i
      simp only [hlt, if_true, hm, read_tape, hpos]
      -- the chunk read
      have hblen : ((w.tape.drop off).take (min m B)).length
          = min (min m B) (w.tape.length - off) := by
        simp [List.length_take, List.length_drop]
      have hbpos : 0 < ((w.tape.drop off).take (min m B)).length := by
        rw [hblen]; omega
      have hbB : ((w.tape.drop off).take (min m B)).length ≤ B := by
        rw [hblen]; omega
      have hbne : (w.tape.drop off).take (min m B) ≠ [] := by
        intro h0; rw [h0] at hbpos; simp at hbpos
      generalize hbuf : (w.tape.drop off).take (min m B) = buffer at hblen hbpos hbB hbne
      have hpart : buffer.take (min m' buffer.length) = buffer := by
        rw [Nat.min_eq_right (by omega)]; exact List.take_length buffer
      simp only [FsObj.write, hm', hpart, ne_eq, not_true_eq_false, if_false]
      have hoff : off ≤ w.data.length := by omega
      have hstep := ih (i + 1) (off + buffer.length)
        (({ ({ w with tapePos := off + buffer.length } : World).emit
              (.read_tape buffer.length) with
            data := writeAt w.data off buffer } : World).emit
          (.write_invis off buffer.length buffer.length))
        rfl
        (by
          simp only [emit_data, emit_tape]
          rw [writeAt_take _ _ _ hoff hbne, hdat, ← hbuf, List.take_add]
          congr 1
          exact (take_take_length _ _).symm)
        (by
          simp only [emit_data]
          exact le_trans hn1 (writeAt_length _ _ _))
        (by simpa using hn2)
        (by omega) (by omega)
      obtain ⟨w', hw', hd', evs, hl', hwf⟩ := hstep
      refine ⟨w', hw', by simpa using hd',
        Event.read_tape buffer.length :: Event.write_invis off buffer.length buffer.length
          :: evs, by rw [hl']; simp, ?_⟩
      intro last rest hrest
      simp only [List.cons_append, writesFollowReads, Int.toNat_ofNat, beq_self_eq_true,
        Bool.true_and]
      exact hwf _ rest hrest
    · simp only [hlt, if_false]
      refine ⟨w, rfl, ?_, [], by simp, fun last rest hrest => by simpa using hrest _ _⟩
      have := congrArg (List.take n) hdat
      rwa [List.take_take, List.take_take, Nat.min_eq_left (by omega)] at this

theorem recall_of_try (B : Nat) (c : RecallCalls) (fuel : Nat) (fn tid : String)
    (st s : file_state) (w : World) (e : TryEnd) (l : RecallLocals) (w1 : World)
    (h : recallTry B c fuel fn tid st s w = some (e, l, w1)) :
    ∃ r w', SelRecall.recall B c fuel fn tid st s w = some (r, w') ∧
      (w' = w1 ∨ w' = w1.emit .close_tape) := by
  unfold SelRecall.recall
  rw [h]
  cases e with
  | completed => exact ⟨_, _, rfl, Or.inl rfl⟩
  | returned v => exact ⟨_, _, rfl, Or.inl rfl⟩
  | thrown x =>
    cases x with
    | nelem n => exact ⟨_, _, rfl, Or.inl rfl⟩
    | assert_failed => exact ⟨_, _, rfl, Or.inl rfl⟩
    | errno n =>
      cases hfd : l.fdSet
      · exact ⟨.value l.st_size, w1, by simp [hfd], Or.inl rfl⟩
      · exact ⟨.value l.st_size, w1.emit .close_tape, by simp [hfd], Or.inr rfl⟩
    | general_error =>
      cases hfd : l.fdSet
      · exact ⟨.value l.st_size, w1, by simp [hfd], Or.inl rfl⟩
      · exact ⟨.value l.st_size, w1.emit .close_tape, by simp [hfd], Or.inr rfl⟩
    | attr_format =>
      cases hfd : l.fdSet
      · exact ⟨.value l.st_size, w1, by simp [hfd], Or.inl rfl⟩
      · exact ⟨.value l.st_size, w1.emit .close_tape, by simp [hfd], Or.inr rfl⟩

theorem recallCopy_opened (B : Nat) (c : RecallCalls) (fuel : Nat) (t : FsObj)
    (s : file_state) (w : World) (hopen : c.open_tape = none) (hstat : c.get_fileattr = none) :
    recallCopy B c fuel t s w =
      match recallLoop B c t w.data.length fuel 0 0
        (({ w.emit .open_tape with tapePos := 0 } : World).emit .get_fileattr) with
      | none => none
      | some (.error x, w3) => some (.thrown x, ⟨true, some w.data.length⟩, w3)
      | some (.ok _, w3) =>
        match recallFinish c t s (w3.emit .close_tape) with
        | (e, w4) => some (e, ⟨true, some w.data.length⟩, w4) := by
  unfold recallCopy
  simp only [open_tape, hopen, stat_eq, hstat]
  rfl

/-- C4: recall restores the data byte for byte.  For a file found MIGRATED, of
size `n`, whose tape file holds at least `n` bytes, when the tape file opens,
the size query succeeds, every read of the tape returns a positive number of
bytes and every invisible write is complete, `recall` returns (given `n + 1`
loop tests or more), every invisible write it makes is given the chunk read
last at the offset equal to the number of bytes read before that chunk, and
afterwards bytes [0, n) of the file equal bytes [0, n) of the tape file. -/
theorem recall_restores_data (B : Nat) (c : RecallCalls) (fuel : Nat) (fn tid : String)
    (st s : file_state) (w : World) (t0 t : FsObj) (w1 w2 : World)
    (hB : 0 < B)
    (hp : FsObj.ofPath c.path_to_handle fn = .ok t0)
    (hl : t0.lock c.request_right w = (.ok t, w1))
    (hg : t.getMigState c.get_region w1 = (.ok .MIGRATED, w2))
    (hopen : c.open_tape = none) (hstat : c.get_fileattr = none)
    (hread : ∀ i, ∃ m, c.read i = .bytes m ∧ 0 < m)
    (hwrite : ∀ i, ∃ m, c.write_invis i = .bytes m ∧ B ≤ m)
    (hlen : w.data.length ≤ w.tape.length)
    (hfuel : w.data.length < fuel) :
    ∃ r w', SelRecall.recall B c fuel fn tid st s w = some (r, w') ∧
      w'.data.take w.data.length = w.tape.take w.data.length ∧
      ∃ evs, w'.log = w.log ++ evs ∧ writesFollowReads 0 0 evs = true := by
  obtain ⟨-, -, hk3, hk4, hk5⟩ := lock_snd c.request_right t0 w
  rw [hl] at hk3 hk4 hk5
  simp only at hk3 hk4 hk5
  have hg2 := getMigState_snd c.get_region t w1
  rw [hg] at hg2
  simp only at hg2
  subst hg2
  have hst : (if file_state.MIGRATED ≠ st then file_state.MIGRATED else st)
      = file_state.MIGRATED := by
    by_cases hc : file_state.MIGRATED = st <;> simp [hc]
  -- the world when the loop starts
  have hn' : (w1.emit .get_region).data.length = w.data.length := by simp [hk3]
  obtain ⟨w5, hloop, hdata, levs, hllog, hwf⟩ :=
    recallLoop_copies B c t (w1.emit .get_region).data.length hB hread hwrite fuel 0 0
      (({ (w1.emit .get_region).emit .open_tape with tapePos := 0 } : World).emit
        .get_fileattr)
      rfl (by simp) (by simp) (by simpa [hk3, hk4] using hlen) (by omega) (by omega)
  rw [hn'] at hdata
  simp only [emit_tape, emit_log, hk4] at hdata hllog
  rcases hfin : recallFinish c t s (w5.emit .close_tape) with ⟨e, w6⟩
  obtain ⟨hf1, -, -, -, -, fevs, hf6, hf7⟩ := recallFinish_inv _ _ _ _ _ _ hfin
  simp only [emit_data, emit_log] at hf1 hf6
  have ht : recallTry B c fuel fn tid st s w
      = some (e, ⟨true, some (w1.emit .get_region).data.length⟩, w6) := by
    unfold recallTry
    simp only [hp, hl, hg, hst]
    simp only [reduceCtorEq, if_false, if_true]
    rw [recallCopy_opened _ _ _ _ _ _ hopen hstat, hloop]
    simp only [hfin]
  obtain ⟨r, w', hr, hw'⟩ := recall_of_try _ _ _ _ _ _ _ _ _ _ _ ht
  have hpre : ∀ x ∈ (if w.fuidMap.count t0.handle = 0 then
      [Event.request_right t0.handle] else []) ++
      [Event.get_region, Event.open_tape, Event.get_fileattr], x.isTransfer = false := by
    intro x hx
    simp only [List.mem_append, List.mem_cons, List.mem_singleton, List.not_mem_nil,
      or_false] at hx
    rcases hx with hx | rfl | rfl | rfl
    · split at hx
      · simp only [List.mem_singleton] at hx; rw [hx]; rfl
      · simp at hx
    · rfl
    · rfl
    · rfl
  have key : ∀ tail : List Event, (∀ x ∈ tail, x.isTransfer = false) →
      writesFollowReads 0 0
        (((if w.fuidMap.count t0.handle = 0 then
          [Event.request_right t0.handle] else []) ++
          [Event.get_region, Event.open_tape, Event.get_fileattr]) ++ (levs ++ tail))
        = true := by
    intro tail htail
    rw [wfr_quiet _ _ hpre]
    exact hwf 0 tail (fun a b => wfr_quiet_end tail htail a b)
  rcases hw' with rfl | rfl
  · refine ⟨r, _, hr, by rw [hf1]; exact hdata, _, ?_,
      key (Event.close_tape :: fevs) ?_⟩
    · rw [hf6, hllog, hk5]; simp
    · intro x hx
      simp only [List.mem_cons] at hx
      rcases hx with rfl | hx
      · rfl
      · exact hf7 x hx
  · refine ⟨r, _, hr, by rw [emit_data, hf1]; exact hdata, _, ?_,
      key (Event.close_tape :: (fevs ++ [Event.close_tape])) ?_⟩
    · rw [emit_log, hf6, hllog, hk5]; simp
    · intro x hx
      simp only [List.mem_cons, List.mem_append, List.mem_singleton, List.not_mem_nil,
        or_false] at hx
      rcases hx with rfl | hx | rfl
      · rfl
      · exact hf7 x hx
      · rfl

/-- Witness of `recall_restores_data`: a MIGRATED file of five bytes is
recalled in chunks of four bytes and one byte. -/
theorem recall_restores_data_witness :
    ∃ r w', SelRecall.recall 4 (RecallCalls.allSucceed ⟨1, 2, 3⟩ 4) 8 "f" "T1" .MIGRATED
        .PREMIGRATED (World.sample 7) = some (r, w') ∧
      w'.data.take (World.sample 7).data.length
        = (World.sample 7).tape.take (World.sample 7).data.length ∧
      ∃ evs, w'.log = (World.sample 7).log ++ evs ∧ writesFollowReads 0 0 evs = true :=
  recall_restores_data 4 (RecallCalls.allSucceed ⟨1, 2, 3⟩ 4) 8 "f" "T1" .MIGRATED
    .PREMIGRATED (World.sample 7) _ _ _ _ (by decide) rfl rfl rfl rfl rfl
    (fun _ => ⟨4, rfl, by decide⟩) (fun _ => ⟨4, rfl, by decide⟩) (by decide) (by decide)

/-! ## The lock taken by `recall` -/

/-- C3 (the code at the failing inputs): `recall` keeps the file lock on two
of its ways out.  For a file found RESIDENT it returns 0 from inside the `try`
block, and after a short write the handler only closes the descriptor: in both
runs the lock map, empty before the call, holds the identity with count 1
afterwards and the right is not given back.  In the run where every call
succeeds the lock map is empty again. -/
theorem recall_keeps_lock_on_early_exit :
    (∃ w', SelRecall.recall 4 (RecallCalls.allSucceed ⟨1, 2, 3⟩ 4) 8 "f" "T1" .PREMIGRATED
        .RESIDENT World.empty = some (.value (some 0), w') ∧
      World.empty.fuidMap = [] ∧ w'.fuidMap = [(⟨1, 2, 3⟩, 1)] ∧
      Event.release_right ⟨1, 2, 3⟩ ∉ w'.log) ∧
    (∃ r w', SelRecall.recall 4 (RecallCalls.shortWrite ⟨1, 2, 3⟩ 4 2) 8 "f" "T1" .MIGRATED
        .PREMIGRATED (World.sample 7) = some (r, w') ∧
      (World.sample 7).fuidMap = [] ∧ w'.fuidMap = [(⟨1, 2, 3⟩, 1)] ∧
      Event.release_right ⟨1, 2, 3⟩ ∉ w'.log) ∧
    (∃ r w', SelRecall.recall 4 (RecallCalls.allSucceed ⟨1, 2, 3⟩ 4) 8 "f" "T1" .MIGRATED
        .PREMIGRATED (World.sample 7) = some (r, w') ∧
      w'.fuidMap = [] ∧ Event.release_right ⟨1, 2, 3⟩ ∈ w'.log) :=
  ⟨⟨_, rfl, rfl, rfl, by decide⟩, ⟨_, _, rfl, rfl, rfl, by decide⟩,
    ⟨_, _, rfl, rfl, by decide⟩⟩

/-! ## The tape attribute -/

theorem addAttribute_ok (hash_code : Nat) (f : Option Int) (v : attr_t) (o : FsObj)
    (w w' : World) (u : Unit) (h : o.addAttribute hash_code f v w = (.ok u, w')) :
    f = none ∧ w'.attr = some { v with typeId := hash_code } := by
  cases f with
  | some e => simp [FsObj.addAttribute, dm_set_dmattr] at h
  | none =>
    simp only [FsObj.addAttribute, dm_set_dmattr, Prod.mk.injEq, true_and] at h
    exact ⟨rfl, by rw [← h]⟩

theorem getAttribute_stored (N hash_code : Nat) (o : FsObj) (w : World) (a : attr_t)
    (h : w.attr = some a) :
    (o.getAttribute N hash_code none w).1 =
      if a.typeId ≠ hash_code then .error .attr_format else .ok a := by
  by_cases ht : a.typeId = hash_code <;> simp [FsObj.getAttribute, dm_get_dmattr, h, ht]

/-- C11 (as amended): attribute round trip.  For every record `v`, a successful
`addAttribute(v)` followed by `getAttribute()` on the same file returns `v`
with its type tag replaced by the process-wide constant, hence a record equal
to `v` exactly when the type tag of `v` is that constant; and a successful
`remAttribute()` followed by `getAttribute()` returns the all-zero record. -/
theorem attribute_round_trip (N hash_code : Nat) (v : attr_t) (o : FsObj) (w : World) :
    (∃ w', o.addAttribute hash_code none v w = (.ok (), w')) ∧
    (∀ f u w', o.addAttribute hash_code f v w = (.ok u, w') →
      (o.getAttribute N hash_code none w').1 = .ok { v with typeId := hash_code } ∧
      ((o.getAttribute N hash_code none w').1 = .ok v ↔ v.typeId = hash_code)) ∧
    (∃ w', o.remAttribute none w = (.ok (), w')) ∧
    (∀ f u w', o.remAttribute f w = (.ok u, w') →
      (o.getAttribute N hash_code none w').1 = .ok (attr_t.zero N)) := by
  refine ⟨⟨_, rfl⟩, ?_, ⟨_, rfl⟩, ?_⟩
  · intro f u w' h
    obtain ⟨-, ha⟩ := addAttribute_ok _ _ _ _ _ _ _ h
    have hg := getAttribute_stored N hash_code o w' _ ha
    simp only [ne_eq, not_true_eq_false, if_false] at hg
    refine ⟨hg, ?_⟩
    rw [hg]
    constructor
    · intro he
      have := congrArg attr_t.typeId (Except.ok.inj he)
      exact this.symm
    · intro he
      cases v
      simp only at he
      rw [he]
  · intro f u w' h
    exact getAttribute_absent N hash_code o w' (remAttribute_ok _ _ _ _ _ h)

/-- Witness of `attribute_round_trip`: a record whose type tag is the constant 7
is stored on the sample file and read back. -/
theorem attribute_round_trip_witness :
    (FsObj.getAttribute 1 7 none ⟨⟨1, 2, 3⟩, false⟩
      (FsObj.addAttribute 7 none ⟨7, ["T2"], [5], 1, false⟩ ⟨⟨1, 2, 3⟩, false⟩
        (World.sample 6)).2).1 = .ok ⟨7, ["T2"], [5], 1, false⟩ ∧
    (FsObj.getAttribute 1 7 none ⟨⟨1, 2, 3⟩, false⟩
      (FsObj.remAttribute none ⟨⟨1, 2, 3⟩, false⟩ (World.sample 6)).2).1
      = .ok (attr_t.zero 1) :=
  ⟨((attribute_round_trip 1 7 ⟨7, ["T2"], [5], 1, false⟩ ⟨⟨1, 2, 3⟩, false⟩
      (World.sample 6)).2.1 none () _ rfl).1,
   (attribute_round_trip 1 7 ⟨7, ["T2"], [5], 1, false⟩ ⟨⟨1, 2, 3⟩, false⟩
      (World.sample 6)).2.2.2 none () _ rfl⟩

/-- C11 (counterexample): the record with tape "T2" and type tag 0 is stored
with `addAttribute` while the constant is 7; `getAttribute` succeeds and
returns a record with type tag 7, which is not the record given. -/
theorem attribute_round_trip_counterexample :
    (FsObj.getAttribute 1 7 none ⟨⟨1, 2, 3⟩, false⟩
      (FsObj.addAttribute 7 none ⟨0, ["T2"], [5], 1, false⟩ ⟨⟨1, 2, 3⟩, false⟩
        (World.sample 6)).2).1 = .ok ⟨7, ["T2"], [5], 1, false⟩ ∧
    (⟨7, ["T2"], [5], 1, false⟩ : attr_t) ≠ ⟨0, ["T2"], [5], 1, false⟩ :=
  ⟨rfl, by decide⟩

/-- C12 (as amended): `getAttribute()` raises the attribute-format error
exactly when the attribute query succeeds and the file carries a stored
attribute whose type tag differs from the constant; it returns the stored
record when the tag matches; a record it returns is never a stored record with
a wrong tag: it is the stored record with the right tag, or the all-zero
record, of type tag 0, that it returns when the query reports that the file
has no attribute. -/
theorem getAttribute_checks_tag (N hash_code : Nat) (o : FsObj) (w : World) :
    (∀ f, (o.getAttribute N hash_code f w).1 = .error .attr_format ↔
      f = none ∧ ∃ a, w.attr = some a ∧ a.typeId ≠ hash_code) ∧
    (∀ a, w.attr = some a → a.typeId = hash_code →
      (o.getAttribute N hash_code none w).1 = .ok a) ∧
    (∀ f a, (o.getAttribute N hash_code f w).1 = .ok a →
      (f = none ∧ w.attr = some a ∧ a.typeId = hash_code) ∨
      (a = attr_t.zero N ∧ a.typeId = 0 ∧
        ((f = none ∧ w.attr = none) ∨ f = some ENOENT))) ∧
    (w.attr = none → (o.getAttribute N hash_code none w).1 = .ok (attr_t.zero N)) := by
  have hnone : (o.getAttribute N hash_code none w).1 = .error .attr_format ↔
      ∃ a, w.attr = some a ∧ a.typeId ≠ hash_code := by
    cases ha : w.attr with
    | none => simp [FsObj.getAttribute, dm_get_dmattr, ha]
    | some a =>
      rw [getAttribute_stored N hash_code o w a ha]
      by_cases ht : a.typeId = hash_code <;> simp [ht]
  refine ⟨?_, ?_, ?_, ?_⟩
  · intro f
    cases f with
    | none => simpa using hnone
    | some e =>
      by_cases he : e = ENOENT <;> simp [FsObj.getAttribute, dm_get_dmattr, he]
  · intro a ha ht
    rw [getAttribute_stored N hash_code o w a ha]
    simp [ht]
  · intro f a h
    cases f with
    | some e =>
      by_cases he : e = ENOENT <;> simp [FsObj.getAttribute, dm_get_dmattr, he] at h
      subst he
      exact Or.inr ⟨h.symm, by rw [← h]; rfl, Or.inr rfl⟩
    | none =>
      cases ha : w.attr with
      | none =>
        simp [FsObj.getAttribute, dm_get_dmattr, ha] at h
        exact Or.inr ⟨h.symm, by rw [← h]; rfl, Or.inl ⟨rfl, rfl⟩⟩
      | some b =>
        rw [getAttribute_stored N hash_code o w b ha] at h
        by_cases ht : b.typeId = hash_code
        · simp [ht] at h
          exact Or.inl ⟨rfl, by rw [h], by rw [← h]; exact ht⟩
        · simp [ht] at h
  · intro ha
    exact getAttribute_absent N hash_code o w ha

/-- Witness of `getAttribute_checks_tag`: the sample file carries a record
with type tag 7; with the constant 8 the read raises the format error, with
the constant 7 it returns the record. -/
theorem getAttribute_checks_tag_witness :
    (FsObj.getAttribute 1 8 none ⟨⟨1, 2, 3⟩, false⟩ (World.sample 6)).1
      = .error .attr_format ∧
    (FsObj.getAttribute 1 7 none ⟨⟨1, 2, 3⟩, false⟩ (World.sample 6)).1
      = .ok ⟨7, ["T1"], [0], 1, false⟩ :=
  ⟨((getAttribute_checks_tag 1 8 ⟨⟨1, 2, 3⟩, false⟩ (World.sample 6)).1 none).2
      ⟨rfl, _, rfl, by decide⟩,
   (getAttribute_checks_tag 1 7 ⟨⟨1, 2, 3⟩, false⟩ (World.sample 6)).2.1 _ rfl rfl⟩

/-- C12 (counterexample): with the constant 7, `getAttribute()` on a file
without the attribute returns the all-zero record, whose type tag 0 is not
the constant; and for the sample file, whose stored record has type tag 7
while the constant is 8, a query that fails with EIO makes `getAttribute()`
throw that `errno` and not the format error. -/
theorem getAttribute_default_record_counterexample :
    (FsObj.getAttribute 1 7 none ⟨⟨1, 2, 3⟩, false⟩ World.empty).1 = .ok (attr_t.zero 1) ∧
    (attr_t.zero 1).typeId = 0 ∧ (attr_t.zero 1).typeId ≠ 7 ∧
    (World.sample 6).attr = some ⟨7, ["T1"], [0], 1, false⟩ ∧
    (FsObj.getAttribute 1 8 (some 5) ⟨⟨1, 2, 3⟩, false⟩ (World.sample 6)).1
      = .error (.errno 5) :=
  ⟨rfl, rfl, by decide, rfl, rfl⟩

/-! ## Lookups and writes in the lists of the inventory -/

theorem updateAt_getElem? {α : Type} (f : α → α) (l : List α) (i j : Nat) :
    (updateAt f l i)[j]? = if j = i then (l[j]?).map f else l[j]? := by
  induction l generalizing i j with
  | nil => simp [updateAt]
  | cons x xs ih =>
    cases i with
    | zero =>
      cases j with
      | zero => simp [updateAt]
      | succ j => simp [updateAt]
    | succ i =>
      cases j with
      | zero => simp [updateAt]
      | succ j => simp [updateAt, ih]

theorem updateAt_length {α : Type} (f : α → α) (l : List α) (i : Nat) :
    (updateAt f l i).length = l.length := by
  induction l generalizing i with
  | nil => rfl
  | cons x xs ih => cases i <;> simp [updateAt, ih]

theorem lastMatchFrom_some {α : Type} (p : α → Bool) (l : List α) :
    ∀ (i : Nat) (acc : Option (Nat × α)) (j : Nat) (x : α),
      lastMatchFrom p l i acc = some (j, x) →
      acc = some (j, x) ∨ (i ≤ j ∧ l[j - i]? = some x ∧ p x = true) := by
  induction l with
  | nil => intro i acc j x h; exact Or.inl h
  | cons y ys ih =>
    intro i acc j x h
    rw [lastMatchFrom] at h
    rcases ih (i + 1) _ j x h with hacc | ⟨hle, hget, hp⟩
    · by_cases hy : p y = true
      · simp only [hy, if_true, Option.some.injEq, Prod.mk.injEq] at hacc
        obtain ⟨rfl, rfl⟩ := hacc
        exact Or.inr ⟨le_refl _, by simp, hy⟩
      · simp only [hy] at hacc
        exact Or.inl hacc
    · right
      refine ⟨by omega, ?_, hp⟩
      have : j - i = (j - (i + 1)) + 1 := by omega
      rw [this]
      simpa using hget

theorem lastMatch_some {α : Type} (p : α → Bool) (l : List α) (j : Nat) (x : α)
    (h : lastMatch p l = some (j, x)) : l[j]? = some x ∧ p x = true := by
  rcases lastMatchFrom_some p l 0 none j x h with hacc | ⟨-, hget, hp⟩
  · simp at hacc
  · exact ⟨by simpa using hget, hp⟩

theorem lastMatchFrom_map_of_lt {α : Type} (p : α → Bool) (f : α → α) (a : Nat)
    (l : List α) :
    ∀ (s : Nat) (acc : Option (Nat × α)), a < s →
      lastMatchFrom p l s (acc.map fun jx => (jx.1, if jx.1 = a then f jx.2 else jx.2)) =
        (lastMatchFrom p l s acc).map fun jx => (jx.1, if jx.1 = a then f jx.2 else jx.2) := by
  induction l with
  | nil => intro s acc _; rfl
  | cons y ys ih =>
    intro s acc hs
    rw [lastMatchFrom, lastMatchFrom, ← ih (s + 1) _ (by omega)]
    congr 1
    by_cases hy : p y = true
    · have : ¬ s = a := by omega
      simp [hy, this]
    · simp [hy]

theorem lastMatchFrom_updateAt {α : Type} (p : α → Bool) (f : α → α)
    (hp : ∀ x, p (f x) = p x) (l : List α) :
    ∀ (k i : Nat) (acc : Option (Nat × α)),
      lastMatchFrom p (updateAt f l k) i
          (acc.map fun jx => (jx.1, if jx.1 = i + k then f jx.2 else jx.2)) =
        (lastMatchFrom p l i acc).map
          fun jx => (jx.1, if jx.1 = i + k then f jx.2 else jx.2) := by
  induction l with
  | nil => intro k i acc; rfl
  | cons y ys ih =>
    intro k i acc
    cases k with
    | zero =>
      rw [updateAt, lastMatchFrom, lastMatchFrom]
      simp only [Nat.add_zero]
      rw [← lastMatchFrom_map_of_lt p f i ys (i + 1) _ (by omega)]
      congr 1
      by_cases hy : p y = true
      · simp [hy, hp]
      · simp [hy, hp]
    | succ k =>
      rw [updateAt, lastMatchFrom, lastMatchFrom]
      have hk : i + (k + 1) = (i + 1) + k := by omega
      rw [hk, ← ih k (i + 1)]
      congr 1
      by_cases hy : p y = true
      · have : ¬ i = i + 1 + k := by omega
        simp [hy, this]
      · simp [hy]

theorem lastMatch_updateAt {α : Type} (p : α → Bool) (f : α → α)
    (hp : ∀ x, p (f x) = p x) (l : List α) (k : Nat) :
    lastMatch p (updateAt f l k) =
      (lastMatch p l).map fun jx => (jx.1, if jx.1 = k then f jx.2 else jx.2) := by
  have := lastMatchFrom_updateAt p f hp l k 0 none
  simpa [lastMatch] using this

/-! ## `OpenLTFSInventory::mount` and `unmount` -/

theorem mountBegin_ok (driveid cartridgeid : String) (inv : OpenLTFSInventory)
    (ci : Nat) (ctg : OpenLTFSCartridge) (di : Nat) (drv : OpenLTFSDrive)
    (hc : lastMatch (fun c => c.objectID == cartridgeid) inv.cartridges = some (ci, ctg))
    (hcs : ctg.state = .UNMOUNTED)
    (hd : lastMatch (fun d => d.objectID == driveid) inv.drives = some (di, drv))
    (hdb : drv.busy = false) :
    inv.mountBegin driveid cartridgeid = .ok (ci, di,
      { inv with
        cartridges := updateAt (fun c => { c with state := .MOVING }) inv.cartridges ci
        drives := updateAt (fun d => { d with busy := true }) inv.drives di }) := by
  simp [OpenLTFSInventory.mountBegin, hc, hcs, hd, hdb]

theorem mountBegin_error (driveid cartridgeid : String) (inv : OpenLTFSInventory)
    (h : ¬ ((∃ ci ctg, lastMatch (fun c => c.objectID == cartridgeid) inv.cartridges
              = some (ci, ctg) ∧ ctg.state = .UNMOUNTED) ∧
            (∃ di drv, lastMatch (fun d => d.objectID == driveid) inv.drives
              = some (di, drv) ∧ drv.busy = false))) :
    inv.mountBegin driveid cartridgeid = .error .general_error := by
  rcases hc : lastMatch (fun c => c.objectID == cartridgeid) inv.cartridges with _ | ⟨ci, ctg⟩
  · simp [OpenLTFSInventory.mountBegin, hc]
  · by_cases hcs : ctg.state = .UNMOUNTED
    · rcases hd : lastMatch (fun d => d.objectID == driveid) inv.drives with _ | ⟨di, drv⟩
      · simp [OpenLTFSInventory.mountBegin, hc, hcs, hd]
      · cases hdb : drv.busy
        · exact absurd ⟨⟨ci, ctg, hc, hcs⟩, ⟨di, drv, hd, hdb⟩⟩ h
        · simp [OpenLTFSInventory.mountBegin, hc, hcs, hd, hdb]
    · simp [OpenLTFSInventory.mountBegin, hc, hcs]

theorem mount_by_lookup (rc slot : Int) (driveid cartridgeid : String)
    (inv : OpenLTFSInventory) :
    (inv.mount rc slot driveid cartridgeid = (.thrown .general_error, inv) ↔
      ¬ ((∃ ci ctg, lastMatch (fun c => c.objectID == cartridgeid) inv.cartridges
              = some (ci, ctg) ∧ ctg.state = .UNMOUNTED) ∧
         (∃ di drv, lastMatch (fun d => d.objectID == driveid) inv.drives
              = some (di, drv) ∧ drv.busy = false))) ∧
    (∀ ci ctg di drv,
      lastMatch (fun c => c.objectID == cartridgeid) inv.cartridges = some (ci, ctg) →
      ctg.state = .UNMOUNTED →
      lastMatch (fun d => d.objectID == driveid) inv.drives = some (di, drv) →
      drv.busy = false →
      ∃ inv1, inv.mountBegin driveid cartridgeid = .ok (ci, di, inv1) ∧
        inv1.cartridges[ci]? = some { ctg with state := .MOVING } ∧
        inv1.drives[di]? = some { drv with busy := true } ∧
        (∀ j, j ≠ ci → inv1.cartridges[j]? = inv.cartridges[j]?) ∧
        (∀ j, j ≠ di → inv1.drives[j]? = inv.drives[j]?) ∧
        inv1.calls = inv.calls ∧
        inv.mount rc slot driveid cartridgeid =
          (.returned,
            OpenLTFSInventory.mountEnd cartridgeid slot ci di
              { inv1 with calls := inv1.calls ++ [LibCall.Mount cartridgeid driveid rc] })) := by
  constructor
  · constructor
    · intro h hv
      obtain ⟨⟨ci, ctg, hc, hcs⟩, ⟨di, drv, hd, hdb⟩⟩ := hv
      have hb := mountBegin_ok driveid cartridgeid inv ci ctg di drv hc hcs hd hdb
      simp only [OpenLTFSInventory.mount, hb, Prod.mk.injEq] at h
      exact absurd h.1 (by simp)
    · intro hv
      simp [OpenLTFSInventory.mount, mountBegin_error driveid cartridgeid inv hv]
  · intro ci ctg di drv hc hcs hd hdb
    have hb := mountBegin_ok driveid cartridgeid inv ci ctg di drv hc hcs hd hdb
    refine ⟨_, hb, ?_, ?_, ?_, ?_, rfl, ?_⟩
    · simp [updateAt_getElem?, (lastMatch_some _ _ _ _ hc).1]
    · simp [updateAt_getElem?, (lastMatch_some _ _ _ _ hd).1]
    · intro j hj
      simp [updateAt_getElem?, hj]
    · intro j hj
      simp [updateAt_getElem?, hj]
    · simp [OpenLTFSInventory.mount, hb]

theorem lastMatchFrom_acc {α : Type} (p : α → Bool) :
    ∀ (l : List α) (s : Nat) (acc : Option (Nat × α)), (∀ y ∈ l, p y = false) →
      lastMatchFrom p l s acc = acc := by
  intro l
  induction l with
  | nil => intro s acc _; rfl
  | cons y ys ih =>
    intro s acc h
    rw [lastMatchFrom, ih (s + 1) _ (fun z hz => h z (List.mem_cons_of_mem _ hz))]
    simp [h y (List.mem_cons_self _ _)]

theorem lastMatchFrom_of_last {α : Type} (p : α → Bool) :
    ∀ (l : List α) (s : Nat) (acc : Option (Nat × α)) (i : Nat) (x : α),
      l[i]? = some x → p x = true →
      (∀ j y, i < j → l[j]? = some y → p y = false) →
      lastMatchFrom p l s acc = some (s + i, x) := by
  intro l
  induction l with
  | nil => intro s acc i x h; simp at h
  | cons y ys ih =>
    intro s acc i x hget hp hlast
    rw [lastMatchFrom]
    cases i with
    | zero =>
      simp only [List.getElem?_cons_zero, Option.some.injEq] at hget
      subst hget
      rw [lastMatchFrom_acc p ys (s + 1) _ (fun z hz => by
        obtain ⟨k, hk⟩ := List.getElem?_of_mem hz
        exact hlast (k + 1) z (by omega) (by simpa using hk))]
      simp [hp]
    | succ i =>
      rw [ih (s + 1) _ i x (by simpa using hget) hp (fun j z hj hz =>
        hlast (j + 1) z (by omega) (by simpa using hz))]
      congr 2
      omega

theorem lastMatchFrom_later {α : Type} (p : α → Bool) :
    ∀ (l : List α) (s : Nat) (acc : Option (Nat × α)) (k : Nat) (x : α),
      lastMatchFrom p l s acc = some (k, x) →
      (acc = some (k, x) ∧ ∀ y ∈ l, p y = false) ∨
      (s ≤ k ∧ ∀ j y, k - s < j → l[j]? = some y → p y = false) := by
  intro l
  induction l with
  | nil => intro s acc k x h; exact Or.inl ⟨h, by simp⟩
  | cons y ys ih =>
    intro s acc k x h
    rw [lastMatchFrom] at h
    rcases ih (s + 1) _ k x h with ⟨hacc, hall⟩ | ⟨hle, hlater⟩
    · by_cases hy : p y = true
      · simp only [hy, if_true, Option.some.injEq, Prod.mk.injEq] at hacc
        obtain ⟨rfl, rfl⟩ := hacc
        right
        refine ⟨le_refl _, ?_⟩
        intro j z hj hz
        obtain ⟨j, rfl⟩ : ∃ j0, j = j0 + 1 := ⟨j - 1, by omega⟩
        exact hall z (List.getElem?_mem (by simpa using hz))
      · simp only [hy] at hacc
        left
        refine ⟨hacc, ?_⟩
        intro z hz
        rcases List.mem_cons.1 hz with rfl | hz
        · simpa using hy
        · exact hall z hz
    · right
      refine ⟨by omega, ?_⟩
      intro j z hj hz
      obtain ⟨j, rfl⟩ : ∃ j0, j = j0 + 1 := ⟨j - 1, by omega⟩
      exact hlater j z (by omega) (by simpa using hz)

/-- The element that the lookup loop finds is the one listed last among those
that satisfy the test. -/
theorem lastMatch_eq_some_iff {α : Type} (p : α → Bool) (l : List α) (i : Nat) (x : α) :
    lastMatch p l = some (i, x) ↔
      l[i]? = some x ∧ p x = true ∧ ∀ j y, i < j → l[j]? = some y → p y = false := by
  constructor
  · intro h
    obtain ⟨hget, hp⟩ := lastMatch_some p l i x h
    refine ⟨hget, hp, ?_⟩
    rcases lastMatchFrom_later p l 0 none i x h with ⟨hacc, -⟩ | ⟨-, hlater⟩
    · simp at hacc
    · simpa using hlater
  · rintro ⟨hget, hp, hlast⟩
    have := lastMatchFrom_of_last p l 0 none i x hget hp hlast
    simpa [lastMatch] using this

theorem getElem?_unique_of_nodup_map {α β : Type} (f : α → β) (l : List α)
    (hn : (l.map f).Nodup) (i j : Nat) (a b : α) (hi : l[i]? = some a) (hj : l[j]? = some b)
    (hf : f a = f b) : i = j := by
  have h1 : (l.map f)[i]? = some (f a) := by simp [hi]
  have h2 : (l.map f)[j]? = some (f a) := by simp [hj, hf]
  obtain ⟨hil, h1'⟩ := List.getElem?_eq_some.1 h1
  obtain ⟨hjl, h2'⟩ := List.getElem?_eq_some.1 h2
  exact (List.Nodup.getElem_inj_iff hn).1 (h1'.trans h2'.symm)

/-- With identifiers that are listed once, the element found by the lookup is
the element of the list with the identifier. -/
theorem found_last_iff_mem {α : Type} (id : α → String) (q : α → Prop) (l : List α)
    (key : String) (hn : (l.map id).Nodup) :
    (∃ (i : Nat) (x : α), l[i]? = some x ∧ id x = key ∧
        (∀ (j : Nat) (y : α), i < j → l[j]? = some y → id y ≠ key) ∧ q x) ↔
      ∃ x ∈ l, id x = key ∧ q x := by
  constructor
  · rintro ⟨i, x, hget, hid, -, hq⟩
    exact ⟨x, List.getElem?_mem hget, hid, hq⟩
  · rintro ⟨x, hx, hid, hq⟩
    obtain ⟨i, hget⟩ := List.getElem?_of_mem hx
    refine ⟨i, x, hget, hid, ?_, hq⟩
    intro j y hj hy he
    have := getElem?_unique_of_nodup_map id l hn i j x y hget hy (hid.trans he.symm)
    omega

/-- C13: `mount` validates before it changes anything.  It throws
`LTFSDM_GENERAL_ERROR` with all drives and cartridges as they were and no call
to the library exactly when the cartridge named is not a listed cartridge in
state UNMOUNTED or the drive named is not a listed drive that is free (of
several entries with one identifier the one listed last counts; with
identifiers listed once, any entry of the list); in every other case the first
block leaves that cartridge MOVING and that drive busy, everything else as it
was and no library call made, and the library call `Mount` comes after it. -/
theorem mount_validates_first (rc slot : Int) (driveid cartridgeid : String)
    (inv : OpenLTFSInventory) :
    (inv.mount rc slot driveid cartridgeid = (.thrown .general_error, inv) ↔
      ¬ ((∃ (ci : Nat) (ctg : OpenLTFSCartridge),
            inv.cartridges[ci]? = some ctg ∧ ctg.objectID = cartridgeid ∧
            (∀ (j : Nat) (c : OpenLTFSCartridge), ci < j → inv.cartridges[j]? = some c →
              c.objectID ≠ cartridgeid) ∧
            ctg.state = .UNMOUNTED) ∧
         (∃ (di : Nat) (drv : OpenLTFSDrive),
            inv.drives[di]? = some drv ∧ drv.objectID = driveid ∧
            (∀ (j : Nat) (d : OpenLTFSDrive), di < j → inv.drives[j]? = some d →
              d.objectID ≠ driveid) ∧
            drv.busy = false))) ∧
    ((inv.cartridges.map fun c => c.objectID).Nodup →
      (inv.drives.map fun d => d.objectID).Nodup →
      (inv.mount rc slot driveid cartridgeid = (.thrown .general_error, inv) ↔
        ¬ ((∃ ctg ∈ inv.cartridges, ctg.objectID = cartridgeid ∧ ctg.state = .UNMOUNTED) ∧
           (∃ drv ∈ inv.drives, drv.objectID = driveid ∧ drv.busy = false)))) ∧
    (∀ (ci : Nat) (ctg : OpenLTFSCartridge) (di : Nat) (drv : OpenLTFSDrive),
      inv.cartridges[ci]? = some ctg → ctg.objectID = cartridgeid →
      (∀ (j : Nat) (c : OpenLTFSCartridge), ci < j → inv.cartridges[j]? = some c →
        c.objectID ≠ cartridgeid) →
      ctg.state = .UNMOUNTED →
      inv.drives[di]? = some drv → drv.objectID = driveid →
      (∀ (j : Nat) (d : OpenLTFSDrive), di < j → inv.drives[j]? = some d →
        d.objectID ≠ driveid) →
      drv.busy = false →
      ∃ inv1, inv.mountBegin driveid cartridgeid = .ok (ci, di, inv1) ∧
        inv1.cartridges[ci]? = some { ctg with state := .MOVING } ∧
        inv1.drives[di]? = some { drv with busy := true } ∧
        (∀ j, j ≠ ci → inv1.cartridges[j]? = inv.cartridges[j]?) ∧
        (∀ j, j ≠ di → inv1.drives[j]? = inv.drives[j]?) ∧
        inv1.calls = inv.calls ∧
        inv.mount rc slot driveid cartridgeid =
          (.returned,
            OpenLTFSInventory.mountEnd cartridgeid slot ci di
              { inv1 with calls := inv1.calls ++ [LibCall.Mount cartridgeid driveid rc] })) := by
  have hcart : ∀ ci ctg,
      lastMatch (fun c => c.objectID == cartridgeid) inv.cartridges = some (ci, ctg) ↔
        inv.cartridges[ci]? = some ctg ∧ ctg.objectID = cartridgeid ∧
          ∀ (j : Nat) (c : OpenLTFSCartridge), ci < j → inv.cartridges[j]? = some c →
            c.objectID ≠ cartridgeid := by
    intro ci ctg
    rw [lastMatch_eq_some_iff]
    simp
  have hdrv : ∀ di drv,
      lastMatch (fun d => d.objectID == driveid) inv.drives = some (di, drv) ↔
        inv.drives[di]? = some drv ∧ drv.objectID = driveid ∧
          ∀ (j : Nat) (d : OpenLTFSDrive), di < j → inv.drives[j]? = some d →
            d.objectID ≠ driveid := by
    intro di drv
    rw [lastMatch_eq_some_iff]
    simp
  have hiff : (inv.mount rc slot driveid cartridgeid = (.thrown .general_error, inv) ↔
      ¬ ((∃ (ci : Nat) (ctg : OpenLTFSCartridge),
            inv.cartridges[ci]? = some ctg ∧ ctg.objectID = cartridgeid ∧
            (∀ (j : Nat) (c : OpenLTFSCartridge), ci < j → inv.cartridges[j]? = some c →
              c.objectID ≠ cartridgeid) ∧
            ctg.state = .UNMOUNTED) ∧
         (∃ (di : Nat) (drv : OpenLTFSDrive),
            inv.drives[di]? = some drv ∧ drv.objectID = driveid ∧
            (∀ (j : Nat) (d : OpenLTFSDrive), di < j → inv.drives[j]? = some d →
              d.objectID ≠ driveid) ∧
            drv.busy = false))) := by
    rw [(mount_by_lookup rc slot driveid cartridgeid inv).1]
    simp only [hcart, hdrv, and_assoc]
  refine ⟨hiff, ?_, ?_⟩
  · intro hnc hnd
    rw [hiff, found_last_iff_mem (fun c : OpenLTFSCartridge => c.objectID)
        (fun c => c.state = .UNMOUNTED) inv.cartridges cartridgeid hnc,
      found_last_iff_mem (fun d : OpenLTFSDrive => d.objectID)
        (fun d => d.busy = false) inv.drives driveid hnd]
  · intro ci ctg di drv h1 h2 h3 h4 h5 h6 h7 h8
    exact (mount_by_lookup rc slot driveid cartridgeid inv).2 ci ctg di drv
      ((hcart ci ctg).2 ⟨h1, h2, h3⟩) h4 ((hdrv di drv).2 ⟨h5, h6, h7⟩) h8

/-- Witness of `mount_validates_first`: drive "D2" and cartridge "C2", the
second entries of the sample inventory. -/
theorem mount_validates_first_witness :
    ∃ inv1, OpenLTFSInventory.sample.mountBegin "D2" "C2" = .ok (1, 1, inv1) ∧
      inv1.cartridges[1]? = some ⟨"C2", .MOVING, 4097⟩ ∧
      inv1.drives[1]? = some ⟨"D2", true, 257⟩ ∧
      inv1.calls = [] :=
  have h := (mount_validates_first 0 4097 "D2" "C2" OpenLTFSInventory.sample).2.2
    1 ⟨"C2", .UNMOUNTED, 4097⟩ 1 ⟨"D2", false, 257⟩ rfl rfl
    (fun j c hj hc => by
      obtain ⟨k, rfl⟩ : ∃ k, j = k + 2 := ⟨j - 2, by omega⟩
      simp [OpenLTFSInventory.sample] at hc)
    rfl rfl rfl
    (fun j d hj hd => by
      obtain ⟨k, rfl⟩ : ∃ k, j = k + 2 := ⟨j - 2, by omega⟩
      simp [OpenLTFSInventory.sample] at hd)
    rfl
  ⟨h.choose, h.choose_spec.1, h.choose_spec.2.1, h.choose_spec.2.2.1,
    h.choose_spec.2.2.2.2.2.1⟩

theorem mount_valid_eq (rc slot : Int) (driveid cartridgeid : String)
    (inv : OpenLTFSInventory) (ci : Nat) (ctg : OpenLTFSCartridge) (di : Nat)
    (drv : OpenLTFSDrive)
    (hc : lastMatch (fun c => c.objectID == cartridgeid) inv.cartridges = some (ci, ctg))
    (hcs : ctg.state = .UNMOUNTED)
    (hd : lastMatch (fun d => d.objectID == driveid) inv.drives = some (di, drv))
    (hdb : drv.busy = false) :
    inv.mount rc slot driveid cartridgeid = (.returned,
      { drives := updateAt (fun d => { d with busy := false })
          (updateAt (fun d => { d with busy := true }) inv.drives di) di
        cartridges := updateAt (fun c => { c.update slot with state := .MOUNTED })
          (updateAt (fun c => { c with state := .MOVING }) inv.cartridges ci) ci
        calls := inv.calls ++ [LibCall.Mount cartridgeid driveid rc]
          ++ [LibCall.update cartridgeid] }) := by
  simp [OpenLTFSInventory.mount, mountBegin_ok driveid cartridgeid inv ci ctg di drv hc hcs hd hdb,
    OpenLTFSInventory.mountEnd]

/-- C14 (as amended): after a successful `mount(driveId, cartridgeId)` the
cartridge is in state MOUNTED, with the slot the library reports, and the
drive is free again (it is busy only while the mount is in progress); a
following `mount()` naming the same drive and another UNMOUNTED cartridge
passes the validation. -/
theorem mount_leaves_drive_free (slot : Int) (driveid cartridgeid : String)
    (inv : OpenLTFSInventory) (ci : Nat) (ctg : OpenLTFSCartridge) (di : Nat)
    (drv : OpenLTFSDrive)
    (hc : lastMatch (fun c => c.objectID == cartridgeid) inv.cartridges = some (ci, ctg))
    (hcs : ctg.state = .UNMOUNTED)
    (hd : lastMatch (fun d => d.objectID == driveid) inv.drives = some (di, drv))
    (hdb : drv.busy = false) :
    (inv.mount 0 slot driveid cartridgeid).1 = .returned ∧
    (inv.mount 0 slot driveid cartridgeid).2.cartridges[ci]?
      = some { ctg with slot := slot, state := .MOUNTED } ∧
    (inv.mount 0 slot driveid cartridgeid).2.drives[di]? = some { drv with busy := false } ∧
    (∀ other cj ctg2,
      lastMatch (fun c => c.objectID == other) inv.cartridges = some (cj, ctg2) →
      cj ≠ ci → ctg2.state = .UNMOUNTED →
      ∃ inv1, (inv.mount 0 slot driveid cartridgeid).2.mountBegin driveid other
        = .ok (cj, di, inv1)) := by
  rw [mount_valid_eq 0 slot driveid cartridgeid inv ci ctg di drv hc hcs hd hdb]
  refine ⟨rfl, ?_, ?_, ?_⟩
  · simp [updateAt_getElem?, (lastMatch_some _ _ _ _ hc).1, OpenLTFSCartridge.update]
  · simp [updateAt_getElem?, (lastMatch_some _ _ _ _ hd).1]
  · intro other cj ctg2 hc2 hne hs2
    refine ⟨_, mountBegin_ok driveid other _ cj ctg2 di { drv with busy := false } ?_ hs2 ?_ rfl⟩
    · simp only
      rw [lastMatch_updateAt (fun c : OpenLTFSCartridge => c.objectID == other)
          (fun c => { c.update slot with state := .MOUNTED }) (fun _ => rfl),
        lastMatch_updateAt (fun c : OpenLTFSCartridge => c.objectID == other)
          (fun c => { c with state := .MOVING }) (fun _ => rfl), hc2]
      simp [hne]
    · simp only
      rw [lastMatch_updateAt (fun d : OpenLTFSDrive => d.objectID == driveid)
          (fun d => { d with busy := false }) (fun _ => rfl),
        lastMatch_updateAt (fun d : OpenLTFSDrive => d.objectID == driveid)
          (fun d => { d with busy := true }) (fun _ => rfl), hd]
      simp

/-- Witness of `mount_leaves_drive_free`: cartridge "C1" is mounted in drive
"D1" of the sample inventory. -/
theorem mount_leaves_drive_free_witness :
    (OpenLTFSInventory.sample.mount 0 256 "D1" "C1").1 = .returned ∧
    (OpenLTFSInventory.sample.mount 0 256 "D1" "C1").2.cartridges[0]?
      = some ⟨"C1", .MOUNTED, 256⟩ ∧
    (OpenLTFSInventory.sample.mount 0 256 "D1" "C1").2.drives[0]?
      = some ⟨"D1", false, 256⟩ :=
  have h := mount_leaves_drive_free 256 "D1" "C1" OpenLTFSInventory.sample
    0 ⟨"C1", .UNMOUNTED, 4096⟩ 0 ⟨"D1", false, 256⟩ (by decide) rfl (by decide) rfl
  ⟨h.1, h.2.1, h.2.2.1⟩

/-- C14 (counterexample): after "C1" is mounted in drive "D1" of the sample
inventory, the drive is not busy, and the following `mount` of "C2" in the same
drive is not rejected: it returns and makes a second `Mount` call for "D1". -/
theorem mount_same_drive_again_counterexample :
    (OpenLTFSInventory.sample.mount 0 256 "D1" "C1").2.drives[0]?
      = some ⟨"D1", false, 256⟩ ∧
    ((OpenLTFSInventory.sample.mount 0 256 "D1" "C1").2.mount 0 256 "D1" "C2").1
      = .returned ∧
    ((OpenLTFSInventory.sample.mount 0 256 "D1" "C1").2.mount 0 256 "D1" "C2").2.calls
      = [LibCall.Mount "C1" "D1" 0, LibCall.update "C1", LibCall.Mount "C2" "D1" 0,
          LibCall.update "C2"] := by
  decide

/-- C15 (as amended): `mount` does not read the result of the library call
`Mount`.  For every value `rc` that the call returns, a failure included,
`mount` returns with the same drives and cartridges as for the value 0: the
cartridge found is MOUNTED and the drive found is free; nothing is rolled
back to UNMOUNTED. -/
theorem mount_ignores_result (rc slot : Int) (driveid cartridgeid : String)
    (inv : OpenLTFSInventory) :
    (inv.mount rc slot driveid cartridgeid).1 = (inv.mount 0 slot driveid cartridgeid).1 ∧
    (inv.mount rc slot driveid cartridgeid).2.cartridges
      = (inv.mount 0 slot driveid cartridgeid).2.cartridges ∧
    (inv.mount rc slot driveid cartridgeid).2.drives
      = (inv.mount 0 slot driveid cartridgeid).2.drives ∧
    (∀ ci ctg di drv,
      lastMatch (fun c => c.objectID == cartridgeid) inv.cartridges = some (ci, ctg) →
      ctg.state = .UNMOUNTED →
      lastMatch (fun d => d.objectID == driveid) inv.drives = some (di, drv) →
      drv.busy = false →
      (inv.mount rc slot driveid cartridgeid).1 = .returned ∧
      (inv.mount rc slot driveid cartridgeid).2.cartridges[ci]?
        = some { ctg with slot := slot, state := .MOUNTED } ∧
      (inv.mount rc slot driveid cartridgeid).2.drives[di]? = some drv) := by
  refine ⟨?_, ?_, ?_, ?_⟩
  · unfold OpenLTFSInventory.mount
    cases inv.mountBegin driveid cartridgeid <;> rfl
  · unfold OpenLTFSInventory.mount
    cases inv.mountBegin driveid cartridgeid <;> rfl
  · unfold OpenLTFSInventory.mount
    cases inv.mountBegin driveid cartridgeid <;> rfl
  · intro ci ctg di drv hc hcs hd hdb
    rw [mount_valid_eq rc slot driveid cartridgeid inv ci ctg di drv hc hcs hd hdb]
    refine ⟨rfl, ?_, ?_⟩
    · simp [updateAt_getElem?, (lastMatch_some _ _ _ _ hc).1, OpenLTFSCartridge.update]
    · simp only [updateAt_getElem?, (lastMatch_some _ _ _ _ hd).1, if_true, Option.map_some',
        Option.some.injEq]
      cases drv
      simp only at hdb
      simp [hdb]

/-- Witness of `mount_ignores_result`: the library call fails with -1 for
cartridge "C1" and drive "D1" of the sample inventory. -/
theorem mount_ignores_result_witness :
    (OpenLTFSInventory.sample.mount (-1) 4096 "D1" "C1").1 = .returned ∧
    (OpenLTFSInventory.sample.mount (-1) 4096 "D1" "C1").2.cartridges[0]?
      = some ⟨"C1", .MOUNTED, 4096⟩ ∧
    (OpenLTFSInventory.sample.mount (-1) 4096 "D1" "C1").2.drives[0]?
      = some ⟨"D1", false, 256⟩ :=
  (mount_ignores_result (-1) 4096 "D1" "C1" OpenLTFSInventory.sample).2.2.2
    0 ⟨"C1", .UNMOUNTED, 4096⟩ 0 ⟨"D1", false, 256⟩ (by decide) rfl (by decide) rfl

/-- C15 (counterexample): the library call `Mount` fails with -1 for cartridge
"C1" and drive "D1" of the sample inventory, and the library still reports the
cartridge in its slot 4096; when `mount` ends the cartridge is MOUNTED, not
UNMOUNTED as it was before the call. -/
theorem mount_failed_not_rolled_back_counterexample :
    OpenLTFSInventory.sample.cartridges[0]? = some ⟨"C1", .UNMOUNTED, 4096⟩ ∧
    (OpenLTFSInventory.sample.mount (-1) 4096 "D1" "C1").1 = .returned ∧
    (OpenLTFSInventory.sample.mount (-1) 4096 "D1" "C1").2.calls
      = [LibCall.Mount "C1" "D1" (-1), LibCall.update "C1"] ∧
    (OpenLTFSInventory.sample.mount (-1) 4096 "D1" "C1").2.cartridges[0]?
      = some ⟨"C1", .MOUNTED, 4096⟩ := by
  decide

/-- C16 (the code at the failing input): cartridge "C1" is MOUNTED with slot
300 and no drive of the inventory has slot 300; `unmount("C1")` evaluates
`drv->isBusy()` with `drv == nullptr` before it tests `slot == Const::UNSET`.
The other unmet requirements give a clean error: an unknown cartridge, a
cartridge that is not MOUNTED, and a busy drive each throw
`LTFSDM_GENERAL_ERROR` and leave the inventory as it was. -/
theorem unmount_missing_drive_null_dereference :
    OpenLTFSInventory.unmount (-1) 0 4096 "C1"
        { drives := [⟨"D1", false, 256⟩, ⟨"D2", false, 257⟩]
          cartridges := [⟨"C1", .MOUNTED, 300⟩]
          calls := [] }
      = (.null_dereference,
        { drives := [⟨"D1", false, 256⟩, ⟨"D2", false, 257⟩]
          cartridges := [⟨"C1", .MOUNTED, 300⟩]
          calls := [] }) ∧
    OpenLTFSInventory.unmount (-1) 0 4096 "C9" OpenLTFSInventory.sample
      = (.thrown .general_error, OpenLTFSInventory.sample) ∧
    OpenLTFSInventory.unmount (-1) 0 4096 "C1" OpenLTFSInventory.sample
      = (.thrown .general_error, OpenLTFSInventory.sample) ∧
    OpenLTFSInventory.unmount (-1) 0 4096 "C1"
        { drives := [⟨"D1", true, 256⟩]
          cartridges := [⟨"C1", .MOUNTED, 256⟩]
          calls := [] }
      = (.thrown .general_error,
        { drives := [⟨"D1", true, 256⟩]
          cartridges := [⟨"C1", .MOUNTED, 256⟩]
          calls := [] }) := by
  decide

/-! ## Retries on a busy tape -/

theorem sqlUnquote_of_no_quote :
    ∀ l : List Char, Char.ofNat 39 ∉ l → sqlUnquote l = some l := by
  intro l
  induction l with
  | nil => intro _; rfl
  | cons c rest ih =>
    intro h
    simp only [List.mem_cons, not_or] at h
    have hc : ¬ c = Char.ofNat 39 := fun e => h.1 e.symm
    cases rest with
    | nil => simp [sqlUnquote, hc]
    | cons d rest2 =>
      rw [sqlUnquote, if_neg hc, ih h.2]
      rfl

theorem sqlLiteral_of_no_quote (text : String) (h : Char.ofNat 39 ∉ text.data) :
    sqlLiteral text = some text := by
  simp [sqlLiteral, sqlUnquote_of_no_quote text.data h]

/-! ## `recallStep` -/

theorem updateJobs_other_columns (reqNum : Int) (lit : String) (toState : file_state)
    (gb ge : Int) (jobs : List JobRow) :
    (updateJobs reqNum lit toState gb ge jobs).map (fun r => { r with file_state := .RESIDENT })
      = jobs.map (fun r => { r with file_state := .RESIDENT }) := by
  simp only [updateJobs, List.map_map]
  apply List.map_congr_left
  intro r _
  simp only [Function.comp]
  split <;> rfl

theorem recallStepLoop_other_columns {σ : Type}
    (f : String → String → file_state → file_state → σ → Option (RecallResult × σ))
    (elapsed : Nat → Bool) (reqNum : Int) (tapeId lit : String) (toState : file_state)
    (rows : List JobRow) :
    ∀ (i : Nat) (gb ge : Int) (jobs : List JobRow) (s : σ) (r : Except Exn Unit)
      (jobs' : List JobRow) (s' : σ),
      recallStepLoop f elapsed reqNum tapeId lit toState rows i gb ge jobs s
        = some (r, jobs', s') →
      jobs'.map (fun r => { r with file_state := .RESIDENT })
        = jobs.map (fun r => { r with file_state := .RESIDENT }) := by
  induction rows with
  | nil =>
    intro i gb ge jobs s r jobs' s' h
    simp only [recallStepLoop, Option.some.injEq, Prod.mk.injEq] at h
    rw [← h.2.1]
    exact updateJobs_other_columns _ _ _ _ _ _
  | cons row rest ih =>
    intro i gb ge jobs s r jobs' s' h
    rw [recallStepLoop] at h
    cases hn : row.file_name with
    | none =>
      simp only [hn] at h
      exact ih _ _ _ _ _ _ _ _ h
    | some cstr =>
      simp only [hn] at h
      by_cases hr : row.file_state = .RESIDENT
      · rw [if_pos hr] at h
        exact ih _ _ _ _ _ _ _ _ h
      · by_cases ht : row.file_state = toState
        · rw [if_neg hr, if_pos ht] at h
          exact ih _ _ _ _ _ _ _ _ h
        · rw [if_neg hr, if_neg ht] at h
          rcases hv : f cstr tapeId row.file_state toState s with _ | ⟨res, s1⟩
          · simp [hv] at h
          · cases res with
            | uncaught x =>
              simp only [hv, Option.some.injEq, Prod.mk.injEq] at h
              rw [← h.2.1]
            | value v =>
              simp only [hv] at h
              cases he : elapsed i
              · simp only [he, if_true] at h
                exact ih _ _ _ _ _ _ _ _ h
              · simp only [he] at h
                rw [ih _ _ _ _ _ _ _ _ h, updateJobs_other_columns]

theorem recallStepLoop_runs {σ : Type}
    (f : String → String → file_state → file_state → σ → Option (RecallResult × σ))
    (elapsed : Nat → Bool) (reqNum : Int) (tapeId lit : String) (toState : file_state)
    (rows : List JobRow) :
    ∀ (i : Nat) (gb ge : Int) (jobs : List JobRow) (s s' : σ),
      recallAll f tapeId toState (recalledJobs toState rows) s = some s' →
      recallStepLoop f elapsed reqNum tapeId lit toState rows i gb ge jobs s
        = some (.ok (), recallStepTable elapsed reqNum lit toState rows i gb ge jobs, s') := by
  induction rows with
  | nil =>
    intro i gb ge jobs s s' h
    simp only [recalledJobs, List.filter_nil, recallAll, Option.some.injEq] at h
    subst h
    rfl
  | cons row rest ih =>
    intro i gb ge jobs s s' h
    rw [recallStepLoop, recallStepTable]
    cases hn : row.file_name with
    | none =>
      have h2 : recallAll f tapeId toState (recalledJobs toState rest) s = some s' := by
        simpa [recalledJobs, hn] using h
      simpa using ih (i + 1) gb ge jobs s s' h2
    | some cstr =>
      by_cases hr : row.file_state = .RESIDENT
      · have h2 : recallAll f tapeId toState (recalledJobs toState rest) s = some s' := by
          simpa [recalledJobs, hn, hr] using h
        simpa [hr] using ih (i + 1) gb ge jobs s s' h2
      · by_cases ht : row.file_state = toState
        · have h2 : recallAll f tapeId toState (recalledJobs toState rest) s = some s' := by
            simpa [recalledJobs, hn, hr, ht] using h
          simpa [hr, ht] using ih (i + 1) gb ge jobs s s' h2
        · have hrec : recalledJobs toState (row :: rest)
              = row :: recalledJobs toState rest := by
            simp [recalledJobs, hn, hr, ht]
          rw [hrec, recallAll] at h
          simp only [hn, Option.getD_some] at h
          rcases hv : f cstr tapeId row.file_state toState s with _ | ⟨res, s1⟩
          · simp [hv] at h
          · cases res with
            | uncaught x => simp [hv] at h
            | value v =>
              simp only [hv] at h
              cases he : elapsed i
              · simpa [hr, ht, hv, he] using ih (i + 1)
                  (if gb = -1 then toInt32 row.rowid else gb) (toInt32 row.rowid) jobs s1 s' h
              · simpa [hr, ht, hv, he] using ih (i + 1) (-1) (toInt32 row.rowid)
                  (updateJobs reqNum lit toState
                    (if gb = -1 then toInt32 row.rowid else gb) (toInt32 row.rowid) jobs)
                  s1 s' h

theorem recallStep_of_loop {σ : Type}
    (f : String → String → file_state → file_state → σ → Option (RecallResult × σ))
    (elapsed : Nat → Bool) (reqNum : Int) (tapeId lit : String) (toState : file_state)
    (st : ServerState) (s s' : σ) (jobs : List JobRow)
    (hl : sqlLiteral tapeId = some lit)
    (h : recallStepLoop f elapsed reqNum tapeId lit toState
      (selectJobs reqNum lit st.JOB_QUEUE) 0 (-1) 0 st.JOB_QUEUE s = some (.ok (), jobs, s')) :
    recallStep f elapsed reqNum tapeId toState st s =
      .statement (some (.ok (),
        ({ st.setUpdReq reqNum true with JOB_QUEUE := jobs } : ServerState).setUpdReq
          reqNum true, s')) := by
  simp only [recallStep, ServerState.setUpdReq, hl, h]

theorem recallStep_frame {σ : Type}
    (f : String → String → file_state → file_state → σ → Option (RecallResult × σ))
    (elapsed : Nat → Bool) (reqNum : Int) (tapeId : String) (toState : file_state)
    (st : ServerState) (s : σ) (r : Except Exn Unit) (st1 : ServerState) (s1 : σ)
    (h : recallStep f elapsed reqNum tapeId toState st s = .statement (some (r, st1, s1))) :
    st1.REQUEST_QUEUE = st.REQUEST_QUEUE ∧ st1.TAPE_LIST = st.TAPE_LIST ∧
      st1.updReq reqNum = some true ∧
      st1.JOB_QUEUE.map (fun r => { r with file_state := .RESIDENT })
        = st.JOB_QUEUE.map (fun r => { r with file_state := .RESIDENT }) := by
  unfold recallStep at h
  simp only at h
  rcases hlit : sqlLiteral tapeId with _ | lit
  · simp [hlit] at h
  · simp only [hlit, Spliced.statement.injEq] at h
    rcases hl : recallStepLoop f elapsed reqNum tapeId lit toState
        (selectJobs reqNum lit (st.setUpdReq reqNum true).JOB_QUEUE) 0 (-1) 0
        (st.setUpdReq reqNum true).JOB_QUEUE s with _ | ⟨r0, jobs, s0⟩
    · rw [hl] at h; simp at h
    · rw [hl] at h
      have hcols := recallStepLoop_other_columns f elapsed reqNum tapeId lit toState _ _ _ _ _ _
        _ _ _ hl
      cases r0 with
      | error x =>
        simp only [Option.some.injEq, Prod.mk.injEq] at h
        obtain ⟨-, rfl, -⟩ := h
        exact ⟨rfl, rfl, by simp [ServerState.setUpdReq], hcols⟩
      | ok u =>
        simp only [Option.some.injEq, Prod.mk.injEq] at h
        obtain ⟨-, rfl, -⟩ := h
        exact ⟨rfl, rfl, by simp [ServerState.setUpdReq], hcols⟩

/-- C19 (as amended): completion of a recall request, for a tape ID without a
quote character.  After `execRequest(reqNum, tgtState, tapeId)` returns, every
REQUEST_QUEUE row with that request number and tape ID has STATE = COMPLETED,
every TAPE_LIST row of that tape has STATE = FREE and `updReq[reqNum]` is
true; the two tables are the ones before the call with only these STATE
columns rewritten, so that the rows of other (request, tape) pairs and of
other tapes are unchanged.  It does return when the calls of `recall` that
`recallStep` makes return. -/
theorem execRequest_completes {σ : Type}
    (f : String → String → file_state → file_state → σ → Option (RecallResult × σ))
    (elapsed : Nat → Bool) (PREMIGRATED_req reqNum tgtState : Int) (tapeId : String)
    (st : ServerState) (s : σ) (hq : Char.ofNat 39 ∉ tapeId.data) :
    (∀ st' s', SelRecall.execRequest f elapsed PREMIGRATED_req reqNum tgtState tapeId st s
        = .statement (some (.ok (), st', s')) →
      (∀ r ∈ st'.REQUEST_QUEUE, r.req_num = reqNum → r.tape_id = some tapeId →
        r.state = .REQ_COMPLETED) ∧
      (∀ r ∈ st'.TAPE_LIST, r.tape_id = some tapeId → r.state = .TAPE_FREE) ∧
      st'.updReq reqNum = some true ∧
      st'.REQUEST_QUEUE = st.REQUEST_QUEUE.map (fun r =>
        if r.req_num = reqNum ∧ r.tape_id = some tapeId then
          { r with state := .REQ_COMPLETED } else r) ∧
      st'.TAPE_LIST = st.TAPE_LIST.map (fun r =>
        if r.tape_id = some tapeId then { r with state := .TAPE_FREE } else r)) ∧
    (∀ s', recallAll f tapeId (if tgtState = PREMIGRATED_req then .PREMIGRATED else .RESIDENT)
        (recalledJobs (if tgtState = PREMIGRATED_req then .PREMIGRATED else .RESIDENT)
          (selectJobs reqNum tapeId st.JOB_QUEUE)) s = some s' →
      ∃ st', SelRecall.execRequest f elapsed PREMIGRATED_req reqNum tgtState tapeId st s
        = .statement (some (.ok (), st', s'))) := by
  have hlit := sqlLiteral_of_no_quote tapeId hq
  constructor
  · intro st' s' h
    unfold SelRecall.execRequest at h
    rcases hs : recallStep f elapsed reqNum tapeId
        (if tgtState = PREMIGRATED_req then .PREMIGRATED else .RESIDENT) st s
      with ⟨_ | ⟨r0, st1, s1⟩⟩ | _
    · rw [hs] at h; simp at h
    · rw [hs] at h
      obtain ⟨hqu, htl, -, -⟩ := recallStep_frame _ _ _ _ _ _ _ _ _ _ hs
      cases r0 with
      | error x => simp at h
      | ok u =>
        simp only [hlit, Spliced.statement.injEq, Option.some.injEq, Prod.mk.injEq,
          true_and] at h
        obtain ⟨rfl, -⟩ := h
        have hQ : ∀ r ∈ st.REQUEST_QUEUE.map (fun r =>
            if r.req_num = reqNum ∧ r.tape_id = some tapeId then
              { r with state := ReqState.REQ_COMPLETED } else r),
            r.req_num = reqNum → r.tape_id = some tapeId → r.state = .REQ_COMPLETED := by
          intro r hr h1 h2
          rw [List.mem_map] at hr
          obtain ⟨r0, -, rfl⟩ := hr
          by_cases hm : r0.req_num = reqNum ∧ r0.tape_id = some tapeId
          · simp [hm]
          · rw [if_neg hm] at h1 h2
            exact absurd ⟨h1, h2⟩ hm
        have hT : ∀ r ∈ st.TAPE_LIST.map (fun r =>
            if r.tape_id = some tapeId then { r with state := TapeState.TAPE_FREE } else r),
            r.tape_id = some tapeId → r.state = .TAPE_FREE := by
          intro r hr h1
          rw [List.mem_map] at hr
          obtain ⟨r0, -, rfl⟩ := hr
          by_cases hm : r0.tape_id = some tapeId
          · simp [hm]
          · rw [if_neg hm] at h1
            exact absurd h1 hm
        refine ⟨?_, ?_, by simp [ServerState.setUpdReq], ?_, ?_⟩
        · simpa [ServerState.setUpdReq, hqu] using hQ
        · simpa [ServerState.setUpdReq, htl] using hT
        · simp [ServerState.setUpdReq, hqu]
        · simp [ServerState.setUpdReq, htl]
    · rw [hs] at h; simp at h
  · intro s' hrun
    have h1 := recallStepLoop_runs f elapsed reqNum tapeId tapeId
      (if tgtState = PREMIGRATED_req then .PREMIGRATED else .RESIDENT)
      (selectJobs reqNum tapeId st.JOB_QUEUE) 0 (-1) 0 st.JOB_QUEUE s s' hrun
    have h2 := recallStep_of_loop f elapsed reqNum tapeId tapeId
      (if tgtState = PREMIGRATED_req then .PREMIGRATED else .RESIDENT) st s s' _ hlit h1
    unfold SelRecall.execRequest
    rw [h2]
    simp only [hlit]
    exact ⟨_, rfl⟩

/-- Witness of `execRequest_completes`: request 1 on tape "T1" of the sample
state, recalled with every call succeeding. -/
theorem execRequest_completes_witness :
    ∃ st' w',
      SelRecall.execRequest (fun n t a b w =>
          SelRecall.recall 4 (RecallCalls.allSucceed ⟨1, 2, 3⟩ 4) 8 n t a b w)
        (fun _ => false) 1 1 1 "T1" ServerState.sample (World.sample 7)
        = .statement (some (.ok (), st', w')) ∧
      st'.REQUEST_QUEUE.map (fun r => (r.req_num, r.state))
        = [(1, .REQ_COMPLETED), (2, .REQ_NEW)] ∧
      st'.TAPE_LIST.map (fun r => (r.tape_id, r.state))
        = [(some "T1", .TAPE_FREE), (some "T2", .TAPE_INUSE)] ∧
      st'.updReq 1 = some true := by
  have key := (execRequest_completes (fun n t a b w =>
      SelRecall.recall 4 (RecallCalls.allSucceed ⟨1, 2, 3⟩ 4) 8 n t a b w)
    (fun _ => false) 1 1 1 "T1" ServerState.sample (World.sample 7) (by decide)).1 _ _ rfl
  exact ⟨_, _, rfl, by rw [key.2.2.2.1]; rfl, by rw [key.2.2.2.2]; rfl, key.2.2.1⟩

/-- C19 (counterexample): the tape ID `a''b`, spliced between quotes, is read
by SQLite as the literal of the value `a'b`.  After `execRequest` for request
1 and this tape ID has returned, the request row of (1, `a''b`) is still in
progress, the tape row of `a''b` is still in use, and the row of the other
tape `a'b` has been set to FREE. -/
theorem execRequest_quoted_tape_counterexample :
    ∃ st' s',
      SelRecall.execRequest recallNoting (fun _ => false) 1 1 1 "a''b"
        { JOB_QUEUE := []
          REQUEST_QUEUE := [⟨.SELRECALL, 1, 1, none, some "a''b", 0, .REQ_INPROGRESS⟩]
          TAPE_LIST := [⟨some "a''b", none, true, some "D1", .TAPE_INUSE⟩,
                        ⟨some "a'b", none, false, none, .TAPE_INUSE⟩]
          updReq := fun _ => none } []
        = .statement (some (.ok (), st', s')) ∧
      st'.REQUEST_QUEUE.map (fun r => (r.req_num, r.tape_id, r.state))
        = [(1, some "a''b", .REQ_INPROGRESS)] ∧
      st'.TAPE_LIST.map (fun r => (r.tape_id, r.state))
        = [(some "a''b", .TAPE_INUSE), (some "a'b", .TAPE_FREE)] :=
  ⟨_, _, rfl, rfl, rfl⟩

/-! ## `SelRecall::addRequest` -/

theorem sqlLiteral_column_text (c : Option String)
    (h : ∀ t, c = some t → Char.ofNat 39 ∉ t.data) :
    sqlLiteral (c.getD "") = some (c.getD "") := by
  cases c with
  | none => exact sqlLiteral_of_no_quote "" (by simp)
  | some str => exact sqlLiteral_of_no_quote str (h str rfl)

/-- The rows that the loop of `addRequest` adds for tape IDs without a quote
character. -/
theorem addRequestRows_of_no_quote (time : Nat → Int) (reqNumber targetState : Int) :
    ∀ (ids : List (Option String)) (i : Nat),
      (∀ t, some t ∈ ids → Char.ofNat 39 ∉ t.data) →
      ∃ rows, addRequestRows time reqNumber targetState ids i = some rows ∧
        (∀ r ∈ rows, r.operation = .SELRECALL ∧ r.req_num = reqNumber ∧
          r.target_state = targetState ∧ r.coloc_grp = none ∧ r.state = .REQ_NEW) ∧
        rows.map (fun r => r.tape_id) = ids.map (fun t => some (t.getD "")) := by
  intro ids
  induction ids with
  | nil => intro i _; exact ⟨[], rfl, by simp, rfl⟩
  | cons c rest ih =>
    intro i h
    obtain ⟨rows, hrows, hprops, htape⟩ := ih (i + 1)
      (fun t ht => h t (List.mem_cons_of_mem _ ht))
    have hlit := sqlLiteral_column_text c (fun t ht => h t (by rw [ht]; exact List.mem_cons_self _ _))
    refine ⟨_, by simp only [addRequestRows, hlit, hrows, Option.map_some']; rfl, ?_, ?_⟩
    · intro r hr
      rcases List.mem_cons.1 hr with rfl | hr
      · exact ⟨rfl, rfl, rfl, rfl, rfl⟩
      · exact hprops r hr
    · simp [htape]

theorem selectTapeIds_nodup (reqNumber : Int) (jobs : List JobRow) :
    (selectTapeIds reqNumber jobs).Nodup :=
  List.nodup_dedup _

theorem mem_selectTapeIds (reqNumber : Int) (jobs : List JobRow) (t : Option String) :
    t ∈ selectTapeIds reqNumber jobs ↔
      ∃ j ∈ jobs, j.req_num = reqNumber ∧ j.tape_id = t := by
  simp only [selectTapeIds, List.mem_dedup, List.mem_map, List.mem_filter, beq_iff_eq]
  constructor
  · rintro ⟨j, ⟨hj, hr⟩, rfl⟩
    exact ⟨j, hj, hr, rfl⟩
  · rintro ⟨j, hj, hr, rfl⟩
    exact ⟨j, ⟨hj, hr⟩, rfl⟩

/-- Number of rows with a given request number and tape ID, counted by the
tape IDs of rows that all have the request number. -/
theorem count_rows_of_tape (ins : List RequestRow) (reqNumber : Int)
    (hall : ∀ r ∈ ins, r.req_num = reqNumber) (t : Option String) :
    (ins.filter fun r => r.req_num = reqNumber ∧ r.tape_id = t).length
      = ((ins.map fun r => r.tape_id).filter fun x => x = t).length := by
  induction ins with
  | nil => rfl
  | cons r rest ih =>
    have hr : r.req_num = reqNumber := hall r (List.mem_cons_self _ _)
    have ih1 := ih (fun x hx => hall x (List.mem_cons_of_mem _ hx))
    by_cases ht : r.tape_id = t
    · rw [List.filter_cons_of_pos (by simp [hr, ht]), List.length_cons, ih1,
        List.map_cons, List.filter_cons_of_pos (by simp [ht]), List.length_cons]
    · rw [List.filter_cons_of_neg (by simp [hr, ht]), ih1, List.map_cons,
        List.filter_cons_of_neg (by simp [ht])]

theorem filter_eq_length_of_not_mem {α : Type} [DecidableEq α] (l : List α) (t : α)
    (h : t ∉ l) : (l.filter fun x => x = t).length = 0 := by
  rw [List.length_eq_zero, List.filter_eq_nil_iff]
  intro a ha
  have : a ≠ t := fun e => h (e ▸ ha)
  simp [this]

theorem filter_eq_length_of_nodup {α : Type} [DecidableEq α] (l : List α) (t : α)
    (hn : l.Nodup) (h : t ∈ l) : (l.filter fun x => x = t).length = 1 := by
  induction l with
  | nil => simp at h
  | cons a rest ih =>
    rw [List.nodup_cons] at hn
    by_cases e : a = t
    · subst e
      rw [List.filter_cons_of_pos (by simp), List.length_cons,
        filter_eq_length_of_not_mem rest a hn.1]
    · rw [List.filter_cons_of_neg (by simp [e])]
      rcases List.mem_cons.1 h with h1 | h1
      · exact absurd h1.symm e
      · exact ih hn.2 h1

/-- C20 (as amended): for a request whose jobs have tape IDs without a quote
character, `SelRecall::addRequest` appends to REQUEST_QUEUE exactly one row for
each distinct value of TAPE_ID occurring among the JOB_QUEUE rows of its
request number (the list of these values has no duplicate and holds a value
exactly when a job of the request has it; NULL is one of the values and its
row carries the empty text), each with operation SELRECALL, that request
number, the target state of the request and STATE = NEW, and it changes
nothing else of the three tables.  Hence, when no job of the request has a
NULL tape ID, every job of the request has exactly one inserted row carrying
its request number and its tape ID, and exactly one such row in the whole
table when the request number was not in REQUEST_QUEUE before. -/
theorem addRequest_one_row_per_tape (time : Nat → Int) (reqNumber targetState : Int)
    (st : ServerState)
    (hq : ∀ j ∈ st.JOB_QUEUE, j.req_num = reqNumber →
      ∀ t, j.tape_id = some t → Char.ofNat 39 ∉ t.data) :
    ∃ (ins : List RequestRow) (st' : ServerState),
      SelRecall.addRequest time reqNumber targetState st = .statement st' ∧
      st'.REQUEST_QUEUE = st.REQUEST_QUEUE ++ ins ∧
      st'.JOB_QUEUE = st.JOB_QUEUE ∧
      st'.TAPE_LIST = st.TAPE_LIST ∧
      (∀ r ∈ ins, r.operation = .SELRECALL ∧ r.req_num = reqNumber ∧
        r.target_state = targetState ∧ r.coloc_grp = none ∧ r.state = .REQ_NEW) ∧
      ins.map (fun r => r.tape_id)
        = (selectTapeIds reqNumber st.JOB_QUEUE).map (fun t => some (t.getD "")) ∧
      (selectTapeIds reqNumber st.JOB_QUEUE).Nodup ∧
      (∀ t, t ∈ selectTapeIds reqNumber st.JOB_QUEUE ↔
        ∃ j ∈ st.JOB_QUEUE, j.req_num = reqNumber ∧ j.tape_id = t) ∧
      ((∀ j ∈ st.JOB_QUEUE, j.req_num = reqNumber → j.tape_id ≠ none) →
        ∀ j ∈ st.JOB_QUEUE, j.req_num = reqNumber →
          (ins.filter fun r => r.req_num = reqNumber ∧ r.tape_id = j.tape_id).length = 1 ∧
          ((∀ r ∈ st.REQUEST_QUEUE, r.req_num ≠ reqNumber) →
            (st'.REQUEST_QUEUE.filter
              fun r => r.req_num = reqNumber ∧ r.tape_id = j.tape_id).length = 1)) := by
  obtain ⟨ins, hins, hrows, htape⟩ := addRequestRows_of_no_quote time reqNumber targetState
    (selectTapeIds reqNumber st.JOB_QUEUE) 0 (fun t ht => by
      obtain ⟨j, hj, hr, ht2⟩ := (mem_selectTapeIds _ _ _).1 ht
      exact hq j hj hr t ht2)
  have hst : SelRecall.addRequest time reqNumber targetState st
      = .statement { st.setUpdReq reqNumber false with
          REQUEST_QUEUE := (st.setUpdReq reqNumber false).REQUEST_QUEUE ++ ins } := by
    unfold SelRecall.addRequest
    simp only [ServerState.setUpdReq] at hins ⊢
    rw [hins]
  refine ⟨ins, _, hst, rfl, rfl, rfl, hrows, htape, selectTapeIds_nodup _ _,
    mem_selectTapeIds _ _, ?_⟩
  intro hN j hj hjr
  have hsel : (selectTapeIds reqNumber st.JOB_QUEUE).map (fun t => some (t.getD ""))
      = selectTapeIds reqNumber st.JOB_QUEUE := by
    conv_rhs => rw [← List.map_id (selectTapeIds reqNumber st.JOB_QUEUE)]
    apply List.map_congr_left
    intro t ht
    obtain ⟨j0, hj0, hr0, rfl⟩ := (mem_selectTapeIds _ _ _).1 ht
    have := hN j0 hj0 hr0
    cases h : j0.tape_id with
    | none => exact absurd h this
    | some x => rfl
  have hone : (ins.filter fun r => r.req_num = reqNumber ∧ r.tape_id = j.tape_id).length
      = 1 := by
    rw [count_rows_of_tape ins reqNumber (fun r hr => (hrows r hr).2.1), htape, hsel]
    exact filter_eq_length_of_nodup _ _ (selectTapeIds_nodup _ _)
      ((mem_selectTapeIds _ _ _).2 ⟨j, hj, hjr, rfl⟩)
  refine ⟨hone, ?_⟩
  intro hF
  show ((st.REQUEST_QUEUE ++ ins).filter
    fun r => r.req_num = reqNumber ∧ r.tape_id = j.tape_id).length = 1
  rw [List.filter_append, List.length_append, hone]
  have : (st.REQUEST_QUEUE.filter
      fun r => r.req_num = reqNumber ∧ r.tape_id = j.tape_id) = [] := by
    rw [List.filter_eq_nil_iff]
    intro r hr
    simp [hF r hr]
  rw [this]
  rfl

/-- Witness of `addRequest_one_row_per_tape`: request 1 of the sample state,
whose one job is on tape "T1"; the table REQUEST_QUEUE gains one row for
("T1", request 1). -/
theorem addRequest_one_row_per_tape_witness :
    ∃ (ins : List RequestRow) (st' : ServerState),
      SelRecall.addRequest (fun _ => 0) 1 1 ServerState.sample = .statement st' ∧
      st'.REQUEST_QUEUE = ServerState.sample.REQUEST_QUEUE ++ ins ∧
      ins.map (fun r => (r.req_num, r.tape_id, r.state)) = [(1, some "T1", .REQ_NEW)] ∧
      ∀ j ∈ ServerState.sample.JOB_QUEUE, j.req_num = 1 →
        (ins.filter fun r => r.req_num = 1 ∧ r.tape_id = j.tape_id).length = 1 := by
  obtain ⟨ins, st', hst, hq, -, -, -, -, -, -, h⟩ :=
    addRequest_one_row_per_tape (fun _ => 0) 1 1 ServerState.sample (by decide)
  refine ⟨ins, st', hst, hq, ?_, fun j hj hr => (h (by decide) j hj hr).1⟩
  have h1 : SelRecall.addRequest (fun _ => 0) 1 1 ServerState.sample
      = .statement { ServerState.sample.setUpdReq 1 false with
          REQUEST_QUEUE := ServerState.sample.REQUEST_QUEUE ++
            [{ operation := .SELRECALL, req_num := 1, target_state := 1, coloc_grp := none,
               tape_id := some "T1", time_added := 0, state := .REQ_NEW }] } := rfl
  rw [h1] at hst
  injection hst with hst
  have h2 := congrArg ServerState.REQUEST_QUEUE hst
  simp only at h2
  rw [hq] at h2
  rw [← List.append_cancel_left h2]
  rfl

/-- C20 (counterexample): request 1 has two jobs, one with a NULL tape ID and
one whose tape ID is the empty text.  `addRequest` appends two rows, both with
request number 1 and the empty text as tape ID: the second job has two request
rows carrying its request number and its tape ID, not one. -/
theorem addRequest_null_tape_counterexample :
    ∃ st',
      SelRecall.addRequest (fun _ => 0) 1 0
        { JOB_QUEUE := [{ sampleJob 1 "a" .MIGRATED 0 with tape_id := none },
                        { sampleJob 2 "b" .MIGRATED 1 with tape_id := some "" }]
          REQUEST_QUEUE := []
          TAPE_LIST := []
          updReq := fun _ => none }
        = .statement st' ∧
      st'.REQUEST_QUEUE.map (fun r => (r.req_num, r.tape_id)) = [(1, some ""), (1, some "")] ∧
      (st'.REQUEST_QUEUE.filter fun r => r.req_num = 1 ∧ r.tape_id = some "").length = 2 :=
  ⟨_, rfl, rfl, rfl⟩

/-! ## The comparator of the lock map -/

/-- C27: the comparator `ltstr` that keys the lock map is a strict total order
on file identities.  It is irreflexive and transitive, and for two identities
`a` and `b` exactly one of `ltstr(a, b)`, `ltstr(b, a)` and equality of the
three members holds; so two keys are equivalent for the map only if they are
the same identity, and an entry made for one identity leaves the count stored
for every other identity as it was. -/
theorem ltstr_strict_total_order (a b c : fuid_t) :
    ltstr a a = false ∧
    (ltstr a b = true → ltstr b c = true → ltstr a c = true) ∧
    ((ltstr a b = true ∧ ltstr b a = false ∧
        ¬ (a.fsid = b.fsid ∧ a.igen = b.igen ∧ a.ino = b.ino)) ∨
     (ltstr a b = false ∧ ltstr b a = true ∧
        ¬ (a.fsid = b.fsid ∧ a.igen = b.igen ∧ a.ino = b.ino)) ∨
     (ltstr a b = false ∧ ltstr b a = false ∧
        (a.fsid = b.fsid ∧ a.igen = b.igen ∧ a.ino = b.ino))) ∧
    (keyEquiv a b = true ↔ (a.fsid = b.fsid ∧ a.igen = b.igen ∧ a.ino = b.ino)) ∧
    (∀ (m : FuidMap) (v : Int), a ≠ b →
      (FuidMap.insert a v m).find b = m.find b ∧
      (FuidMap.insert a v m).count b = m.count b) := by
  obtain ⟨f1, g1, i1⟩ := a
  obtain ⟨f2, g2, i2⟩ := b
  obtain ⟨f3, g3, i3⟩ := c
  refine ⟨ltstr_irrefl _, ?_, ?_, ?_, ?_⟩
  · simp only [ltstr, Bool.or_eq_true, Bool.and_eq_true, decide_eq_true_eq]
    intro h1 h2
    omega
  · simp only [ltstr, Bool.or_eq_true, Bool.and_eq_true, decide_eq_true_eq,
      Bool.or_eq_false_iff, Bool.and_eq_false_iff, decide_eq_false_iff_not]
    omega
  · rw [keyEquiv_iff]
    constructor
    · intro h
      injection h with h1 h2 h3
      exact ⟨h1, h2, h3⟩
    · rintro ⟨h1, h2, h3⟩
      simp only at h1 h2 h3
      subst h1 h2 h3
      rfl
  · intro m v hne
    exact ⟨FuidMap.find_insert_other m _ _ v (Ne.symm hne),
      FuidMap.count_insert_other m _ _ v (Ne.symm hne)⟩

/-- Witness of `ltstr_strict_total_order`: three identities that differ in the
inode number, in the generation and in the filesystem id. -/
theorem ltstr_strict_total_order_witness :
    ltstr ⟨9, 1, 1⟩ ⟨1, 1, 2⟩ = true ∧ ltstr ⟨1, 1, 2⟩ ⟨0, 2, 2⟩ = true ∧
    ltstr ⟨9, 1, 1⟩ ⟨0, 2, 2⟩ = true ∧
    (FuidMap.insert ⟨9, 1, 1⟩ 1 [(⟨1, 1, 2⟩, 4)]).find ⟨1, 1, 2⟩ = some 4 :=
  ⟨by decide, by decide,
    (ltstr_strict_total_order ⟨9, 1, 1⟩ ⟨1, 1, 2⟩ ⟨0, 2, 2⟩).2.1 (by decide) (by decide),
    ((ltstr_strict_total_order ⟨9, 1, 1⟩ ⟨1, 1, 2⟩ ⟨0, 2, 2⟩).2.2.2.2
      [(⟨1, 1, 2⟩, 4)] 1 (by decide)).1.trans (by decide)⟩

/-! ## The copy loop at the end of the tape file -/

theorem recallLoop_stuck_at_eof (READ_BUFFER_SIZE : Nat) (c : RecallCalls) (target : FsObj)
    (st_size offset : Nat) (hr : ∀ i, ∃ n, c.read i = .bytes n)
    (hw : ∀ i, ∃ n, c.write_invis i = .bytes n) (ho : offset < st_size) :
    ∀ (fuel i : Nat) (w : World), w.tape.length ≤ w.tapePos →
      recallLoop READ_BUFFER_SIZE c target st_size fuel i offset w = none := by
  intro fuel
  induction fuel with
  | zero => intro i w _; rfl
  | succ fuel ih =>
    intro i w hpos
    obtain ⟨n, hn⟩ := hr i
    obtain ⟨k, hk⟩ := hw i
    have hd : w.tape.drop w.tapePos = [] := List.drop_eq_nil_of_le hpos
    rw [recallLoop]
    simp only [ho, if_true, read_tape, hn, hd, List.take_nil, List.length_nil, FsObj.write, hk,
      Nat.add_zero]
    simp only [Nat.cast_zero, ne_eq, not_true_eq_false, if_false]
    exact ih (i + 1) _ (by simpa [World.emit] using hpos)

/-- C26 (the code at the failing input): the primary file has five bytes and
the tape file three.  The first `read` transfers three bytes; every later
`read` returns 0 at the end of the tape file, the invisible write of 0 bytes
returns 0, and `offset` stays at 3, below the size: for every bound on the
number of loop tests `recall` has not returned when the bound is reached.
With a tape file of five bytes the same call returns. -/
theorem recall_never_returns_at_end_of_tape :
    (∀ fuel, SelRecall.recall 4 (RecallCalls.allSucceed ⟨1, 2, 3⟩ 4) fuel "f" "T1" .MIGRATED
        .RESIDENT { World.sample 7 with tape := [10, 11, 12] } = none) ∧
    (∃ w', SelRecall.recall 4 (RecallCalls.allSucceed ⟨1, 2, 3⟩ 4) 8 "f" "T1" .MIGRATED
        .RESIDENT (World.sample 7) = some (.value (some 5), w')) := by
  refine ⟨?_, ⟨_, rfl⟩⟩
  intro fuel
  cases fuel with
  | zero => rfl
  | succ fuel =>
    have h := fun w hw => recallLoop_stuck_at_eof 4 (RecallCalls.allSucceed ⟨1, 2, 3⟩ 4)
      ⟨⟨1, 2, 3⟩, true⟩ 5 3 (fun _ => ⟨4, rfl⟩) (fun _ => ⟨4, rfl⟩) (by decide) fuel 1 w hw
    simp only [SelRecall.recall, recallTry, FsObj.ofPath, RecallCalls.allSucceed, FsObj.lock,
      FsObj.getMigState, dm_get_region, World.sample, World.emit, recallCopy, open_tape,
      FsObj.stat, recallLoop, read_tape, FsObj.write, writeAt] at h ⊢
    simp [FuidMap.count, FuidMap.insert, DM_REGION_READ, DM_REGION_WRITE, DM_REGION_TRUNCATE,
      DM_REGION_NOEVENT] at h ⊢
    rw [h _ (by decide)]

/-! ## The rows that `recallStep` updates -/

/-- C25 (the code at the failing inputs): `recallStep` names the rows to
update by the ROWID range from the first to the last job recalled.  With two
MIGRATED jobs whose START_BLOCK order is the reverse of their ROWID order,
both are recalled and the range from 2 to 1 is empty: no row gets the target
state.  With a RESIDENT job between two MIGRATED ones, in the same order of
ROWID and START_BLOCK, the job is skipped and its row is in the range: its
FILE_STATE is set to the target state.  In both runs all jobs are recalled
within ten seconds. -/
theorem recallStep_updates_rowid_range :
    (∃ st' s', recallStep recallNoting (fun _ => false) 1 "T1" .RESIDENT
        { ServerState.sample with
          JOB_QUEUE := [sampleJob 1 "a" .MIGRATED 20, sampleJob 2 "b" .MIGRATED 10] }
        [] = .statement (some (.ok (), st', s')) ∧
      s' = ["b", "a"] ∧
      st'.JOB_QUEUE.map (fun r => (r.rowid, r.file_state))
        = [(1, .MIGRATED), (2, .MIGRATED)]) ∧
    (∃ st' s', recallStep recallNoting (fun _ => false) 1 "T1" .PREMIGRATED
        { ServerState.sample with
          JOB_QUEUE := [sampleJob 1 "a" .MIGRATED 1, sampleJob 2 "b" .RESIDENT 2,
            sampleJob 3 "c" .MIGRATED 3] }
        [] = .statement (some (.ok (), st', s')) ∧
      s' = ["a", "c"] ∧
      st'.JOB_QUEUE.map (fun r => (r.rowid, r.file_state))
        = [(1, .PREMIGRATED), (2, .PREMIGRATED), (3, .PREMIGRATED)]) :=
  ⟨⟨_, _, rfl, rfl, rfl⟩, ⟨_, _, rfl, rfl, rfl⟩⟩

/-! ## `Server::createDir` -/

theorem createDirLoop_busy (R : Nat) :
    ∀ (i j : Nat) (calls : List DirCall),
      createDirLoop (fun _ => .error ENOENT) (fun _ => some EBUSY) (R + 1) R i j calls
        = some (.ok (), calls ++
            (List.replicate R [DirCall.stat (.error ENOENT), DirCall.mkdir (some EBUSY)]).flatten) := by
  induction R with
  | zero => intro i j calls; simp [createDirLoop]
  | succ R ih =>
    intro i j calls
    rw [createDirLoop]
    have hpos : (0 : Int) < ((R + 1 : Nat) : Int) := by omega
    have hsub : ((R + 1 : Nat) : Int) - 1 = (R : Int) := by omega
    simp only [hpos, if_true, hsub]
    rw [ih]
    simp [List.replicate_succ]

/-- C29 (the code at the failing input): `statTapeRetry` reports ENOENT and
`mkdir` reports EBUSY at every attempt.  Whatever the value `R` of
`Const::LTFS_OPERATION_RETRY`, `createDir` leaves its loop after `R` rounds
and returns without raising; no call found a directory and no `mkdir`
reported EEXIST.  An `errno` of `mkdir` other than EBUSY and EEXIST does
raise. -/
theorem createDir_returns_when_busy (R : Nat) :
    (∃ calls, Server.createDir R (fun _ => .error ENOENT) (fun _ => some EBUSY) (R + 1)
        = some (.ok (), calls) ∧
      calls = (List.replicate R
        [DirCall.stat (.error ENOENT), DirCall.mkdir (some EBUSY)]).flatten ∧
      calls.all (fun c => !c.foundDirectory && !c.mkdirErrno EEXIST) = true) ∧
    (∃ calls, Server.createDir 10 (fun _ => .error ENOENT) (fun _ => some 13) 1
        = some (.error .general_error, calls)) := by
  refine ⟨⟨_, ?_, rfl, ?_⟩, ⟨_, rfl⟩⟩
  · rw [Server.createDir, createDirLoop_busy R 0 0 []]
    rfl
  · simp [List.all_eq_true, DirCall.foundDirectory, DirCall.mkdirErrno, EBUSY, EEXIST]

/-! ## `InfoFilesCommand::doCommand` -/

/-- C30: `doCommand` accepts its arguments exactly when an argument follows
the command and exactly one of the three file sources is given: a file list
(member `fileList` not empty), a directory (member `directoryName` not empty),
or arguments after the options (`optind` differs from `argc`); in every other
combination it prints a message and the usage and throws
`LTFSDM_GENERAL_ERROR`.  Here `processOptions` has returned the members `p`,
and `argc` counts the command itself. -/
theorem doCommand_accepts_one_source (argc : Int) (hargc : 1 ≤ argc) (p : ParsedOptions) :
    (InfoFilesCommand.doCommand argc (.ok p) = (.ok (), []) ↔
      1 < argc ∧
      ((p.fileList ≠ "" ∧ p.directoryName = "" ∧ p.optind = argc) ∨
       (p.fileList = "" ∧ p.directoryName ≠ "" ∧ p.optind = argc) ∨
       (p.fileList = "" ∧ p.directoryName = "" ∧ p.optind ≠ argc))) ∧
    (InfoFilesCommand.doCommand argc (.ok p) = (.ok (), []) ∨
      ∃ m, InfoFilesCommand.doCommand argc (.ok p)
        = (.error .general_error, [m, .LTFSDMC0010I])) := by
  unfold InfoFilesCommand.doCommand
  by_cases h1 : argc = 1
  · subst h1
    simp
  · have hlt : 1 < argc := by omega
    by_cases hf : p.fileList = "" <;> by_cases hd : p.directoryName = "" <;>
      by_cases ho : p.optind = argc <;> simp [h1, hlt, hf, hd, ho]

/-- Witness of `doCommand_accepts_one_source`: the command with a file list
and nothing else is accepted, the command with a file list and a file name is
not. -/
theorem doCommand_accepts_one_source_witness :
    InfoFilesCommand.doCommand 3 (.ok ⟨"list", "", 3⟩) = (.ok (), []) ∧
    InfoFilesCommand.doCommand 4 (.ok ⟨"list", "", 3⟩) ≠ (.ok (), []) :=
  ⟨(doCommand_accepts_one_source 3 (by decide) ⟨"list", "", 3⟩).1.2
      ⟨by decide, Or.inl ⟨by decide, rfl, rfl⟩⟩,
    fun h => absurd ((doCommand_accepts_one_source 4 (by decide) ⟨"list", "", 3⟩).1.1 h)
      (by decide)⟩

/-! ## Data events -/

theorem getEventsWait_returns (get_events : Nat → Except Int dm_eventmsg_t)
    (msg : dm_eventmsg_t) :
    ∀ (k fuel i : Nat), k < fuel →
      (∀ j, j < k → get_events (i + j) = .error EINTR ∨ get_events (i + j) = .error EAGAIN) →
      get_events (i + k) = .ok msg →
      getEventsWait get_events fuel i = some (.ok msg) := by
  intro k
  induction k with
  | zero =>
    intro fuel i hf _ hm
    obtain ⟨fuel, rfl⟩ : ∃ f, fuel = f + 1 := ⟨fuel - 1, by omega⟩
    simp only [Nat.add_zero] at hm
    simp [getEventsWait, hm]
  | succ k ih =>
    intro fuel i hf hw hm
    obtain ⟨fuel, rfl⟩ : ∃ f, fuel = f + 1 := ⟨fuel - 1, by omega⟩
    have h0 := hw 0 (by omega)
    simp only [Nat.add_zero] at h0
    have hrest : getEventsWait get_events fuel (i + 1) = some (.ok msg) := by
      apply ih fuel (i + 1) (by omega)
      · intro j hj
        have := hw (j + 1) (by omega)
        rwa [show i + (j + 1) = i + 1 + j by omega] at this
      · rwa [show i + (k + 1) = i + 1 + k by omega] at hm
    rcases h0 with h0 | h0 <;> simp [getEventsWait, h0, hrest, EINTR, EAGAIN]

/-- C23: `getEvents` translates a data event into a recall target.  When the
event received (after any number of interrupted waits) is a READ event the
record returned has `toresident = false`, when it is a WRITE or TRUNCATE event
it has `toresident = true`; in both cases the record carries the token of the
event and the file identity (fsid, igen, ino) that the handle of the event
gives, and `getEvents` makes no call on the session: it sends no response on
that token. -/
theorem getEvents_translates_data_event (PATH_MAX : Nat)
    (get_events : Nat → Except Int dm_eventmsg_t) (set_disp respond_event : Option Int)
    (fuel n : Nat) (msg : dm_eventmsg_t) (calls : List SessionCall) (fsid igen ino : Nat)
    (hwait : ∀ j, j < n → get_events j = .error EINTR ∨ get_events j = .error EAGAIN)
    (hmsg : get_events n = .ok msg) (hfuel : n < fuel)
    (hty : msg.ev_type = .DM_EVENT_READ ∨ msg.ev_type = .DM_EVENT_WRITE ∨
      msg.ev_type = .DM_EVENT_TRUNCATE)
    (hh : msg.handle = ⟨some fsid, some igen, some ino⟩) :
    ∃ r, Connector.getEvents PATH_MAX get_events set_disp respond_event fuel calls
        = some (.ok r, calls) ∧
      (msg.ev_type = .DM_EVENT_READ → r.toresident = false) ∧
      (msg.ev_type = .DM_EVENT_WRITE ∨ msg.ev_type = .DM_EVENT_TRUNCATE →
        r.toresident = true) ∧
      r.conn_info = some ⟨msg.ev_token⟩ ∧
      r.fsid = fsid ∧ r.igen = igen ∧ r.ino = ino := by
  have hw := getEventsWait_returns get_events msg n fuel 0 hfuel
    (fun j hj => by simpa using hwait j hj) (by simpa using hmsg)
  rcases hty with h | h | h
  · refine ⟨_, by simp [Connector.getEvents, hw, getEventsProcess, h, hh]; rfl, ?_⟩
    simp [h, rec_info_t.zero]
  · refine ⟨_, by simp [Connector.getEvents, hw, getEventsProcess, h, hh]; rfl, ?_⟩
    simp [h, rec_info_t.zero]
  · refine ⟨_, by simp [Connector.getEvents, hw, getEventsProcess, h, hh]; rfl, ?_⟩
    simp [h, rec_info_t.zero]

/-- Witness of `getEvents_translates_data_event`: a WRITE event with token 5 for
the file (1, 2, 3), received after one interrupted wait. -/
theorem getEvents_translates_data_event_witness :
    ∃ r, Connector.getEvents 4096
        (fun i => if i = 0 then .error EINTR
          else .ok ⟨.DM_EVENT_WRITE, 5, ⟨some 1, some 2, some 3⟩, 0, 0⟩)
        none none 2 [] = some (.ok r, []) ∧
      (dm_eventtype_t.DM_EVENT_WRITE = .DM_EVENT_READ → r.toresident = false) ∧
      (dm_eventtype_t.DM_EVENT_WRITE = .DM_EVENT_WRITE ∨
        dm_eventtype_t.DM_EVENT_WRITE = .DM_EVENT_TRUNCATE → r.toresident = true) ∧
      r.conn_info = some ⟨5⟩ ∧ r.fsid = 1 ∧ r.igen = 2 ∧ r.ino = 3 :=
  getEvents_translates_data_event 4096
    (fun i => if i = 0 then .error EINTR
      else .ok ⟨.DM_EVENT_WRITE, 5, ⟨some 1, some 2, some 3⟩, 0, 0⟩)
    none none 2 1 ⟨.DM_EVENT_WRITE, 5, ⟨some 1, some 2, some 3⟩, 0, 0⟩ [] 1 2 3
    (fun j hj => Or.inl (by simp [Nat.lt_one_iff.1 hj])) (by simp) (by decide)
    (Or.inr (Or.inl rfl)) rfl

/-- C24 (as amended): the response to a data event.  `respondRecallEvent`
calls `dm_respond_event` once, on the token stashed with the record, with the
response CONTINUE and error 0; it takes no outcome of the recall, so the
response is the same after a recall that failed, and it is never ABORT.  With
`getEvents`, which sends no response for a data event, the event of a record
answered by one call of `respondRecallEvent` gets exactly one response. -/
theorem respondRecallEvent_always_continue (respond_event : Option Int)
    (recinfo : rec_info_t) (conn_info : conn_info_t) (calls : List SessionCall)
    (hc : recinfo.conn_info = some conn_info) :
    (Connector.respondRecallEvent respond_event recinfo calls).2
      = calls ++ [SessionCall.respond_event conn_info.token .DM_RESP_CONTINUE 0] ∧
    (respond_event = none →
      (Connector.respondRecallEvent respond_event recinfo calls).1 = .returned) ∧
    (∀ t e, SessionCall.respond_event t .DM_RESP_ABORT e ∈
        (Connector.respondRecallEvent respond_event recinfo calls).2 →
      SessionCall.respond_event t .DM_RESP_ABORT e ∈ calls) ∧
    (∀ (PATH_MAX : Nat) (get_events : Nat → Except Int dm_eventmsg_t)
        (set_disp re : Option Int) (fuel : Nat),
      Connector.getEvents PATH_MAX get_events set_disp re fuel [] = some (.ok recinfo, []) →
      ((Connector.respondRecallEvent respond_event recinfo []).2.filter
        (SessionCall.respondsOn conn_info.token)).length = 1) := by
  have h2 : (Connector.respondRecallEvent respond_event recinfo calls).2
      = calls ++ [SessionCall.respond_event conn_info.token .DM_RESP_CONTINUE 0] := by
    cases respond_event <;> simp [Connector.respondRecallEvent, hc]
  refine ⟨h2, ?_, ?_, ?_⟩
  · rintro rfl
    simp [Connector.respondRecallEvent, hc]
  · intro t e hmem
    rw [h2] at hmem
    simpa using hmem
  · intro _ _ _ _ _ _
    have h3 : (Connector.respondRecallEvent respond_event recinfo []).2
        = [SessionCall.respond_event conn_info.token .DM_RESP_CONTINUE 0] := by
      cases respond_event <;> simp [Connector.respondRecallEvent, hc]
    rw [h3]
    simp [SessionCall.respondsOn]

/-- Witness of `respondRecallEvent_always_continue`: the record of a READ event
with token 5. -/
theorem respondRecallEvent_always_continue_witness :
    (Connector.respondRecallEvent none ⟨some ⟨5⟩, false, 1, 2, 3⟩ []).2
      = [] ++ [SessionCall.respond_event 5 .DM_RESP_CONTINUE 0] ∧
    (Connector.respondRecallEvent none ⟨some ⟨5⟩, false, 1, 2, 3⟩ []).1 = .returned :=
  ⟨(respondRecallEvent_always_continue none ⟨some ⟨5⟩, false, 1, 2, 3⟩ ⟨5⟩ [] rfl).1,
    (respondRecallEvent_always_continue none ⟨some ⟨5⟩, false, 1, 2, 3⟩ ⟨5⟩ [] rfl).2.1 rfl⟩

/-- C24 (counterexample): a READ event with token 5 for the file (1, 2, 3) of
the sample world is received; the recall of the file fails, the tape file not
opening, and the file is still MIGRATED.  The response sent for the record is
CONTINUE with error 0, not ABORT with EIO. -/
theorem respondRecallEvent_after_failed_recall_counterexample :
    Connector.getEvents 4096
        (fun _ => .ok ⟨.DM_EVENT_READ, 5, ⟨some 1, some 2, some 3⟩, 0, 0⟩) none none 1 []
      = some (.ok ⟨some ⟨5⟩, false, 1, 2, 3⟩, []) ∧
    (∃ w', SelRecall.recall 4 (RecallCalls.openFails ⟨1, 2, 3⟩ 4 5) 8 "f" "T1" .MIGRATED
        .PREMIGRATED (World.sample 7) = some (.value none, w') ∧
      (FsObj.getMigState none ⟨⟨1, 2, 3⟩, false⟩ w').1 = .ok .MIGRATED) ∧
    Connector.respondRecallEvent none ⟨some ⟨5⟩, false, 1, 2, 3⟩ []
      = (.returned, [SessionCall.respond_event 5 .DM_RESP_CONTINUE 0]) ∧
    [SessionCall.respond_event 5 .DM_RESP_CONTINUE 0]
      ≠ [SessionCall.respond_event 5 .DM_RESP_ABORT EIO] :=
  ⟨rfl, ⟨_, rfl, rfl⟩, rfl, by decide⟩

/-! ## The text of the statement of `addJob` -/

theorem addJob_text (SELRECALL : Int) (code : file_state → Int) (reqNumber targetState : Int)
    (c : AddJobCalls) :
    (∃ r, (∀ fileName, SelRecall.addJob SELRECALL code reqNumber targetState c fileName = r) ∧
      ∀ text, r ≠ .ok (some text)) ∨
    (∀ fileName, SelRecall.addJob SELRECALL code reqNumber targetState c fileName
      = .ok (some (addJobHead SELRECALL reqNumber targetState fileName
          ++ (addJobTry code c).2))) := by
  unfold SelRecall.addJob
  rcases h : addJobTry code c with ⟨e, appended⟩
  cases e with
  | completed => exact Or.inr (fun _ => rfl)
  | returned => exact Or.inl ⟨.ok none, fun _ => rfl, fun _ h => by simp at h⟩
  | thrown x =>
    cases x with
    | nelem n => exact Or.inl ⟨.error (.nelem n), fun _ => rfl, fun _ h => by simp at h⟩
    | assert_failed =>
      exact Or.inl ⟨.error .assert_failed, fun _ => rfl, fun _ h => by simp at h⟩
    | errno e => exact Or.inr (fun _ => rfl)
    | general_error => exact Or.inr (fun _ => rfl)
    | attr_format => exact Or.inr (fun _ => rfl)

theorem string_append_cancel (pre post a b : String)
    (h : pre ++ a ++ post = pre ++ b ++ post) : a = b := by
  have hd := congrArg String.data h
  simp only [String.data_append, List.append_assoc] at hd
  have h1 := List.append_cancel_left hd
  have h2 := List.append_cancel_right h1
  exact String.ext h2

/-- C21 (as amended): the text of the statement that `addJob` prepares holds
the file name as it is given.  Whenever a statement is prepared, its text is
the head `INSERT INTO JOB_QUEUE ... VALUES (<SELRECALL>, '`, the file name, and
a rest that does not depend on the name; so for two file names and otherwise
equal inputs the prepared texts are equal only if the names are.  There is no
bind parameter. -/
theorem addJob_text_holds_file_name (SELRECALL : Int) (code : file_state → Int)
    (reqNumber targetState : Int) (c : AddJobCalls) :
    (∀ fileName text,
      SelRecall.addJob SELRECALL code reqNumber targetState c fileName = .ok (some text) →
      text = ("INSERT INTO JOB_QUEUE (OPERATION, FILE_NAME, REQ_NUM, TARGET_STATE, FILE_SIZE, FS_ID, I_GEN, "
          ++ "I_NUM, MTIME_SEC, MTIME_NSEC, LAST_UPD, FILE_STATE, TAPE_ID, START_BLOCK, FAILED) "
          ++ "VALUES (" ++ toString SELRECALL ++ ", " ++ "'")
        ++ fileName
        ++ ("', " ++ toString reqNumber ++ ", " ++ toString targetState ++ ", "
          ++ (addJobTry code c).2)) ∧
    (∀ name1 name2 text1 text2,
      SelRecall.addJob SELRECALL code reqNumber targetState c name1 = .ok (some text1) →
      SelRecall.addJob SELRECALL code reqNumber targetState c name2 = .ok (some text2) →
      (text1 = text2 ↔ name1 = name2)) := by
  have key : ∀ fileName text,
      SelRecall.addJob SELRECALL code reqNumber targetState c fileName = .ok (some text) →
      text = ("INSERT INTO JOB_QUEUE (OPERATION, FILE_NAME, REQ_NUM, TARGET_STATE, FILE_SIZE, FS_ID, I_GEN, "
          ++ "I_NUM, MTIME_SEC, MTIME_NSEC, LAST_UPD, FILE_STATE, TAPE_ID, START_BLOCK, FAILED) "
          ++ "VALUES (" ++ toString SELRECALL ++ ", " ++ "'")
        ++ fileName
        ++ ("', " ++ toString reqNumber ++ ", " ++ toString targetState ++ ", "
          ++ (addJobTry code c).2) := by
    intro fileName text h
    rcases addJob_text SELRECALL code reqNumber targetState c with ⟨r, hr, hne⟩ | hall
    · rw [hr fileName] at h
      exact absurd h (hne text)
    · rw [hall fileName] at h
      simp only [Except.ok.injEq, Option.some.injEq] at h
      rw [← h, addJobHead]
      simp only [String.append_assoc]
  refine ⟨key, ?_⟩
  intro name1 name2 text1 text2 h1 h2
  constructor
  · intro he
    have e1 := key name1 text1 h1
    have e2 := key name2 text2 h2
    rw [he] at e1
    exact string_append_cancel _ _ _ _ (e1.symm.trans e2)
  · rintro rfl
    rw [h1] at h2
    simpa using h2

/-- Witness of `addJob_text_holds_file_name`: the sample run for the file
names "/mnt/a" and "/mnt/b". -/
theorem addJob_text_holds_file_name_witness :
    ∀ text1 text2,
      SelRecall.addJob 0 sampleCode 1 0 AddJobCalls.sample "/mnt/a" = .ok (some text1) →
      SelRecall.addJob 0 sampleCode 1 0 AddJobCalls.sample "/mnt/b" = .ok (some text2) →
      (text1 = text2 ↔ "/mnt/a" = "/mnt/b") :=
  fun text1 text2 =>
    (addJob_text_holds_file_name 0 sampleCode 1 0 AddJobCalls.sample).2 "/mnt/a" "/mnt/b"
      text1 text2

set_option maxRecDepth 100000 in
/-- C21 (counterexample): the sample run of `addJob` for the file names
"/mnt/a" and "/mnt/b", all other inputs equal.  Both statements are prepared
and their texts differ: each holds its file name between quotes. -/
theorem addJob_text_depends_on_name_counterexample :
    SelRecall.addJob 0 sampleCode 1 0 AddJobCalls.sample "/mnt/a"
      = .ok (some ("INSERT INTO JOB_QUEUE (OPERATION, FILE_NAME, REQ_NUM, TARGET_STATE, FILE_SIZE, FS_ID, I_GEN, "
          ++ "I_NUM, MTIME_SEC, MTIME_NSEC, LAST_UPD, FILE_STATE, TAPE_ID, START_BLOCK, FAILED) "
          ++ "VALUES (0, '/mnt/a', 1, 0, 5, 1, 2, 3, 100, 0, 200, 2, 'T1', 0, 0);")) ∧
    SelRecall.addJob 0 sampleCode 1 0 AddJobCalls.sample "/mnt/b"
      = .ok (some ("INSERT INTO JOB_QUEUE (OPERATION, FILE_NAME, REQ_NUM, TARGET_STATE, FILE_SIZE, FS_ID, I_GEN, "
          ++ "I_NUM, MTIME_SEC, MTIME_NSEC, LAST_UPD, FILE_STATE, TAPE_ID, START_BLOCK, FAILED) "
          ++ "VALUES (0, '/mnt/b', 1, 0, 5, 1, 2, 3, 100, 0, 200, 2, 'T1', 0, 0);")) ∧
    SelRecall.addJob 0 sampleCode 1 0 AddJobCalls.sample "/mnt/a"
      ≠ SelRecall.addJob 0 sampleCode 1 0 AddJobCalls.sample "/mnt/b" := by
  have ha : SelRecall.addJob 0 sampleCode 1 0 AddJobCalls.sample "/mnt/a"
      = .ok (some ("INSERT INTO JOB_QUEUE (OPERATION, FILE_NAME, REQ_NUM, TARGET_STATE, FILE_SIZE, FS_ID, I_GEN, "
          ++ "I_NUM, MTIME_SEC, MTIME_NSEC, LAST_UPD, FILE_STATE, TAPE_ID, START_BLOCK, FAILED) "
          ++ "VALUES (0, '/mnt/a', 1, 0, 5, 1, 2, 3, 100, 0, 200, 2, 'T1', 0, 0);")) := by
    rfl
  have hb : SelRecall.addJob 0 sampleCode 1 0 AddJobCalls.sample "/mnt/b"
      = .ok (some ("INSERT INTO JOB_QUEUE (OPERATION, FILE_NAME, REQ_NUM, TARGET_STATE, FILE_SIZE, FS_ID, I_GEN, "
          ++ "I_NUM, MTIME_SEC, MTIME_NSEC, LAST_UPD, FILE_STATE, TAPE_ID, START_BLOCK, FAILED) "
          ++ "VALUES (0, '/mnt/b', 1, 0, 5, 1, 2, 3, 100, 0, 200, 2, 'T1', 0, 0);")) := by
    rfl
  refine ⟨ha, hb, ?_⟩
  rw [ha, hb]
  intro h
  have h2 := Option.some.inj (Except.ok.inj h)
  revert h2
  decide

/-! ## Tape file names -/

theorem digitChar_spec (d : Nat) (h : d < 10) :
    (Nat.digitChar d).toNat - 48 = d ∧ Nat.digitChar d ≠ '.' := by
  interval_cases d <;> decide

theorem decimalValue_append_singleton (l : List Char) (c : Char) :
    decimalValue (l ++ [c]) = decimalValue l * 10 + (c.toNat - 48) := by
  simp [decimalValue, List.foldl_append]

theorem toDigitsCore_spec :
    ∀ (fuel n : Nat) (ds : List Char), n < fuel →
      ∃ l, Nat.toDigitsCore 10 fuel n ds = l ++ ds ∧ '.' ∉ l ∧ decimalValue l = n := by
  intro fuel
  induction fuel with
  | zero => intro n ds h; omega
  | succ fuel ih =>
    intro n ds h
    have hd := digitChar_spec (n % 10) (Nat.mod_lt _ (by decide))
    rw [Nat.toDigitsCore]
    by_cases h0 : n / 10 = 0
    · simp only [h0, if_true]
      refine ⟨[Nat.digitChar (n % 10)], rfl, ?_, ?_⟩
      · simpa using hd.2.symm
      · have hn : n % 10 = n := Nat.mod_eq_of_lt (by omega)
        have h1 := hd.1
        rw [hn] at h1
        simp [decimalValue, hn, h1]
    · simp only [h0, if_false]
      have hlt : n / 10 < fuel := by omega
      obtain ⟨l, hl, hdot, hval⟩ := ih (n / 10) (Nat.digitChar (n % 10) :: ds) hlt
      refine ⟨l ++ [Nat.digitChar (n % 10)], ?_, ?_, ?_⟩
      · rw [hl]; simp
      · simp only [List.mem_append, List.mem_singleton, not_or]
        exact ⟨hdot, hd.2.symm⟩
      · rw [decimalValue_append_singleton, hval, hd.1]
        omega

theorem toString_nat_spec (n : Nat) :
    '.' ∉ (toString n).data ∧ decimalValue (toString n).data = n := by
  obtain ⟨l, hl, hdot, hval⟩ := toDigitsCore_spec (n + 1) n [] (by omega)
  have : (toString n).data = l := by
    show (Nat.repr n).data = l
    simp [Nat.repr, Nat.toDigits, hl, List.asString]
  rw [this]
  exact ⟨hdot, hval⟩

theorem toString_nat_injective (a b : Nat) (h : (toString a).data = (toString b).data) :
    a = b := by
  rw [← (toString_nat_spec a).2, ← (toString_nat_spec b).2, h]

theorem append_dot_inj :
    ∀ (x y r s : List Char), '.' ∉ x → '.' ∉ y → x ++ '.' :: r = y ++ '.' :: s →
      x = y ∧ r = s := by
  intro x
  induction x with
  | nil =>
    intro y r s _ hy h
    cases y with
    | nil => simpa using h
    | cons c y =>
      simp only [List.nil_append, List.cons_append, List.cons.injEq] at h
      exact absurd (by simp [← h.1]) hy
  | cons c x ih =>
    intro y r s hx hy h
    cases y with
    | nil =>
      simp only [List.nil_append, List.cons_append, List.cons.injEq] at h
      exact absurd (by simp [h.1]) hx
    | cons d y =>
      simp only [List.cons_append, List.cons.injEq] at h
      simp only [List.mem_cons, not_or] at hx hy
      obtain ⟨h1, h2⟩ := ih y r s hx.2 hy.2 h.2
      exact ⟨by rw [h.1, h1], h2⟩

/-- C28: tape file names are collision-free.  For a fixed mount point and tape
ID (and fixed constants), `getTapeName` gives two identity tuples
(fsid_h, fsid_l, igen, inum) the same path name exactly when the tuples are
equal; and the overload that takes the file object returns the name that the
other overload returns for the identity of the object and the same tape ID. -/
theorem getTapeName_collision_free (mountPoint DELIM LTFSDM_DATA_DIR LTFS_NAME tapeId : String)
    (a b : Server.fuid_t) :
    (Server.getTapeName mountPoint DELIM LTFSDM_DATA_DIR LTFS_NAME a.fsid_h a.fsid_l a.igen
        a.inum tapeId
      = Server.getTapeName mountPoint DELIM LTFSDM_DATA_DIR LTFS_NAME b.fsid_h b.fsid_l b.igen
        b.inum tapeId ↔ a = b) ∧
    Server.getTapeNameFsObj mountPoint DELIM LTFSDM_DATA_DIR LTFS_NAME a tapeId
      = Server.getTapeName mountPoint DELIM LTFSDM_DATA_DIR LTFS_NAME a.fsid_h a.fsid_l a.igen
        a.inum tapeId := by
  refine ⟨⟨?_, ?_⟩, rfl⟩
  · intro h
    have hd := congrArg String.data h
    simp only [Server.getTapeName, String.data_append, List.append_assoc] at hd
    have h1 := List.append_cancel_left hd
    have h2 := List.append_cancel_left h1
    have h3 := List.append_cancel_left h2
    have h4 := List.append_cancel_left h3
    have h5 := List.append_cancel_left h4
    have h6 := List.append_cancel_left h5
    have h7 := List.append_cancel_left h6
    have h8 := List.append_cancel_left h7
    have hdot : (".".data : List Char) = ['.'] := rfl
    simp only [hdot, List.singleton_append] at h8
    obtain ⟨e1, r1⟩ := append_dot_inj _ _ _ _ (toString_nat_spec a.fsid_h).1
      (toString_nat_spec b.fsid_h).1 h8
    obtain ⟨e2, r2⟩ := append_dot_inj _ _ _ _ (toString_nat_spec a.fsid_l).1
      (toString_nat_spec b.fsid_l).1 r1
    obtain ⟨e3, r3⟩ := append_dot_inj _ _ _ _ (toString_nat_spec a.igen).1
      (toString_nat_spec b.igen).1 r2
    obtain ⟨a1, a2, a3, a4⟩ := a
    obtain ⟨b1, b2, b3, b4⟩ := b
    simp only at e1 e2 e3 r3
    rw [toString_nat_injective _ _ e1, toString_nat_injective _ _ e2,
      toString_nat_injective _ _ e3, toString_nat_injective _ _ r3]
  · rintro rfl
    rfl

/-! ## `Server::createLink` -/

theorem findIdx_append (c : Char) (r : List Char) :
    ∀ (x : List Char) (i : Nat), c ∉ x → findIdx c (x ++ c :: r) i = i + x.length := by
  intro x
  induction x with
  | nil => intro i _; simp [findIdx]
  | cons a x ih =>
    intro i h
    simp only [List.mem_cons, not_or] at h
    have ha : ¬ a = c := fun e => h.1 e.symm
    rw [List.cons_append, findIdx, if_neg ha, ih (i + 1) h.2, List.length_cons]
    omega

theorem findIdx_not_mem (c : Char) :
    ∀ (x : List Char) (i : Nat), c ∉ x → findIdx c x i = npos := by
  intro x
  induction x with
  | nil => intro i _; rfl
  | cons a x ih =>
    intro i h
    simp only [List.mem_cons, not_or] at h
    have ha : ¬ a = c := fun e => h.1 e.symm
    rw [findIdx, if_neg ha]
    exact ih (i + 1) h.2

theorem std_find_next (P x r : List Char) (j : Nat) (hj : j ≤ x.length) (hx : '/' ∉ x) :
    std_find (P ++ x ++ '/' :: r) '/' (P.length + j) = P.length + x.length := by
  have hd : (P ++ x ++ '/' :: r).drop (P.length + j) = x.drop j ++ '/' :: r := by
    rw [List.append_assoc, List.drop_append, List.drop_append_of_le_length hj]
  rw [std_find, hd, findIdx_append '/' r (x.drop j) (P.length + j)
    (fun h => hx (List.mem_of_mem_drop h)), List.length_drop]
  omega

theorem std_find_none (P x : List Char) (pos : Nat) (hp : P.length ≤ pos) (hx : '/' ∉ x) :
    std_find (P ++ x) '/' pos = npos := by
  have hd : (P ++ x).drop pos = x.drop (pos - P.length) := by
    obtain ⟨j, rfl⟩ : ∃ j, pos = P.length + j := ⟨pos - P.length, by omega⟩
    rw [List.drop_append]
    simp
  rw [std_find, hd]
  exact findIdx_not_mem '/' _ _ (fun h => hx (List.mem_of_mem_drop h))

theorem upwards_succ (k : Nat) : upwards (k + 1) = ['.', '.', '/'] ++ upwards k := by
  simp [upwards, List.replicate_succ]

theorem slashed_cons (d : List Char) (ds : List (List Char)) :
    slashed (d :: ds) = '/' :: d ++ slashed ds := by
  simp [slashed]

theorem slashed_tail (rest : List (List Char)) (name : List Char) :
    ∃ t, slashed rest ++ '/' :: name = '/' :: t := by
  cases rest with
  | nil => exact ⟨name, rfl⟩
  | cons d rest => exact ⟨_, by rw [slashed_cons]; rfl⟩

theorem npos_mod : npos % 2 ^ 32 = 2 ^ 32 - 1 := by decide

theorem createLinkLoop_dirs (createDir : List Char → Option Exn)
    (hdir : ∀ p, createDir p = none) (tapeId name : List Char) (hname : '/' ∉ name) :
    ∀ (ds : List (List Char)) (base : List Char) (fuel pos : Nat) (relPath : List Char)
      (ops : List TapeOp),
      (∀ d ∈ ds, d ≠ [] ∧ '/' ∉ d) →
      (base ++ slashed ds ++ '/' :: name).length + 1 < 2 ^ 32 →
      ds.length < fuel → base.length + 1 ≤ pos → pos ≤ base.length + 2 →
      createLinkLoop createDir tapeId (base ++ slashed ds ++ '/' :: name) fuel pos relPath ops
        = some (.ok (relPath ++ upwards ds.length),
            ops ++ (mirrorDirs base ds).map (TapeOp.createDir tapeId)) := by
  intro ds
  induction ds with
  | nil =>
    intro base fuel pos relPath ops _ hlen hfuel hp1 _
    obtain ⟨fuel, rfl⟩ : ∃ f, fuel = f + 1 := ⟨fuel - 1, by simp at hfuel; omega⟩
    have hlink : base ++ slashed [] ++ '/' :: name = (base ++ ['/']) ++ name := by
      simp [slashed]
    rw [hlink] at hlen ⊢
    rw [createLinkLoop]
    simp only
    rw [std_find_none (base ++ ['/']) name pos (by simpa using hp1) hname, npos_mod]
    have hnot : ¬ (2 ^ 32 - 1 < (base ++ ['/'] ++ name).length) := by omega
    rw [if_neg hnot]
    simp [upwards, mirrorDirs]
  | cons d rest ih =>
    intro base fuel pos relPath ops hds hlen hfuel hp1 hp2
    obtain ⟨fuel, rfl⟩ : ∃ f, fuel = f + 1 := ⟨fuel - 1, by simp at hfuel; omega⟩
    obtain ⟨hdne, hdslash⟩ := hds d (List.mem_cons_self _ _)
    have hdlen : 1 ≤ d.length := by
      cases d with
      | nil => exact absurd rfl hdne
      | cons _ _ => simp
    obtain ⟨t, ht⟩ := slashed_tail rest name
    have hlink1 : base ++ slashed (d :: rest) ++ '/' :: name
        = (base ++ ['/']) ++ d ++ '/' :: t := by
      rw [slashed_cons, ← ht]
      simp
    have hlink2 : base ++ slashed (d :: rest) ++ '/' :: name
        = (base ++ '/' :: d) ++ slashed rest ++ '/' :: name := by
      rw [slashed_cons]
      simp
    have hfind : std_find (base ++ slashed (d :: rest) ++ '/' :: name) '/' pos
        = base.length + 1 + d.length := by
      obtain ⟨j, rfl⟩ : ∃ j, pos = (base ++ ['/']).length + j :=
        ⟨pos - (base.length + 1), by simp; omega⟩
      rw [hlink1, std_find_next (base ++ ['/']) d t j (by simp at hp2; omega) hdslash]
      simp
    have hlt : base.length + 1 + d.length
        < (base ++ slashed (d :: rest) ++ '/' :: name).length := by
      rw [hlink1]
      simp
      omega
    have htake : (base ++ slashed (d :: rest) ++ '/' :: name).take (base.length + 1 + d.length)
        = base ++ '/' :: d := by
      rw [hlink2, List.append_assoc]
      rw [List.take_append_of_le_length (by simp; omega)]
      rw [List.take_of_length_le (by simp; omega)]
    rw [createLinkLoop]
    simp only
    rw [hfind, Nat.mod_eq_of_lt (by omega), if_pos hlt, htake, hdir,
      Nat.mod_eq_of_lt (by omega)]
    simp only
    rw [hlink2] at hlen ⊢
    rw [ih (base ++ '/' :: d) fuel (base.length + 1 + d.length + 1) _ _
      (fun x hx => hds x (List.mem_cons_of_mem _ hx)) hlen (by simpa using hfuel)
      (by simp; omega) (by simp; omega)]
    simp [upwards_succ, mirrorDirs]

theorem createLinkSymlink_busy_then_ok (symlink : Nat → Option Int) (relPath link : List Char) :
    ∀ (j retry i : Nat) (ops : List TapeOp), j < retry →
      (∀ t, t < j → symlink (i + t) = some EBUSY) → symlink (i + j) = none →
      createLinkSymlink symlink relPath link retry i ops
        = (.ok (), ops ++ List.replicate j (TapeOp.symlink relPath link (some EBUSY))
            ++ [TapeOp.symlink relPath link none]) := by
  intro j
  induction j with
  | zero =>
    intro retry i ops hr _ hok
    obtain ⟨retry, rfl⟩ : ∃ r, retry = r + 1 := ⟨retry - 1, by omega⟩
    simp only [Nat.add_zero] at hok
    simp [createLinkSymlink, hok]
  | succ j ih =>
    intro retry i ops hr hbusy hok
    obtain ⟨retry, rfl⟩ : ∃ r, retry = r + 1 := ⟨retry - 1, by omega⟩
    have h0 : symlink i = some EBUSY := by simpa using hbusy 0 (by omega)
    rw [createLinkSymlink]
    simp only [h0, if_true]
    rw [ih retry (i + 1) _ (by omega)
      (fun t ht => by
        have := hbusy (t + 1) (by omega)
        rwa [show i + (t + 1) = i + 1 + t by omega] at this)
      (by rwa [show i + (j + 1) = i + 1 + j by omega] at hok)]
    simp [List.replicate_succ]

theorem splitSlash_ne_nil (l : List Char) : splitSlash l ≠ [] := by
  induction l with
  | nil => simp [splitSlash]
  | cons c cs ih =>
    rw [splitSlash]
    split
    · simp
    · split <;> simp

theorem splitSlash_of_not_mem (d : List Char) (h : '/' ∉ d) : splitSlash d = [d] := by
  induction d with
  | nil => rfl
  | cons c cs ih =>
    simp only [List.mem_cons, not_or] at h
    have hc : ¬ c = '/' := fun e => h.1 e.symm
    rw [splitSlash, if_neg hc, ih h.2]

theorem splitSlash_append_slash (b : List Char) :
    ∀ a : List Char, splitSlash (a ++ '/' :: b) = splitSlash a ++ splitSlash b := by
  intro a
  induction a with
  | nil => simp [splitSlash]
  | cons c cs ih =>
    rw [List.cons_append, splitSlash, splitSlash, ih]
    by_cases hc : c = '/'
    · simp [hc]
    · simp only [hc, if_false]
      rcases hs : splitSlash cs with _ | ⟨h, t⟩
      · exact absurd hs (splitSlash_ne_nil cs)
      · simp

theorem walk_append_slash (dir : List (List Char)) (a b : List Char) :
    walk dir (a ++ '/' :: b) = walk (walk dir a) b := by
  simp [walk, splitSlash_append_slash, List.foldl_append]

theorem walk_name (dir : List (List Char)) (d : List Char) (h1 : d ≠ []) (h2 : '/' ∉ d)
    (h3 : d ≠ ['.']) (h4 : d ≠ ['.', '.']) : walk dir d = dir ++ [d] := by
  simp [walk, splitSlash_of_not_mem d h2, walkStep, h1, h3, h4]

theorem walk_dotdot (dir : List (List Char)) : walk dir ['.', '.'] = dir.dropLast := by
  simp [walk, splitSlash, walkStep]

theorem walk_slashed :
    ∀ (ds : List (List Char)) (dir : List (List Char)) (x : List Char),
      (∀ d ∈ ds, d ≠ [] ∧ '/' ∉ d ∧ d ≠ ['.'] ∧ d ≠ ['.', '.']) →
      walk dir (x ++ slashed ds) = walk dir x ++ ds := by
  intro ds
  induction ds with
  | nil => intro dir x _; simp [slashed]
  | cons d rest ih =>
    intro dir x h
    obtain ⟨h1, h2, h3, h4⟩ := h d (List.mem_cons_self _ _)
    have e : x ++ slashed (d :: rest) = (x ++ '/' :: d) ++ slashed rest := by
      rw [slashed_cons]; simp
    rw [e, ih dir (x ++ '/' :: d) (fun y hy => h y (List.mem_cons_of_mem _ hy)),
      walk_append_slash, walk_name _ d h1 h2 h3 h4]
    simp

theorem walk_upwards (rest : List Char) :
    ∀ (ds : List (List Char)) (dir : List (List Char)),
      walk (dir ++ ds) (upwards ds.length ++ rest) = walk dir rest := by
  intro ds
  induction ds using List.reverseRecOn with
  | nil => intro dir; simp [upwards]
  | append_singleton ds d ih =>
    intro dir
    have e : upwards (ds ++ [d]).length ++ rest
        = ['.', '.'] ++ '/' :: (upwards ds.length ++ rest) := by
      rw [List.length_append, List.length_singleton, upwards_succ]
      simp
    rw [e, walk_append_slash, walk_dotdot, ← List.append_assoc, List.dropLast_concat]
    exact ih dir

/-- C22 (as amended): the tape-side mirror link.  For every mount point `M`,
tape ID `T`, primary path `/d1/.../dk/name` with `k ≥ 0` non-empty directory
components (the whole link path shorter than `2 ^ 32` characters) and data path
`M/T/rest`, such as `M/T/data/<file>`: when the calls of `createDir` return and
`symlink` succeeds within the retries, `createLink` creates the directories
`M/T/d1`, ..., `M/T/d1/.../dk` in that order, unlinks the link path and makes
a symbolic link at `M/T/d1/.../dk/name` whose target is `k` copies of `../`
followed by `rest`; and when no component `di` is `.` or `..`, that target,
resolved from the directory of the link, denotes the place that the data path
denotes. -/
theorem createLink_mirrors_path (mountPoint tapeId : List Char) (ds : List (List Char))
    (name rest : List Char) (LTFS_OPERATION_RETRY : Int) (createDir : List Char → Option Exn)
    (symlink : Nat → Option Int) (fuel j : Nat)
    (hds : ∀ d ∈ ds, d ≠ [] ∧ '/' ∉ d) (hname : '/' ∉ name)
    (hlen : (mountPoint ++ ['/'] ++ tapeId ++ (slashed ds ++ '/' :: name)).length + 1 < 2 ^ 32)
    (hdir : ∀ p, createDir p = none)
    (hj : (j : Int) < LTFS_OPERATION_RETRY)
    (hbusy : ∀ t, t < j → symlink t = some EBUSY) (hok : symlink j = none)
    (hfuel : ds.length < fuel) :
    Server.createLink mountPoint ['/'] LTFS_OPERATION_RETRY createDir symlink fuel tapeId
        (slashed ds ++ '/' :: name) (mountPoint ++ ['/'] ++ tapeId ++ '/' :: rest)
      = some (.returned,
          (mirrorDirs (mountPoint ++ ['/'] ++ tapeId) ds).map (TapeOp.createDir tapeId)
          ++ [TapeOp.unlink (mountPoint ++ ['/'] ++ tapeId ++ (slashed ds ++ '/' :: name))]
          ++ List.replicate j (TapeOp.symlink (upwards ds.length ++ rest)
              (mountPoint ++ ['/'] ++ tapeId ++ (slashed ds ++ '/' :: name)) (some EBUSY))
          ++ [TapeOp.symlink (upwards ds.length ++ rest)
              (mountPoint ++ ['/'] ++ tapeId ++ (slashed ds ++ '/' :: name)) none]) ∧
    ((∀ d ∈ ds, d ≠ ['.'] ∧ d ≠ ['.', '.']) →
      walk (walk [] (mountPoint ++ ['/'] ++ tapeId ++ slashed ds)) (upwards ds.length ++ rest)
        = walk [] (mountPoint ++ ['/'] ++ tapeId ++ '/' :: rest)) := by
  constructor
  · have hlink : mountPoint ++ ['/'] ++ tapeId ++ (slashed ds ++ '/' :: name)
        = (mountPoint ++ ['/'] ++ tapeId) ++ slashed ds ++ '/' :: name := by simp
    have hbase : (mountPoint ++ ['/'] ++ tapeId ++ ['/']).length
        = (mountPoint ++ ['/'] ++ tapeId).length + 1 := by simp; omega
    have hlen2 := hlen
    rw [hlink] at hlen2
    have hpos : (mountPoint ++ ['/'] ++ tapeId).length + 1 + 1 < 2 ^ 32 := by
      simp only [List.length_append, List.length_cons] at hlen2 ⊢
      omega
    have hloop := createLinkLoop_dirs createDir hdir tapeId name hname ds
      (mountPoint ++ ['/'] ++ tapeId) fuel ((mountPoint ++ ['/'] ++ tapeId).length + 1 + 1)
      [] [] hds hlen2 hfuel (by omega) (by omega)
    have hretry : j < LTFS_OPERATION_RETRY.toNat := by omega
    have hsym := createLinkSymlink_busy_then_ok symlink (upwards ds.length ++ rest)
      (mountPoint ++ ['/'] ++ tapeId ++ (slashed ds ++ '/' :: name)) j
      LTFS_OPERATION_RETRY.toNat 0
      ((mirrorDirs (mountPoint ++ ['/'] ++ tapeId) ds).map (TapeOp.createDir tapeId)
        ++ [TapeOp.unlink (mountPoint ++ ['/'] ++ tapeId ++ (slashed ds ++ '/' :: name))])
      hretry (fun t ht => by simpa using hbusy t ht) (by simpa using hok)
    have hdrop : ((mountPoint ++ ['/'] ++ tapeId ++ '/' :: rest).drop
        (mountPoint ++ ['/'] ++ tapeId ++ ['/']).length).take
          (mountPoint ++ ['/'] ++ tapeId ++ '/' :: rest).length = rest := by
      have e : mountPoint ++ ['/'] ++ tapeId ++ '/' :: rest
          = (mountPoint ++ ['/'] ++ tapeId ++ ['/']) ++ rest := by simp
      rw [e, List.drop_left, List.take_of_length_le (by simp; omega)]
    have hnlt : ¬ ((mountPoint ++ ['/'] ++ tapeId ++ '/' :: rest).length
        < (mountPoint ++ ['/'] ++ tapeId ++ ['/']).length) := by
      simp
    unfold Server.createLink
    simp only
    rw [hbase, Nat.mod_eq_of_lt hpos, hlink, hloop]
    simp only
    rw [← hbase, if_neg hnlt, hdrop, ← hlink]
    simp only [List.nil_append]
    rw [hsym]
  · intro hord
    have h := walk_slashed ds [] (mountPoint ++ ['/'] ++ tapeId)
      (fun d hd => ⟨(hds d hd).1, (hds d hd).2, (hord d hd).1, (hord d hd).2⟩)
    rw [h, walk_upwards, walk_append_slash]

/-- Witness of `createLink_mirrors_path`: the primary path `/a/bc/f` on tape
"T1" under the mount point `/mnt`, with the data path `/mnt/T1/data/x`. -/
theorem createLink_mirrors_path_witness :
    Server.createLink "/mnt".toList ['/'] 10 (fun _ => none) (fun _ => none) 3 "T1".toList
        "/a/bc/f".toList "/mnt/T1/data/x".toList
      = some (.returned,
          [TapeOp.createDir "T1".toList "/mnt/T1/a".toList,
           TapeOp.createDir "T1".toList "/mnt/T1/a/bc".toList,
           TapeOp.unlink "/mnt/T1/a/bc/f".toList,
           TapeOp.symlink "../../data/x".toList "/mnt/T1/a/bc/f".toList none]) ∧
    walk (walk [] "/mnt/T1/a/bc".toList) "../../data/x".toList
      = walk [] "/mnt/T1/data/x".toList := by
  have key := createLink_mirrors_path "/mnt".toList "T1".toList [['a'], ['b', 'c']] ['f']
    "data/x".toList 10 (fun _ => none) (fun _ => none) 3 0 (by decide) (by decide)
    (by decide) (fun _ => rfl) (by decide) (fun t ht => absurd ht (Nat.not_lt_zero t)) rfl
    (by decide)
  exact ⟨key.1, key.2 (by decide)⟩

/-- C22 (counterexample): the primary path `/../f`, whose one directory
component is `..`, on tape "T1" under the mount point `/mnt`, with the data
path `/mnt/T1/data/x`.  `createLink` makes the link `/mnt/T1/../f` with the
target `../data/x`; from the directory of the link, which is `/mnt`, the
target denotes `/data/x` and not the data path. -/
theorem createLink_dotdot_component_counterexample :
    Server.createLink "/mnt".toList ['/'] 10 (fun _ => none) (fun _ => none) 3 "T1".toList
        "/../f".toList "/mnt/T1/data/x".toList
      = some (.returned,
          [TapeOp.createDir "T1".toList "/mnt/T1/..".toList,
           TapeOp.unlink "/mnt/T1/../f".toList,
           TapeOp.symlink "../data/x".toList "/mnt/T1/../f".toList none]) ∧
    walk [] "/mnt/T1/..".toList = ["mnt".toList] ∧
    walk (walk [] "/mnt/T1/..".toList) "../data/x".toList = ["data".toList, "x".toList] ∧
    walk [] "/mnt/T1/data/x".toList
      = ["mnt".toList, "T1".toList, "data".toList, "x".toList] ∧
    walk (walk [] "/mnt/T1/..".toList) "../data/x".toList
      ≠ walk [] "/mnt/T1/data/x".toList := by
  decide

end LTFSDM
